import Mathlib

/-!
# Model import / export (`src/lib-model-io/model-io.cpp`)

A shallow embedding of the mesh pipeline of `model-io.cpp`:

* `import_obj_model`   — the per-shape vertex de-duplication loop,
* `optimize_model`     — the index / vertex reordering driver,
* `export_mesh_binary` — the writer of the binary container,
* `import_mesh_binary` — the reader of the binary container,

and of `make_euclidean_pattern` of `src/algo_misc.hpp`.

Conventions of the embedding.

* A `float` is modelled by its 32-bit pattern (a `Nat` below `2^32`): the code
  only copies, compares and serialises floats, it never does arithmetic on
  them.  `uint32_t` values are `Nat`s, a cast to `uint32_t` is `% 2^32`.
* A file is the list of its bytes (`Nat`s below 256), little-endian words.
* `assert` is modelled as checked: a failing assertion aborts the call.
* Undefined behaviour (an element access or a raw write outside a vector)
  is a separate kind of failure, `Failure.undefined_behaviour`.
* Loop counters are mathematical integers.
* In `make_euclidean_pattern` an `int` is an `Int`; a result outside the range of `int`
  and a division by zero are undefined behaviour.  Its unbounded loop and its recursion
  take a bound on the number of iterations and on the call depth; a run that reaches
  the bound has no outcome (`none`).
-/

set_option autoImplicit false

namespace MeshPipeline

/-! ## Outcomes -/

/-- The two `std::runtime_error`s thrown in `model-io.cpp`. -/
inductive Thrown where
  | cannot_import_model_format
  | couldnt_open
deriving DecidableEq, Repr

/-- The three `assert`s of `model-io.cpp`. -/
inductive Assertion where
  | num_face_vertices_eq_3
  | headerVersion_eq_runtime_mesh_binary_version
  | compressionVersion_eq_runtime_mesh_compression_version
deriving DecidableEq, Repr

/-- Places where the C++ code leaves defined behaviour. -/
inductive Undefined where
  | index_out_of_range
  | write_past_end_of_vector
  | header_not_fully_read
  | division_by_zero
  | signed_overflow
deriving DecidableEq, Repr

/-- How a call can end without a result. -/
inductive Failure where
  | runtime_error (what : Thrown)
  | assertion_failed (which : Assertion)
  | undefined_behaviour (what : Undefined)
deriving DecidableEq, Repr

/-! ## Value types -/

/-- The modulus of `uint32_t`. -/
def UINT32_MOD : Nat := 4294967296

/-- Three floats (each by its 32-bit pattern). -/
structure float3 where
  x : Nat
  y : Nat
  z : Nat
deriving DecidableEq, Repr

/-- Two floats (each by its 32-bit pattern). -/
structure float2 where
  x : Nat
  y : Nat
deriving DecidableEq, Repr

/-- Three `uint32_t`. -/
structure uint3 where
  x : Nat
  y : Nat
  z : Nat
deriving DecidableEq, Repr

/-- Modelled from the spec: the struct `runtime_mesh` of `model-io.hpp` (absent from the
sources), with the nine arrays of spec section 3; the element types are the ones
`import_mesh_binary` divides the byte counts by. -/
structure runtime_mesh where
  vertices : List float3 := []
  normals : List float3 := []
  colors : List float3 := []
  texcoord0 : List float2 := []
  texcoord1 : List float2 := []
  tangents : List float3 := []
  bitangents : List float3 := []
  faces : List uint3 := []
  material : List Nat := []
deriving DecidableEq, Repr

/-- Modelled from the spec: the struct `runtime_mesh_binary_header` of `model-io.hpp` (absent
from the sources): eleven `uint32_t` fields in the order of spec section 6. -/
structure runtime_mesh_binary_header where
  headerVersion : Nat
  compressionVersion : Nat
  verticesBytes : Nat
  normalsBytes : Nat
  colorsBytes : Nat
  texcoord0Bytes : Nat
  texcoord1Bytes : Nat
  tangentsBytes : Nat
  bitangentsBytes : Nat
  facesBytes : Nat
  materialsBytes : Nat
deriving DecidableEq, Repr

/-- The two version constants of `model-io.hpp` (absent from the sources), as parameters. -/
structure Versions where
  runtime_mesh_binary_version : Nat
  runtime_mesh_compression_version : Nat
deriving DecidableEq, Repr

/-! ## Raw memory of the value types -/

/-- The four bytes of a 32-bit word, little-endian. -/
def le32 (n : Nat) : List Nat :=
  [n % 256, n / 256 % 256, n / 65536 % 256, n / 16777216 % 256]

/-- The 32-bit word stored in the first four bytes of `bs`. -/
def from_le32 (bs : List Nat) : Nat :=
  bs.getD 0 0 + 256 * bs.getD 1 0 + 65536 * bs.getD 2 0 + 16777216 * bs.getD 3 0

/-- A plain-old-data element type: its `sizeof`, its raw bytes, and the value a raw
memory block of that size denotes. -/
structure Pod (α : Type) where
  sizeof : Nat
  to_bytes : α → List Nat
  of_bytes : List Nat → α

/-- Raw memory of `uint32_t`; `sizeof(uint32_t) = 4`. -/
def pod_uint32 : Pod Nat where
  sizeof := 4
  to_bytes := le32
  of_bytes := from_le32

/-- Raw memory of `float3`; `sizeof(float3) = 12`. -/
def pod_float3 : Pod float3 where
  sizeof := 12
  to_bytes := fun v => le32 v.x ++ le32 v.y ++ le32 v.z
  of_bytes := fun bs => ⟨from_le32 bs, from_le32 (bs.drop 4), from_le32 (bs.drop 8)⟩

/-- Raw memory of `float2`; `sizeof(float2) = 8`. -/
def pod_float2 : Pod float2 where
  sizeof := 8
  to_bytes := fun v => le32 v.x ++ le32 v.y
  of_bytes := fun bs => ⟨from_le32 bs, from_le32 (bs.drop 4)⟩

/-- Raw memory of `uint3`; `sizeof(uint3) = 12`. -/
def pod_uint3 : Pod uint3 where
  sizeof := 12
  to_bytes := fun v => le32 v.x ++ le32 v.y ++ le32 v.z
  of_bytes := fun bs => ⟨from_le32 bs, from_le32 (bs.drop 4), from_le32 (bs.drop 8)⟩

/-- The bytes behind `xs.data()`: the elements' raw memory, one after the other. -/
def raw_bytes {α : Type} (P : Pod α) : List α → List Nat
  | [] => []
  | x :: xs => P.to_bytes x ++ raw_bytes P xs

/-- The `count` elements a raw memory block denotes. -/
def of_raw_bytes {α : Type} (P : Pod α) : Nat → List Nat → List α
  | 0, _ => []
  | count + 1, bs => P.of_bytes (bs.take P.sizeof) :: of_raw_bytes P count (bs.drop P.sizeof)

/-! ## The binary container: `export_mesh_binary`, `import_mesh_binary` -/

/-- The header computed by `export_mesh_binary` (lines 234-245).  In
`(uint32_t)mesh.vertices.size() * sizeof(float3)` the cast binds first, the product is
taken in `size_t` and is truncated when stored in the `uint32_t` field. -/
def make_header (K : Versions) (mesh : runtime_mesh) (compressed : Bool) :
    runtime_mesh_binary_header where
  headerVersion := K.runtime_mesh_binary_version
  compressionVersion := if compressed then K.runtime_mesh_compression_version else 0
  verticesBytes := (mesh.vertices.length % UINT32_MOD * pod_float3.sizeof) % UINT32_MOD
  normalsBytes := (mesh.normals.length % UINT32_MOD * pod_float3.sizeof) % UINT32_MOD
  colorsBytes := (mesh.colors.length % UINT32_MOD * pod_float3.sizeof) % UINT32_MOD
  texcoord0Bytes := (mesh.texcoord0.length % UINT32_MOD * pod_float2.sizeof) % UINT32_MOD
  texcoord1Bytes := (mesh.texcoord1.length % UINT32_MOD * pod_float2.sizeof) % UINT32_MOD
  tangentsBytes := (mesh.tangents.length % UINT32_MOD * pod_float3.sizeof) % UINT32_MOD
  bitangentsBytes := (mesh.bitangents.length % UINT32_MOD * pod_float3.sizeof) % UINT32_MOD
  facesBytes := (mesh.faces.length % UINT32_MOD * pod_uint3.sizeof) % UINT32_MOD
  materialsBytes := (mesh.material.length % UINT32_MOD * pod_uint32.sizeof) % UINT32_MOD

/-- The raw memory of a header: its eleven words in declaration order. -/
def header_bytes (h : runtime_mesh_binary_header) : List Nat :=
  le32 h.headerVersion ++ le32 h.compressionVersion ++ le32 h.verticesBytes ++
  le32 h.normalsBytes ++ le32 h.colorsBytes ++ le32 h.texcoord0Bytes ++
  le32 h.texcoord1Bytes ++ le32 h.tangentsBytes ++ le32 h.bitangentsBytes ++
  le32 h.facesBytes ++ le32 h.materialsBytes

/-- The value of `sizeof(runtime_mesh_binary_header)`. -/
def sizeof_header : Nat := 44

/-- The header a 44-byte raw memory block denotes. -/
def header_of_bytes (bs : List Nat) : runtime_mesh_binary_header where
  headerVersion := from_le32 bs
  compressionVersion := from_le32 (bs.drop 4)
  verticesBytes := from_le32 (bs.drop 8)
  normalsBytes := from_le32 (bs.drop 12)
  colorsBytes := from_le32 (bs.drop 16)
  texcoord0Bytes := from_le32 (bs.drop 20)
  texcoord1Bytes := from_le32 (bs.drop 24)
  tangentsBytes := from_le32 (bs.drop 28)
  bitangentsBytes := from_le32 (bs.drop 32)
  facesBytes := from_le32 (bs.drop 36)
  materialsBytes := from_le32 (bs.drop 40)

/-- The call `file.write(xs.data(), n)`: the first `n` bytes behind `xs.data()`. -/
def file_write {α : Type} (P : Pod α) (xs : List α) (n : Nat) : List Nat :=
  (raw_bytes P xs).take n

/-- The bytes `export_mesh_binary` writes (lines 230-259): the header, then the nine
arrays, each cut at its header byte count. -/
def export_mesh_binary (K : Versions) (mesh : runtime_mesh) (compressed : Bool) : List Nat :=
  let header := make_header K mesh compressed
  header_bytes header ++
  file_write pod_float3 mesh.vertices header.verticesBytes ++
  file_write pod_float3 mesh.normals header.normalsBytes ++
  file_write pod_float3 mesh.colors header.colorsBytes ++
  file_write pod_float2 mesh.texcoord0 header.texcoord0Bytes ++
  file_write pod_float2 mesh.texcoord1 header.texcoord1Bytes ++
  file_write pod_float3 mesh.tangents header.tangentsBytes ++
  file_write pod_float3 mesh.bitangents header.bitangentsBytes ++
  file_write pod_uint3 mesh.faces header.facesBytes ++
  file_write pod_uint32 mesh.material header.materialsBytes

/-- The header `file.read((char*)&h, sizeof h)` leaves in `h` (line 200), when the stream
holds a whole header. -/
def read_header (stream : List Nat) : Option runtime_mesh_binary_header :=
  if sizeof_header ≤ stream.length then some (header_of_bytes (stream.take sizeof_header))
  else none

/-- The pair `xs.resize(n / sizeof(T)); file.read((char*)xs.data(), n)` (lines 207-225) on
a fresh vector.  `resize` value-initialises `n / sizeof(T)` elements (all bytes zero);
`read` stores the bytes the stream still has, at most `n`, from the start of the vector's
memory, and the stream moves on (a stream that ran short stays at its end: every later
read stores nothing).  Storing more bytes than the vector owns is a write past its end.
Returns the vector and the rest of the stream. -/
def resize_and_read {α : Type} (P : Pod α) (n : Nat) (stream : List Nat) :
    Except Failure (List α × List Nat) :=
  let count := n / P.sizeof
  let got := stream.take n
  if count * P.sizeof < got.length then
    .error (.undefined_behaviour .write_past_end_of_vector)
  else
    .ok (of_raw_bytes P count (got ++ List.replicate (count * P.sizeof - got.length) 0),
         stream.drop n)

/-- The function `import_mesh_binary` (lines 190-228), on the bytes of the file at `path`
(`none`: the file could not be opened). -/
def import_mesh_binary (K : Versions) (file : Option (List Nat)) :
    Except Failure runtime_mesh :=
  match file with
  | none => .error (.runtime_error .couldnt_open)
  | some bytes =>
    match read_header bytes with
    | none => .error (.undefined_behaviour .header_not_fully_read)
    | some h =>
      if h.headerVersion ≠ K.runtime_mesh_binary_version then
        .error (.assertion_failed .headerVersion_eq_runtime_mesh_binary_version)
      else if h.compressionVersion > 0 ∧
          h.compressionVersion ≠ K.runtime_mesh_compression_version then
        .error (.assertion_failed .compressionVersion_eq_runtime_mesh_compression_version)
      else do
        let s0 := bytes.drop sizeof_header
        let (vertices, s1) ← resize_and_read pod_float3 h.verticesBytes s0
        let (normals, s2) ← resize_and_read pod_float3 h.normalsBytes s1
        let (colors, s3) ← resize_and_read pod_float3 h.colorsBytes s2
        let (texcoord0, s4) ← resize_and_read pod_float2 h.texcoord0Bytes s3
        let (texcoord1, s5) ← resize_and_read pod_float2 h.texcoord1Bytes s4
        let (tangents, s6) ← resize_and_read pod_float3 h.tangentsBytes s5
        let (bitangents, s7) ← resize_and_read pod_float3 h.bitangentsBytes s6
        let (faces, s8) ← resize_and_read pod_uint3 h.facesBytes s7
        let (material, _) ← resize_and_read pod_uint32 h.materialsBytes s8
        return { vertices := vertices, normals := normals, colors := colors,
                 texcoord0 := texcoord0, texcoord1 := texcoord1, tangents := tangents,
                 bitangents := bitangents, faces := faces, material := material }

/-! ## The OBJ importer: `import_obj_model` -/

/-- The fields of `tinyobj::index_t` that the importer reads (`int`s; `-1` means absent). -/
structure index_t where
  vertex_index : Int
  normal_index : Int
  texcoord_index : Int
deriving DecidableEq, Repr

/-- The fields of `tinyobj::attrib_t` that the importer reads: flat arrays of floats. -/
structure attrib_t where
  vertices : List Nat
  normals : List Nat
  texcoords : List Nat
deriving DecidableEq, Repr

/-- The fields of `tinyobj::mesh_t` that the importer reads. -/
structure mesh_t where
  indices : List index_t
  num_face_vertices : List Nat
  material_ids : List Int
deriving DecidableEq, Repr

/-- The fields of `tinyobj::shape_t`. -/
structure shape_t where
  name : String
  mesh : mesh_t
deriving DecidableEq, Repr

/-- What `tinyobj::LoadObj` hands back to `import_obj_model` (line 72); `materials` is
not read by the importer. -/
structure LoadObj_result where
  status : Bool
  err : String
  attrib : attrib_t
  shapes : List shape_t
deriving DecidableEq, Repr

/-- Modelled from the spec: the struct `unique_vertex` of `model-io-util.hpp` (absent from
the sources), the de-duplication key (position, normal, texcoord) of spec section 3; the
key equality of `unordered_map_generator` is exact equality of the three members. -/
structure unique_vertex where
  position : float3
  normal : float3
  texcoord : float2
deriving DecidableEq, Repr

/-- The element `xs[i]` of a vector, `i` a `size_t`; an index outside the vector is
undefined behaviour. -/
def vector_at {α : Type} (xs : List α) (i : Nat) : Except Failure α :=
  match xs[i]? with
  | some x => .ok x
  | none => .error (.undefined_behaviour .index_out_of_range)

/-- The element `xs[i]` of a vector, `i` an `int` expression: a negative `i` converts to
a huge `size_t`, outside every vector. -/
def vector_at_int {α : Type} (xs : List α) (i : Int) : Except Failure α :=
  if 0 ≤ i then vector_at xs i.toNat
  else .error (.undefined_behaviour .index_out_of_range)

/-- Lines 111-114: the key of one corner.  Position and normal are always read from
`attrib`; the texcoord is read only when `texcoord_index != -1` and otherwise stays the
zero `float2` the default constructor leaves. -/
def make_unique_vertex (attrib : attrib_t) (idx : index_t) : Except Failure unique_vertex := do
  let px ← vector_at_int attrib.vertices (3 * idx.vertex_index + 0)
  let py ← vector_at_int attrib.vertices (3 * idx.vertex_index + 1)
  let pz ← vector_at_int attrib.vertices (3 * idx.vertex_index + 2)
  let nx ← vector_at_int attrib.normals (3 * idx.normal_index + 0)
  let ny ← vector_at_int attrib.normals (3 * idx.normal_index + 1)
  let nz ← vector_at_int attrib.normals (3 * idx.normal_index + 2)
  if idx.texcoord_index ≠ -1 then do
    let u ← vector_at_int attrib.texcoords (2 * idx.texcoord_index + 0)
    let v ← vector_at_int attrib.texcoords (2 * idx.texcoord_index + 1)
    return ⟨⟨px, py, pz⟩, ⟨nx, ny, nz⟩, ⟨u, v⟩⟩
  else
    return ⟨⟨px, py, pz⟩, ⟨nx, ny, nz⟩, ⟨0, 0⟩⟩

/-- The call `uniqueVertexMap.find(vertex)`: the index stored under the key, if any.  The
hash map is modelled by the list of its entries. -/
def map_find : List (unique_vertex × Nat) → unique_vertex → Option Nat
  | [], _ => none
  | (key, index) :: rest, vertex => if key = vertex then some index else map_find rest vertex

/-- Lines 116-132: look the corner's key up; on a hit reuse the stored index, on a miss
take `uint32_t(g.vertices.size())` as the new index, record it and append the key's three
members to `vertices`, `normals`, `texcoord0`.  Returns the corner's index and the new
mesh and map. -/
def add_corner (vertex : unique_vertex) (g : runtime_mesh)
    (uniqueVertexMap : List (unique_vertex × Nat)) :
    Nat × runtime_mesh × List (unique_vertex × Nat) :=
  match map_find uniqueVertexMap vertex with
  | some index => (index, g, uniqueVertexMap)
  | none =>
    let index := g.vertices.length % UINT32_MOD
    (index,
     { g with vertices := g.vertices ++ [vertex.position],
              normals := g.normals ++ [vertex.normal],
              texcoord0 := g.texcoord0 ++ [vertex.texcoord] },
     (vertex, index) :: uniqueVertexMap)

/-- Lines 104-137: one iteration of the face loop, for face `f` at `indexOffset`. -/
def process_face (attrib : attrib_t) (mesh : mesh_t) (f indexOffset : Nat)
    (g : runtime_mesh) (uniqueVertexMap : List (unique_vertex × Nat)) :
    Except Failure (runtime_mesh × List (unique_vertex × Nat)) := do
  let n ← vector_at mesh.num_face_vertices f
  if n ≠ 3 then
    throw (.assertion_failed .num_face_vertices_eq_3)
  let idx0 ← vector_at mesh.indices (indexOffset + 0)
  let vertex0 ← make_unique_vertex attrib idx0
  let (i0, g, uniqueVertexMap) := add_corner vertex0 g uniqueVertexMap
  let idx1 ← vector_at mesh.indices (indexOffset + 1)
  let vertex1 ← make_unique_vertex attrib idx1
  let (i1, g, uniqueVertexMap) := add_corner vertex1 g uniqueVertexMap
  let idx2 ← vector_at mesh.indices (indexOffset + 2)
  let vertex2 ← make_unique_vertex attrib idx2
  let (i2, g, uniqueVertexMap) := add_corner vertex2 g uniqueVertexMap
  let material_id ← vector_at mesh.material_ids f
  let g := if material_id > 0 then { g with material := g.material ++ [material_id.toNat] }
           else g
  return ({ g with faces := g.faces ++ [⟨i0, i1, i2⟩] }, uniqueVertexMap)

/-- Lines 102-138: the face loop, with `remaining` iterations to go from face `f`;
`indexOffset` grows by 3 per face. -/
def face_loop (attrib : attrib_t) (mesh : mesh_t) :
    Nat → Nat → Nat → runtime_mesh → List (unique_vertex × Nat) →
    Except Failure (runtime_mesh × List (unique_vertex × Nat))
  | 0, _, _, g, uniqueVertexMap => .ok (g, uniqueVertexMap)
  | remaining + 1, f, indexOffset, g, uniqueVertexMap => do
    let (g, uniqueVertexMap) ← process_face attrib mesh f indexOffset g uniqueVertexMap
    face_loop attrib mesh remaining (f + 1) (indexOffset + 3) g uniqueVertexMap

/-- Lines 88-138: the body of the shape loop for one shape, started on the mesh `g` that
`meshes[shape->name]` refers to, with a fresh `uniqueVertexMap`. -/
def import_obj_shape (attrib : attrib_t) (mesh : mesh_t) (g : runtime_mesh) :
    Except Failure runtime_mesh := do
  let (g, _) ← face_loop attrib mesh mesh.num_face_vertices.length 0 0 g []
  return g

/-- The mesh `meshes[name]` refers to: the entry of that name, or a default-constructed
(empty) mesh.  The `std::map` is modelled by the list of its entries. -/
def meshes_at : List (String × runtime_mesh) → String → runtime_mesh
  | [], _ => {}
  | (n, g) :: rest, name => if n = name then g else meshes_at rest name

/-- The map after the mesh `meshes[name]` refers to has become `g`. -/
def meshes_store : List (String × runtime_mesh) → String → runtime_mesh →
    List (String × runtime_mesh)
  | [], name, g => [(name, g)]
  | (n, g0) :: rest, name, g =>
    if n = name then (n, g) :: rest else (n, g0) :: meshes_store rest name g

/-- Lines 86-146: the loop over the shapes. -/
def shapes_loop (attrib : attrib_t) :
    List shape_t → List (String × runtime_mesh) → Except Failure (List (String × runtime_mesh))
  | [], meshes => .ok meshes
  | shape :: rest, meshes => do
    let g ← import_obj_shape attrib shape.mesh (meshes_at meshes shape.name)
    shapes_loop attrib rest (meshes_store meshes shape.name g)

/-- The function `import_obj_model` (lines 61-149), on what `tinyobj::LoadObj` returned
for the path.  The status is only used to print a warning. -/
def import_obj_model (loaded : LoadObj_result) :
    Except Failure (List (String × runtime_mesh)) :=
  shapes_loop loaded.attrib loaded.shapes []

/-- The distinct elements of a stream in the order of their first occurrence: an element
is appended when it is met for the first time. -/
def first_seen {α : Type} [DecidableEq α] (ks : List α) : List α :=
  ks.foldl (fun seen k => if k ∈ seen then seen else seen ++ [k]) []

/-! ## The optimizer driver: `optimize_model` -/

/-- The three routines of `third-party/meshoptimizer` that `optimize_model` calls (absent
from the sources), as parameters.  A routine that fills an output buffer is given the
buffer's current content and returns the elements it writes from the start of the buffer.
`analyzePostTransform` returns the statistics record, of some type `σ`;
`optimizePreTransform` writes both to `destination` and, in place, to `indices`. -/
structure meshoptimizer (σ : Type) where
  analyzePostTransform : (indices : List Nat) → (index_count vertex_count cache_size : Nat) → σ
  optimizePostTransform : (destination indices : List Nat) →
    (index_count vertex_count cache_size : Nat) → List Nat
  optimizePreTransform : (destination vertices : List float3) → (indices : List Nat) →
    (index_count vertex_count vertex_size : Nat) → List float3 × List Nat

/-- The content of a buffer after a routine has written `written` from its start: the
buffer keeps its size. -/
def overwrite {α : Type} (buffer written : List α) : List α :=
  written.take buffer.length ++ buffer.drop written.length

/-- Lines 161-166: the index list `x, y, z` of every face in turn.  It is also what the
`index_count` words at `&faces[0].x` are. -/
def flatten_faces : List uint3 → List Nat
  | [] => []
  | f :: rest => f.x :: f.y :: f.z :: flatten_faces rest

/-- Lines 179-182: the loop `for (i = 0; i < size; i += 3)` that pushes
`uint3(r[i], r[i + 1], r[i + 2])`, on the indices from `i` on; with one or two indices left
it reads past the end. -/
def rebuild_faces : List Nat → Except Failure (List uint3)
  | [] => .ok []
  | a :: b :: c :: rest =>
    match rebuild_faces rest with
    | .ok faces => .ok (⟨a, b, c⟩ :: faces)
    | .error e => .error e
  | _ => .error (.undefined_behaviour .index_out_of_range)

/-- The function `optimize_model` (lines 151-188).  Returns the mesh left in `input` and
the two statistics records that are printed. -/
def optimize_model {σ : Type} (lib : meshoptimizer σ) (input : runtime_mesh) :
    Except Failure (runtime_mesh × σ × σ) := do
  let cacheSize := 32
  let _ ← vector_at input.faces 0
  let inputStats := lib.analyzePostTransform (flatten_faces input.faces)
    (input.faces.length * 3) input.vertices.length cacheSize
  let inputIndices := flatten_faces input.faces
  let reorderedIndices := List.replicate (input.faces.length * 3) 0
  let reorderedIndices := overwrite reorderedIndices
    (lib.optimizePostTransform reorderedIndices inputIndices inputIndices.length
      input.vertices.length cacheSize)
  let reorderedVertexBuffer : List float3 := List.replicate input.vertices.length ⟨0, 0, 0⟩
  let written := lib.optimizePreTransform reorderedVertexBuffer input.vertices
    reorderedIndices reorderedIndices.length input.vertices.length pod_float3.sizeof
  let reorderedVertexBuffer := overwrite reorderedVertexBuffer written.1
  let reorderedIndices := overwrite reorderedIndices written.2
  let faces ← rebuild_faces reorderedIndices
  let output := { input with faces := faces, vertices := reorderedVertexBuffer }
  let _ ← vector_at output.faces 0
  let outStats := lib.analyzePostTransform (flatten_faces output.faces)
    (output.faces.length * 3) output.vertices.length cacheSize
  return (output, inputStats, outStats)

/-! ### The optimizer routines as the spec describes them -/

/-- The index triples of a flat index list (an incomplete last triple is dropped). -/
def triangles_of : List Nat → List uint3
  | a :: b :: c :: rest => ⟨a, b, c⟩ :: triangles_of rest
  | _ => []

/-- Modelled from the spec: the simulated vertex cache of section 4.3, taken as a FIFO of
at most `cache_size` vertex indices (oldest first); the cache after vertex `v` is
fetched. -/
def cache_fetch (cache_size : Nat) (cache : List Nat) (v : Nat) : List Nat :=
  if v ∈ cache then cache else (cache ++ [v]).drop (cache.length + 1 - cache_size)

/-- The cache after the three vertices of a triangle are fetched. -/
def cache_fetch_triangle (cache_size : Nat) (cache : List Nat) (t : uint3) : List Nat :=
  cache_fetch cache_size (cache_fetch cache_size (cache_fetch cache_size cache t.x) t.y) t.z

/-- The number of vertices of the triangle that are in the cache. -/
def cached_vertices (cache : List Nat) (t : uint3) : Nat :=
  (if t.x ∈ cache then 1 else 0) + (if t.y ∈ cache then 1 else 0) +
  (if t.z ∈ cache then 1 else 0)

/-- The triangle that reuses the most cached vertices, the earliest one among equals. -/
def most_cached (cache : List Nat) : List uint3 → Option uint3
  | [] => none
  | t :: rest =>
    match most_cached cache rest with
    | none => some t
    | some u => if cached_vertices cache t < cached_vertices cache u then some u else some t

/-- Modelled from the spec: Pass A of section 4.3 (`optimizePostTransform` of
`third-party/meshoptimizer`, absent from the sources): repeatedly emit the remaining
triangle that reuses the most currently cached vertices, ties broken by original order. -/
def pass_a (cache_size : Nat) : Nat → List Nat → List uint3 → List uint3
  | 0, _, _ => []
  | fuel + 1, cache, remaining =>
    match most_cached cache remaining with
    | none => []
    | some t => t :: pass_a cache_size fuel (cache_fetch_triangle cache_size cache t)
        (remaining.erase t)

/-- The number of cache misses of an index sequence, from a given cache state. -/
def cache_misses (cache_size : Nat) : List Nat → List Nat → Nat
  | _, [] => 0
  | cache, v :: rest =>
    (if v ∈ cache then 0 else 1) + cache_misses cache_size (cache_fetch cache_size cache v) rest

/-- Modelled from the spec: the three routines of `third-party/meshoptimizer` (absent from
the sources) as section 4.3 describes them.  The statistics are the pair (cache misses,
triangles), whose quotient is the ACMR.  Pass A is `pass_a`.  Pass B
(`optimizePreTransform`) copies the vertices into first-use order of the index sequence
and rewrites every index to the new position of its vertex. -/
def meshoptimizer_spec : meshoptimizer (Nat × Nat) where
  analyzePostTransform := fun indices index_count _ cache_size =>
    (cache_misses cache_size [] (indices.take index_count), index_count / 3)
  optimizePostTransform := fun _ indices index_count _ cache_size =>
    flatten_faces (pass_a cache_size (index_count / 3) []
      (triangles_of (indices.take index_count)))
  optimizePreTransform := fun _ vertices indices index_count _ _ =>
    let order := first_seen (indices.take index_count)
    (order.map (fun i => vertices.getD i ⟨0, 0, 0⟩),
     (indices.take index_count).map (fun i => order.indexOf i))

/-! ## Notions used to state the properties of the importer -/

/-- The key of corner number `c` of a shape (corner `c % 3` of face `c / 3`), as lines
109-114 compute it. -/
def corner_key (attrib : attrib_t) (mesh : mesh_t) (c : Nat) : Except Failure unique_vertex :=
  (vector_at mesh.indices c).bind (make_unique_vertex attrib)

/-- The list `ks` is the corner stream of the shape: one key per corner of every face, in
face order. -/
def is_corner_stream (attrib : attrib_t) (mesh : mesh_t) (ks : List unique_vertex) : Prop :=
  ks.length = 3 * mesh.num_face_vertices.length ∧
  ∀ c k, ks[c]? = some k → corner_key attrib mesh c = .ok k

/-- Component `v` (0, 1, 2 for `x`, `y`, `z`) of an index triple. -/
def uint3.component (t : uint3) (v : Nat) : Nat :=
  if v = 0 then t.x else if v = 1 then t.y else t.z

/-- The vertex index a mesh stores for corner `c`: component `c % 3` of face `c / 3`. -/
def corner_index (g : runtime_mesh) (c : Nat) : Option Nat :=
  (g.faces[c / 3]?).map (fun t => t.component (c % 3))

/-- The (position, normal, texcoord) found at index `i` of the three parallel arrays. -/
def vertex_key_at (g : runtime_mesh) (i : Nat) :
    Option float3 × Option float3 × Option float2 :=
  (g.vertices[i]?, g.normals[i]?, g.texcoord0[i]?)

/-- Every face index of the mesh is below `vertices.size()`. -/
def runtime_mesh.indices_in_range (g : runtime_mesh) : Prop :=
  ∀ t ∈ g.faces, t.x < g.vertices.length ∧ t.y < g.vertices.length ∧ t.z < g.vertices.length

instance (g : runtime_mesh) : Decidable g.indices_in_range := by
  unfold runtime_mesh.indices_in_range; infer_instance

/-- The parsed shape is well formed for the importer: every face is a triangle, every
face has a material id, and the key of every corner can be read (its indices are in
range). -/
def mesh_t.readable (attrib : attrib_t) (mesh : mesh_t) : Prop :=
  (∀ n ∈ mesh.num_face_vertices, n = 3) ∧
  mesh.num_face_vertices.length ≤ mesh.material_ids.length ∧
  ∀ c, c < 3 * mesh.num_face_vertices.length → (corner_key attrib mesh c).toOption.isSome

instance (attrib : attrib_t) (mesh : mesh_t) : Decidable (mesh.readable attrib) := by
  unfold mesh_t.readable; infer_instance

/-- Every shape of the parsed source is well formed for the importer. -/
def LoadObj_result.readable (loaded : LoadObj_result) : Prop :=
  ∀ s ∈ loaded.shapes, s.mesh.readable loaded.attrib

instance (loaded : LoadObj_result) : Decidable loaded.readable := by
  unfold LoadObj_result.readable; infer_instance

/-- The index the loop gives to key `k` when `seen` lists the keys registered for the
shape and the shape was started on the mesh `g0`. -/
def new_index (g0 : runtime_mesh) (seen : List unique_vertex) (k : unique_vertex) : Nat :=
  (g0.vertices.length + seen.indexOf k) % UINT32_MOD

/-- The state change of one iteration of the face loop once its five reads have
succeeded: the three `add_corner` steps, the optional material id, the new face. -/
def face_step (vertex0 vertex1 vertex2 : unique_vertex) (material_id : Int)
    (g : runtime_mesh) (uniqueVertexMap : List (unique_vertex × Nat)) :
    runtime_mesh × List (unique_vertex × Nat) :=
  let r0 := add_corner vertex0 g uniqueVertexMap
  let r1 := add_corner vertex1 r0.2.1 r0.2.2
  let r2 := add_corner vertex2 r1.2.1 r1.2.2
  let g2 := if material_id > 0 then
      { r2.2.1 with material := r2.2.1.material ++ [material_id.toNat] }
    else r2.2.1
  ({ g2 with faces := g2.faces ++ [⟨r0.1, r1.1, r2.1⟩] }, r2.2.2)

/-- The state of the corner loop of a shape started on `g0` once the keys `seen` have
been registered: the three parallel arrays have grown by `seen`, and the map holds exactly
these keys. -/
structure seen_inv (g0 : runtime_mesh) (seen : List unique_vertex) (g : runtime_mesh)
    (uniqueVertexMap : List (unique_vertex × Nat)) : Prop where
  vertices : g.vertices = g0.vertices ++ seen.map (fun k => k.position)
  normals : g.normals = g0.normals ++ seen.map (fun k => k.normal)
  texcoord0 : g.texcoord0 = g0.texcoord0 ++ seen.map (fun k => k.texcoord)
  find : ∀ k, map_find uniqueVertexMap k =
    if k ∈ seen then some (new_index g0 seen k) else none

/-- The state of the face loop after `f` faces with corner keys `p`. -/
structure loop_inv (attrib : attrib_t) (mesh : mesh_t) (g0 : runtime_mesh) (f : Nat)
    (p : List unique_vertex) (g : runtime_mesh)
    (uniqueVertexMap : List (unique_vertex × Nat)) : Prop where
  seen : seen_inv g0 (first_seen p) g uniqueVertexMap
  length : p.length = 3 * f
  keys : ∀ c k, p[c]? = some k → corner_key attrib mesh c = .ok k
  faces : ∃ news, g.faces = g0.faces ++ news ∧ news.length = f ∧
    ∀ c k, p[c]? = some k →
      (news[c / 3]?).map (fun t => t.component (c % 3)) = some (new_index g0 (first_seen p) k)

/-! ## Well-formedness predicates -/

/-- Every scalar of a `float3` is a 32-bit pattern. -/
def float3.representable (v : float3) : Prop :=
  v.x < UINT32_MOD ∧ v.y < UINT32_MOD ∧ v.z < UINT32_MOD

/-- Every scalar of a `float2` is a 32-bit pattern. -/
def float2.representable (v : float2) : Prop :=
  v.x < UINT32_MOD ∧ v.y < UINT32_MOD

/-- Every scalar of a `uint3` is a `uint32_t`. -/
def uint3.representable (v : uint3) : Prop :=
  v.x < UINT32_MOD ∧ v.y < UINT32_MOD ∧ v.z < UINT32_MOD

/-- Every scalar stored in the mesh is a 32-bit value: the mesh is a value of the C++
type. -/
def runtime_mesh.representable (m : runtime_mesh) : Prop :=
  (∀ v ∈ m.vertices, v.representable) ∧ (∀ v ∈ m.normals, v.representable) ∧
  (∀ v ∈ m.colors, v.representable) ∧ (∀ v ∈ m.texcoord0, v.representable) ∧
  (∀ v ∈ m.texcoord1, v.representable) ∧ (∀ v ∈ m.tangents, v.representable) ∧
  (∀ v ∈ m.bitangents, v.representable) ∧ (∀ v ∈ m.faces, v.representable) ∧
  (∀ v ∈ m.material, v < UINT32_MOD)

/-- The data-model invariants of spec section 3: every face index is below
`vertices.size()`, every per-vertex array is empty or as long as `vertices`, and
`material` is empty or as long as `faces`. -/
def runtime_mesh.valid (m : runtime_mesh) : Prop :=
  (∀ f ∈ m.faces, f.x < m.vertices.length ∧ f.y < m.vertices.length ∧
    f.z < m.vertices.length) ∧
  (m.normals = [] ∨ m.normals.length = m.vertices.length) ∧
  (m.colors = [] ∨ m.colors.length = m.vertices.length) ∧
  (m.texcoord0 = [] ∨ m.texcoord0.length = m.vertices.length) ∧
  (m.texcoord1 = [] ∨ m.texcoord1.length = m.vertices.length) ∧
  (m.tangents = [] ∨ m.tangents.length = m.vertices.length) ∧
  (m.bitangents = [] ∨ m.bitangents.length = m.vertices.length) ∧
  (m.material = [] ∨ m.material.length = m.faces.length)

/-- Each of the nine arrays occupies fewer than `2^32` bytes, so that its byte count is
a `uint32_t`. -/
def runtime_mesh.fits_container (m : runtime_mesh) : Prop :=
  m.vertices.length * pod_float3.sizeof < UINT32_MOD ∧
  m.normals.length * pod_float3.sizeof < UINT32_MOD ∧
  m.colors.length * pod_float3.sizeof < UINT32_MOD ∧
  m.texcoord0.length * pod_float2.sizeof < UINT32_MOD ∧
  m.texcoord1.length * pod_float2.sizeof < UINT32_MOD ∧
  m.tangents.length * pod_float3.sizeof < UINT32_MOD ∧
  m.bitangents.length * pod_float3.sizeof < UINT32_MOD ∧
  m.faces.length * pod_uint3.sizeof < UINT32_MOD ∧
  m.material.length * pod_uint32.sizeof < UINT32_MOD

/-- The sum of the nine byte counts of a header. -/
def runtime_mesh_binary_header.payload_bytes (h : runtime_mesh_binary_header) : Nat :=
  h.verticesBytes + h.normalsBytes + h.colorsBytes + h.texcoord0Bytes + h.texcoord1Bytes +
  h.tangentsBytes + h.bitangentsBytes + h.facesBytes + h.materialsBytes

/-- Every byte count of the header is a multiple of its array's element size. -/
def runtime_mesh_binary_header.aligned (h : runtime_mesh_binary_header) : Prop :=
  h.verticesBytes % pod_float3.sizeof = 0 ∧ h.normalsBytes % pod_float3.sizeof = 0 ∧
  h.colorsBytes % pod_float3.sizeof = 0 ∧ h.texcoord0Bytes % pod_float2.sizeof = 0 ∧
  h.texcoord1Bytes % pod_float2.sizeof = 0 ∧ h.tangentsBytes % pod_float3.sizeof = 0 ∧
  h.bitangentsBytes % pod_float3.sizeof = 0 ∧ h.facesBytes % pod_uint3.sizeof = 0 ∧
  h.materialsBytes % pod_uint32.sizeof = 0

/-- The header passes both version assertions of `import_mesh_binary`. -/
def runtime_mesh_binary_header.versions_ok (K : Versions) (h : runtime_mesh_binary_header) :
    Prop :=
  h.headerVersion = K.runtime_mesh_binary_version ∧
  (h.compressionVersion = 0 ∨ h.compressionVersion = K.runtime_mesh_compression_version)

/-- The laws a `Pod` obeys on the values `ok` of its type. -/
structure Pod.Lawful {α : Type} (P : Pod α) (ok : α → Prop) : Prop where
  sizeof_pos : 0 < P.sizeof
  length_to_bytes : ∀ x, (P.to_bytes x).length = P.sizeof
  of_to_bytes : ∀ x, ok x → P.of_bytes (P.to_bytes x) = x

instance (v : float3) : Decidable v.representable := by
  unfold float3.representable; infer_instance

instance (v : float2) : Decidable v.representable := by
  unfold float2.representable; infer_instance

instance (v : uint3) : Decidable v.representable := by
  unfold uint3.representable; infer_instance

instance (m : runtime_mesh) : Decidable m.representable := by
  unfold runtime_mesh.representable; infer_instance

instance (m : runtime_mesh) : Decidable m.valid := by
  unfold runtime_mesh.valid; infer_instance

instance (m : runtime_mesh) : Decidable m.fits_container := by
  unfold runtime_mesh.fits_container; infer_instance

instance (h : runtime_mesh_binary_header) : Decidable h.aligned := by
  unfold runtime_mesh_binary_header.aligned; infer_instance

instance (K : Versions) (h : runtime_mesh_binary_header) : Decidable (h.versions_ok K) := by
  unfold runtime_mesh_binary_header.versions_ok; infer_instance

/-! ## Concrete inputs -/

/-- A valid mesh of 357913942 vertices (`357913942 * 12 = 2^32 + 8` bytes of positions)
and no faces. -/
def huge_mesh : runtime_mesh :=
  { vertices := List.replicate 357913942 ⟨0, 0, 0⟩ }

/-- The version constants used in the concrete examples. -/
def versions_1_1 : Versions := ⟨1, 1⟩

/-- A header of version 1, uncompressed, that declares `n` bytes of vertices and nothing
else. -/
def header_vertices_only (n : Nat) : runtime_mesh_binary_header :=
  ⟨1, 0, n, 0, 0, 0, 0, 0, 0, 0, 0⟩

/-- A mesh of one triangle with normals, texture coordinates and a material id. -/
def triangle_mesh : runtime_mesh :=
  { vertices := [⟨0, 0, 0⟩, ⟨1065353216, 0, 0⟩, ⟨0, 1065353216, 0⟩]
    normals := [⟨0, 0, 1065353216⟩, ⟨0, 0, 1065353216⟩, ⟨0, 0, 1065353216⟩]
    texcoord0 := [⟨0, 0⟩, ⟨1065353216, 0⟩, ⟨0, 1065353216⟩]
    faces := [⟨0, 1, 2⟩]
    material := [7] }

/-- A parsed source with one triangle over three positions and one normal, no texture
coordinates. -/
def attrib_triangle : attrib_t :=
  { vertices := [0, 0, 0, 1065353216, 0, 0, 0, 1065353216, 0]
    normals := [0, 0, 1065353216]
    texcoords := [] }

/-- The triangle (0, 1, 2) with the shared normal 0. -/
def mesh_triangle : mesh_t :=
  { indices := [⟨0, 0, -1⟩, ⟨1, 0, -1⟩, ⟨2, 0, -1⟩]
    num_face_vertices := [3]
    material_ids := [0] }

/-- Two triangles (0, 1, 2) and (0, 2, 1): six corners, three distinct keys. -/
def mesh_two_triangles : mesh_t :=
  { indices := [⟨0, 0, -1⟩, ⟨1, 0, -1⟩, ⟨2, 0, -1⟩, ⟨0, 0, -1⟩, ⟨2, 0, -1⟩, ⟨1, 0, -1⟩]
    num_face_vertices := [3, 3]
    material_ids := [0, 0] }

/-- A source whose two shapes have different names. -/
def loaded_two_shapes : LoadObj_result :=
  { status := true, err := "", attrib := attrib_triangle,
    shapes := [⟨"a", mesh_two_triangles⟩, ⟨"b", mesh_triangle⟩] }

/-- A source whose two shapes carry the same name `a` and the same triangle. -/
def loaded_same_name : LoadObj_result :=
  { status := true, err := "", attrib := attrib_triangle,
    shapes := [⟨"a", mesh_triangle⟩, ⟨"a", mesh_triangle⟩] }

/-- The three keys of the corners of `mesh_triangle`. -/
def keys_triangle : List unique_vertex :=
  [⟨⟨0, 0, 0⟩, ⟨0, 0, 1065353216⟩, ⟨0, 0⟩⟩,
   ⟨⟨1065353216, 0, 0⟩, ⟨0, 0, 1065353216⟩, ⟨0, 0⟩⟩,
   ⟨⟨0, 1065353216, 0⟩, ⟨0, 0, 1065353216⟩, ⟨0, 0⟩⟩]

/-- The mesh `import_obj_model` builds under the name `a` for `loaded_same_name`. -/
def mesh_same_name : runtime_mesh :=
  { vertices := [⟨0, 0, 0⟩, ⟨1065353216, 0, 0⟩, ⟨0, 1065353216, 0⟩,
                 ⟨0, 0, 0⟩, ⟨1065353216, 0, 0⟩, ⟨0, 1065353216, 0⟩]
    normals := List.replicate 6 ⟨0, 0, 1065353216⟩
    texcoord0 := List.replicate 6 ⟨0, 0⟩
    faces := [⟨0, 1, 2⟩, ⟨3, 4, 5⟩] }

/-- The result of `import_obj_model` on `loaded_two_shapes`. -/
def result_two_shapes : List (String × runtime_mesh) :=
  [("a", { vertices := [⟨0, 0, 0⟩, ⟨1065353216, 0, 0⟩, ⟨0, 1065353216, 0⟩]
           normals := List.replicate 3 ⟨0, 0, 1065353216⟩
           texcoord0 := List.replicate 3 ⟨0, 0⟩
           faces := [⟨0, 1, 2⟩, ⟨0, 2, 1⟩] }),
   ("b", { vertices := [⟨0, 0, 0⟩, ⟨1065353216, 0, 0⟩, ⟨0, 1065353216, 0⟩]
           normals := List.replicate 3 ⟨0, 0, 1065353216⟩
           texcoord0 := List.replicate 3 ⟨0, 0⟩
           faces := [⟨0, 1, 2⟩] })]

/-- A valid mesh of one triangle whose face lists its three vertices in the order
2, 1, 0; vertex `i` has position `(i, 0, 0)` and normal `(0, 0, 10 + i)`. -/
def mesh_reversed_triangle : runtime_mesh :=
  { vertices := [⟨0, 0, 0⟩, ⟨1, 0, 0⟩, ⟨2, 0, 0⟩]
    normals := [⟨0, 0, 10⟩, ⟨0, 0, 11⟩, ⟨0, 0, 12⟩]
    faces := [⟨2, 1, 0⟩] }

/-- A header of version 1 with the given compression version and no payload. -/
def header_compression (c : Nat) : runtime_mesh_binary_header :=
  ⟨1, c, 0, 0, 0, 0, 0, 0, 0, 0, 0⟩

/-- The material ids the loop pushes for a list of per-face ids: the positive ones, in
order, as `uint32_t`. -/
def positive_ids (ids : List Int) : List Nat :=
  ids.filterMap (fun id => if id > 0 then some id.toNat else none)

/-- Every face of the parsed shape has a material id and the key of every corner can be
read (its indices are in range); the faces need not be triangles. -/
def mesh_t.corners_readable (attrib : attrib_t) (mesh : mesh_t) : Prop :=
  mesh.num_face_vertices.length ≤ mesh.material_ids.length ∧
  ∀ c, c < 3 * mesh.num_face_vertices.length → (corner_key attrib mesh c).toOption.isSome

instance (attrib : attrib_t) (mesh : mesh_t) : Decidable (mesh.corners_readable attrib) := by
  unfold mesh_t.corners_readable; infer_instance

/-- A source with one shape of two triangles, the first with material id 1, the second
with material id 0. -/
def loaded_mixed_materials : LoadObj_result :=
  { status := true, err := "", attrib := attrib_triangle,
    shapes := [⟨"a", { mesh_two_triangles with material_ids := [1, 0] }⟩] }

/-- The result of `import_obj_model` on `loaded_mixed_materials`. -/
def result_mixed_materials : List (String × runtime_mesh) :=
  [("a", { vertices := [⟨0, 0, 0⟩, ⟨1065353216, 0, 0⟩, ⟨0, 1065353216, 0⟩]
           normals := List.replicate 3 ⟨0, 0, 1065353216⟩
           texcoord0 := List.replicate 3 ⟨0, 0⟩
           faces := [⟨0, 1, 2⟩, ⟨0, 2, 1⟩]
           material := [1] })]

/-- A parsed source with one shape `quad` whose only face has four vertex references
(a quad that was not triangulated). -/
def loaded_quad : LoadObj_result :=
  { status := true, err := "",
    attrib := { vertices := [0, 0, 0, 1065353216, 0, 0, 1065353216, 1065353216, 0,
                             0, 1065353216, 0]
                normals := [0, 0, 1065353216]
                texcoords := [] },
    shapes := [⟨"quad", { indices := [⟨0, 0, -1⟩, ⟨1, 0, -1⟩, ⟨2, 0, -1⟩, ⟨3, 0, -1⟩]
                          num_face_vertices := [4]
                          material_ids := [0] }⟩] }

/-- A parsed source without normals: one triangle over three positions whose corners have
`normal_index = -1` and `texcoord_index = -1`. -/
def loaded_missing_normal : LoadObj_result :=
  { status := true, err := "",
    attrib := { vertices := [0, 0, 0, 1065353216, 0, 0, 0, 1065353216, 0]
                normals := []
                texcoords := [] },
    shapes := [⟨"a", { indices := [⟨0, -1, -1⟩, ⟨1, -1, -1⟩, ⟨2, -1, -1⟩]
                       num_face_vertices := [3]
                       material_ids := [0] }⟩] }

/-- The loop `for (auto & a : asset) results[a.first] = a.second` (lines 21 and 26). -/
def copy_asset (results asset : List (String × runtime_mesh)) :
    List (String × runtime_mesh) :=
  asset.foldl (fun r a => meshes_store r a.1 a.2) results

/-- The function `import_fbx_model` (lines 36-59).  `USING_FBX` is the build flag;
`import_fbx_file` is what the absent FBX importer does for the path: it returns the meshes
of the asset or throws a `std::exception`, which is caught and printed. -/
def import_fbx_model (USING_FBX : Bool)
    (import_fbx_file : Except String (List (String × runtime_mesh))) :
    List (String × runtime_mesh) :=
  if USING_FBX then
    match import_fbx_file with
    | .ok meshes => copy_asset [] meshes
    | .error _ => []
  else []

/-- The function `import_model` (lines 12-34).  Its inputs are what the absent
collaborators give for the path: `ext` is `get_extension(path)`, `import_fbx_file` the
outcome of the FBX importer, `loaded` what `tinyobj::LoadObj` returns. -/
def import_model (ext : String) (USING_FBX : Bool)
    (import_fbx_file : Except String (List (String × runtime_mesh)))
    (loaded : LoadObj_result) : Except Failure (List (String × runtime_mesh)) :=
  if ext = "FBX" ∨ ext = "fbx" then
    .ok (copy_asset [] (import_fbx_model USING_FBX import_fbx_file))
  else if ext = "OBJ" ∨ ext = "obj" then do
    let asset ← import_obj_model loaded
    return copy_asset [] asset
  else
    .error (.runtime_error .cannot_import_model_format)

/-- The parsed source of a unit cube: 8 positions, one flat normal per cube face, and one
shape `cube` of 12 triangles (each of the 6 quad faces split in two), 36 corners without
texture coordinates.  The floats are the bit patterns of 0.0, 1.0 and -1.0. -/
def loaded_cube : LoadObj_result :=
  { status := true, err := "",
    attrib :=
      { vertices := [
          0, 0, 0, 1065353216, 0, 0, 1065353216, 1065353216, 0, 0, 1065353216, 0, 0, 0,
          1065353216, 1065353216, 0, 1065353216, 1065353216, 1065353216, 1065353216, 0,
          1065353216, 1065353216],
        normals := [
          0, 0, 3212836864, 0, 0, 1065353216, 0, 3212836864, 0, 0, 1065353216, 0, 3212836864,
          0, 0, 1065353216, 0, 0],
        texcoords := [] },
    shapes := [⟨"cube",
      { indices := [
          ⟨0, 0, -1⟩, ⟨3, 0, -1⟩, ⟨2, 0, -1⟩, ⟨0, 0, -1⟩, ⟨2, 0, -1⟩, ⟨1, 0, -1⟩, ⟨4, 1, -1⟩,
          ⟨5, 1, -1⟩, ⟨6, 1, -1⟩, ⟨4, 1, -1⟩, ⟨6, 1, -1⟩, ⟨7, 1, -1⟩, ⟨0, 2, -1⟩, ⟨1, 2, -1⟩,
          ⟨5, 2, -1⟩, ⟨0, 2, -1⟩, ⟨5, 2, -1⟩, ⟨4, 2, -1⟩, ⟨2, 3, -1⟩, ⟨3, 3, -1⟩, ⟨7, 3, -1⟩,
          ⟨2, 3, -1⟩, ⟨7, 3, -1⟩, ⟨6, 3, -1⟩, ⟨0, 4, -1⟩, ⟨4, 4, -1⟩, ⟨7, 4, -1⟩, ⟨0, 4, -1⟩,
          ⟨7, 4, -1⟩, ⟨3, 4, -1⟩, ⟨1, 5, -1⟩, ⟨2, 5, -1⟩, ⟨6, 5, -1⟩, ⟨1, 5, -1⟩, ⟨6, 5, -1⟩,
          ⟨5, 5, -1⟩],
        num_face_vertices := List.replicate 12 3,
        material_ids := List.replicate 12 0 }⟩] }

/-- The mesh `import_obj_model` builds for the unit cube: 24 vertices (4 per cube face)
and 12 faces. -/
def cube_mesh : runtime_mesh :=
  { vertices := [
      ⟨0, 0, 0⟩, ⟨0, 1065353216, 0⟩, ⟨1065353216, 1065353216, 0⟩, ⟨1065353216, 0, 0⟩,
      ⟨0, 0, 1065353216⟩, ⟨1065353216, 0, 1065353216⟩, ⟨1065353216, 1065353216, 1065353216⟩,
      ⟨0, 1065353216, 1065353216⟩, ⟨0, 0, 0⟩, ⟨1065353216, 0, 0⟩, ⟨1065353216, 0, 1065353216⟩,
      ⟨0, 0, 1065353216⟩, ⟨1065353216, 1065353216, 0⟩, ⟨0, 1065353216, 0⟩,
      ⟨0, 1065353216, 1065353216⟩, ⟨1065353216, 1065353216, 1065353216⟩, ⟨0, 0, 0⟩,
      ⟨0, 0, 1065353216⟩, ⟨0, 1065353216, 1065353216⟩, ⟨0, 1065353216, 0⟩, ⟨1065353216, 0, 0⟩,
      ⟨1065353216, 1065353216, 0⟩, ⟨1065353216, 1065353216, 1065353216⟩,
      ⟨1065353216, 0, 1065353216⟩],
    normals := [
      ⟨0, 0, 3212836864⟩, ⟨0, 0, 3212836864⟩, ⟨0, 0, 3212836864⟩, ⟨0, 0, 3212836864⟩,
      ⟨0, 0, 1065353216⟩, ⟨0, 0, 1065353216⟩, ⟨0, 0, 1065353216⟩, ⟨0, 0, 1065353216⟩,
      ⟨0, 3212836864, 0⟩, ⟨0, 3212836864, 0⟩, ⟨0, 3212836864, 0⟩, ⟨0, 3212836864, 0⟩,
      ⟨0, 1065353216, 0⟩, ⟨0, 1065353216, 0⟩, ⟨0, 1065353216, 0⟩, ⟨0, 1065353216, 0⟩,
      ⟨3212836864, 0, 0⟩, ⟨3212836864, 0, 0⟩, ⟨3212836864, 0, 0⟩, ⟨3212836864, 0, 0⟩,
      ⟨1065353216, 0, 0⟩, ⟨1065353216, 0, 0⟩, ⟨1065353216, 0, 0⟩, ⟨1065353216, 0, 0⟩],
    texcoord0 := List.replicate 24 ⟨0, 0⟩,
    faces := [
      ⟨0, 1, 2⟩, ⟨0, 2, 3⟩, ⟨4, 5, 6⟩, ⟨4, 6, 7⟩, ⟨8, 9, 10⟩, ⟨8, 10, 11⟩, ⟨12, 13, 14⟩,
      ⟨12, 14, 15⟩, ⟨16, 17, 18⟩, ⟨16, 18, 19⟩, ⟨20, 21, 22⟩, ⟨20, 22, 23⟩] }

/-! ## Notions used to state the cache statistics of the optimizer -/

/-- The statistics `a` = (cache misses, triangles) have an ACMR (misses divided by
triangles) at most that of `b`; the two quotients are compared by cross-multiplication. -/
def acmr_le (a b : Nat × Nat) : Prop := a.1 * b.2 ≤ b.1 * a.2

instance (a b : Nat × Nat) : Decidable (acmr_le a b) := by
  unfold acmr_le; infer_instance

/-- The ACMR of the statistics `s` = (cache misses, triangles) is at least 0.5. -/
def acmr_at_least_half (s : Nat × Nat) : Prop := s.2 ≤ 2 * s.1

instance (s : Nat × Nat) : Decidable (acmr_at_least_half s) := by
  unfold acmr_at_least_half; infer_instance

/-- The number of distinct vertex indices that the faces of the mesh reference. -/
def runtime_mesh.referenced (m : runtime_mesh) : Nat :=
  (first_seen (flatten_faces m.faces)).length

/-- A mesh of 35 vertices and 32 faces: the face (0, 1, 2), the face (0, 3, 4) that shares
vertex 0 with it, and a strip of 30 faces that starts at the edge (1, 2) and brings in one
new vertex per face. -/
def mesh_detour : runtime_mesh :=
  { vertices := (List.range 35).map (fun i => ⟨i, 0, 0⟩)
    faces := [⟨0, 1, 2⟩, ⟨0, 3, 4⟩, ⟨1, 2, 5⟩, ⟨2, 5, 6⟩, ⟨5, 6, 7⟩, ⟨6, 7, 8⟩, ⟨7, 8, 9⟩,
      ⟨8, 9, 10⟩, ⟨9, 10, 11⟩, ⟨10, 11, 12⟩, ⟨11, 12, 13⟩, ⟨12, 13, 14⟩, ⟨13, 14, 15⟩,
      ⟨14, 15, 16⟩, ⟨15, 16, 17⟩, ⟨16, 17, 18⟩, ⟨17, 18, 19⟩, ⟨18, 19, 20⟩, ⟨19, 20, 21⟩,
      ⟨20, 21, 22⟩, ⟨21, 22, 23⟩, ⟨22, 23, 24⟩, ⟨23, 24, 25⟩, ⟨24, 25, 26⟩, ⟨25, 26, 27⟩,
      ⟨26, 27, 28⟩, ⟨27, 28, 29⟩, ⟨28, 29, 30⟩, ⟨29, 30, 31⟩, ⟨30, 31, 32⟩, ⟨31, 32, 33⟩,
      ⟨32, 33, 34⟩] }

/-- A mesh of 3 vertices whose only triangle (0, 1, 2) is stored 7 times. -/
def mesh_seven_faces : runtime_mesh :=
  { vertices := [⟨0, 0, 0⟩, ⟨1, 0, 0⟩, ⟨0, 1, 0⟩]
    faces := List.replicate 7 ⟨0, 1, 2⟩ }

/-- What `tinyobj::LoadObj` hands back for a path it could not parse at all: a false
status, an error text, and nothing parsed. -/
def loaded_unparsed : LoadObj_result :=
  { status := false, err := "cannot open file", attrib := ⟨[], [], []⟩, shapes := [] }

/-- A valid mesh without faces: three vertices and nothing else. -/
def mesh_no_faces : runtime_mesh :=
  { vertices := [⟨0, 0, 0⟩, ⟨1065353216, 0, 0⟩, ⟨0, 1065353216, 0⟩] }

/-- The call does not end in a thrown `std::runtime_error`. -/
def throws_nothing {α : Type} (x : Except Failure α) : Prop :=
  ∀ what, x ≠ .error (.runtime_error what)

/-! ## Inputs for the losslessness of the de-duplication -/

/-- The triangle (2, 1, 0) with the shared normal 0. -/
def mesh_triangle_reversed : mesh_t :=
  { indices := [⟨2, 0, -1⟩, ⟨1, 0, -1⟩, ⟨0, 0, -1⟩]
    num_face_vertices := [3]
    material_ids := [0] }

/-- A source whose two shapes carry the same name `a`: the triangle (0, 1, 2), then the
triangle (2, 1, 0). -/
def loaded_same_name_reversed : LoadObj_result :=
  { status := true, err := "", attrib := attrib_triangle,
    shapes := [⟨"a", mesh_triangle⟩, ⟨"a", mesh_triangle_reversed⟩] }

/-- The mesh `import_obj_model` builds under the name `a` for
`loaded_same_name_reversed`. -/
def mesh_same_name_reversed : runtime_mesh :=
  { vertices := [⟨0, 0, 0⟩, ⟨1065353216, 0, 0⟩, ⟨0, 1065353216, 0⟩,
                 ⟨0, 1065353216, 0⟩, ⟨1065353216, 0, 0⟩, ⟨0, 0, 0⟩]
    normals := List.replicate 6 ⟨0, 0, 1065353216⟩
    texcoord0 := List.replicate 6 ⟨0, 0⟩
    faces := [⟨0, 1, 2⟩, ⟨3, 4, 5⟩] }

/-- The flat float array of `n` triples `(i, 0, 0)`, `i = 0 .. n - 1` (each float by its
bit pattern). -/
def flat_axis (n : Nat) : List Nat :=
  (List.range (3 * n)).map (fun i => if i % 3 = 0 then i / 3 else 0)

/-- Corner `c` of the shape `mesh_wrapped P F`: position `c % P`, normal `c / P`, no
texcoord. -/
def index_wrapped (P c : Nat) : index_t :=
  ⟨Int.ofNat (c % P), Int.ofNat (c / P), -1⟩

/-- The key of corner `c` of the shape `mesh_wrapped P F`. -/
def key_wrapped (P c : Nat) : unique_vertex :=
  ⟨⟨c % P, 0, 0⟩, ⟨c / P, 0, 0⟩, ⟨0, 0⟩⟩

/-- A shape of `F` triangles whose `3 * F` corners all have different keys (`P > 0`). -/
def mesh_wrapped (P F : Nat) : mesh_t :=
  { indices := (List.range (3 * F)).map (index_wrapped P)
    num_face_vertices := List.replicate F 3
    material_ids := List.replicate F 0 }

/-- A parsed source of `P` positions and `3 * F / P + 1` normals, with the one shape
`mesh_wrapped P F`.  For `P = 65536` and `F = 1431655766` the shape has `2^32 + 2` corners
and the source 65537 normals. -/
def loaded_wrapped (P F : Nat) : LoadObj_result :=
  { status := true, err := "",
    attrib := { vertices := flat_axis P, normals := flat_axis (3 * F / P + 1),
                texcoords := [] },
    shapes := [⟨"a", mesh_wrapped P F⟩] }

/-! ## The Euclidean rhythm generator: `make_euclidean_pattern` (`src/algo_misc.hpp`) -/

/-- The largest `int`. -/
def INT_MAX : Int := 2147483647

/-- The smallest `int`. -/
def INT_MIN : Int := -2147483648

/-- The `int` result of an arithmetic operation whose mathematical value is `v`: a value
outside the range of `int` is a signed overflow. -/
def int_value (v : Int) : Except Failure Int :=
  if INT_MIN ≤ v ∧ v ≤ INT_MAX then .ok v
  else .error (.undefined_behaviour .signed_overflow)

/-- The expression `a / b` on `int`: the quotient truncated towards zero. -/
def int_div (a b : Int) : Except Failure Int :=
  if b = 0 then .error (.undefined_behaviour .division_by_zero)
  else int_value (a.tdiv b)

/-- The expression `a % b` on `int`: the remainder of the truncated division, undefined
when the quotient is. -/
def int_mod (a b : Int) : Except Failure Int :=
  if b = 0 then .error (.undefined_behaviour .division_by_zero)
  else (int_value (a.tdiv b)).bind fun _ => .ok (a.tmod b)

/-- Sequencing of runs under a bound: a run that reached the bound (`none`) or failed ends
the sequence. -/
def bounded_bind {α β : Type} (x : Option (Except Failure α))
    (f : α → Option (Except Failure β)) : Option (Except Failure β) :=
  match x with
  | none => none
  | some (.error e) => some (.error e)
  | some (.ok a) => f a

/-- The loop `for (int i = 0; i < n; ++i) call(...)` on the state the calls share. -/
def repeat_call {σ : Type} (call : σ → Option (Except Failure σ)) :
    Nat → σ → Option (Except Failure σ)
  | 0, s => some (.ok s)
  | n + 1, s => bounded_bind (call s) (repeat_call call n)

/-- The recursive lambda `bjorklund` (lines 44-54), with at most `depth` nested calls.
`pattern` is the vector the calls append to; `counts` and `remainders` are only read
(`counts[level]` is read once for the whole `for` loop). -/
def bjorklund (counts remainders : List Int) :
    Nat → Int → Int → List Bool → Option (Except Failure (List Bool))
  | 0, _, _, _ => none
  | depth + 1, level, r, pattern =>
    bounded_bind (some (int_value (r + 1))) fun r =>
    if level > -1 then
      bounded_bind (some (vector_at_int counts level)) fun count =>
      bounded_bind (repeat_call (fun p => bjorklund counts remainders depth (level - 1) r p)
        count.toNat pattern) fun pattern =>
      bounded_bind (some (vector_at_int remainders level)) fun remainder =>
      if remainder ≠ 0 then bjorklund counts remainders depth (level - 2) r pattern
      else some (.ok pattern)
    else if level = -1 then some (.ok (pattern ++ [false]))
    else if level = -2 then some (.ok (pattern ++ [true]))
    else some (.ok pattern)

/-- The local variables of `make_euclidean_pattern` that the `while` loop updates. -/
structure euclid_state where
  divisor : Int
  level : Int
  counts : List Int
  remainders : List Int
deriving DecidableEq, Repr

/-- Lines 67-70: the body of the `while (true)` loop up to the test of line 71. -/
def euclid_step (s : euclid_state) : Except Failure euclid_state := do
  let r0 ← vector_at_int s.remainders s.level
  let quotient ← int_div s.divisor r0
  let counts := s.counts ++ [quotient]
  let r1 ← vector_at_int s.remainders s.level
  let remainder ← int_mod s.divisor r1
  let remainders := s.remainders ++ [remainder]
  let divisor ← vector_at_int remainders s.level
  let level ← int_value (s.level + 1)
  return { divisor := divisor, level := level, counts := counts, remainders := remainders }

/-- Lines 65-72: the `while (true)` loop, with at most `fuel` iterations; it is left when
`remainders[level] <= 1` after the body. -/
def euclid_loop : Nat → euclid_state → Option (Except Failure euclid_state)
  | 0, _ => none
  | fuel + 1, s =>
    bounded_bind (some (euclid_step s)) fun s =>
    bounded_bind (some (vector_at_int s.remainders s.level)) fun remainder =>
    if remainder ≤ 1 then some (.ok s) else euclid_loop fuel s

/-- The function `make_euclidean_pattern` (lines 38-79); `fuel` bounds the iterations of
the loop and the depth of the recursion. -/
def make_euclidean_pattern (fuel : Nat) (steps pulses : Int) :
    Option (Except Failure (List Bool)) :=
  if pulses > steps ∨ pulses = 0 ∨ steps = 0 then some (.ok [])
  else
    bounded_bind (some (int_value (steps - pulses))) fun divisor =>
    bounded_bind (euclid_loop fuel ⟨divisor, 0, [], [pulses]⟩) fun s =>
    bjorklund (s.counts ++ [s.divisor]) s.remainders fuel s.level 0 []

/-! ### Notions used to state the properties of `make_euclidean_pattern` -/

/-- The block that `bjorklund` appends at level `k - 2`: `[true]` at level `-2`, `[false]`
at level `-1`, and at level `k >= 0` the block of level `k - 1` repeated `counts[k]` times,
followed by the block of level `k - 2` when `remainders[k] != 0`. -/
def block (counts remainders : List Int) : Nat → List Bool
  | 0 => [true]
  | 1 => [false]
  | k + 2 =>
    (List.replicate (counts.getD k 0).toNat (block counts remainders (k + 1))).flatten ++
      (if remainders.getD k 0 ≠ 0 then block counts remainders k else [])

/-- A measure of patterns that adds up over concatenation (the length, the number of
pulses). -/
def additive (w : List Bool → Nat) : Prop :=
  w [] = 0 ∧ ∀ a b, w (a ++ b) = w a + w b

/-! # Lemmas and theorems -/

/-! ## Lemmas on raw memory -/

theorem length_le32 (n : Nat) : (le32 n).length = 4 := rfl

theorem from_le32_le32 (n : Nat) (rest : List Nat) (h : n < UINT32_MOD) :
    from_le32 (le32 n ++ rest) = n := by
  simp only [from_le32, le32, List.cons_append, List.nil_append, List.getD_cons_zero,
    List.getD_cons_succ, UINT32_MOD] at *
  omega

theorem pod_uint32_lawful : pod_uint32.Lawful (fun v => v < UINT32_MOD) where
  sizeof_pos := by decide
  length_to_bytes := fun _ => rfl
  of_to_bytes := fun x hx => by
    have := from_le32_le32 x [] hx
    simpa [pod_uint32] using this

theorem pod_float3_lawful : pod_float3.Lawful float3.representable where
  sizeof_pos := by decide
  length_to_bytes := fun _ => rfl
  of_to_bytes := fun x hx => by
    obtain ⟨h1, h2, h3⟩ := hx
    have e1 := from_le32_le32 x.x (le32 x.y ++ le32 x.z) h1
    have e2 := from_le32_le32 x.y (le32 x.z) h2
    have e3 := from_le32_le32 x.z [] h3
    cases x
    simp only [pod_float3, List.append_assoc] at *
    rw [e1]
    simp only [le32, List.cons_append, List.nil_append, List.drop_succ_cons, List.drop_zero,
      List.append_nil] at *
    rw [e2, e3]

theorem pod_uint3_lawful : pod_uint3.Lawful uint3.representable where
  sizeof_pos := by decide
  length_to_bytes := fun _ => rfl
  of_to_bytes := fun x hx => by
    obtain ⟨h1, h2, h3⟩ := hx
    have e1 := from_le32_le32 x.x (le32 x.y ++ le32 x.z) h1
    have e2 := from_le32_le32 x.y (le32 x.z) h2
    have e3 := from_le32_le32 x.z [] h3
    cases x
    simp only [pod_uint3, List.append_assoc] at *
    rw [e1]
    simp only [le32, List.cons_append, List.nil_append, List.drop_succ_cons, List.drop_zero,
      List.append_nil] at *
    rw [e2, e3]

theorem pod_float2_lawful : pod_float2.Lawful float2.representable where
  sizeof_pos := by decide
  length_to_bytes := fun _ => rfl
  of_to_bytes := fun x hx => by
    obtain ⟨h1, h2⟩ := hx
    have e1 := from_le32_le32 x.x (le32 x.y) h1
    have e2 := from_le32_le32 x.y [] h2
    cases x
    simp only [pod_float2] at *
    rw [e1]
    simp only [le32, List.cons_append, List.nil_append, List.drop_succ_cons, List.drop_zero,
      List.append_nil] at *
    rw [e2]

theorem length_raw_bytes {α : Type} {P : Pod α} {ok : α → Prop} (hP : P.Lawful ok)
    (xs : List α) : (raw_bytes P xs).length = xs.length * P.sizeof := by
  induction xs with
  | nil => simp [raw_bytes]
  | cons x xs ih =>
    simp only [raw_bytes, List.length_append, hP.length_to_bytes, ih, List.length_cons]
    rw [Nat.succ_mul, Nat.add_comm]

theorem length_of_raw_bytes {α : Type} (P : Pod α) (count : Nat) (bs : List Nat) :
    (of_raw_bytes P count bs).length = count := by
  induction count generalizing bs with
  | zero => rfl
  | succ n ih => simp [of_raw_bytes, ih]

theorem of_raw_bytes_raw_bytes {α : Type} {P : Pod α} {ok : α → Prop} (hP : P.Lawful ok)
    (xs : List α) (hxs : ∀ x ∈ xs, ok x) (rest : List Nat) :
    of_raw_bytes P xs.length (raw_bytes P xs ++ rest) = xs := by
  induction xs with
  | nil => rfl
  | cons x xs ih =>
    have hlen := hP.length_to_bytes x
    simp only [raw_bytes, List.length_cons, of_raw_bytes, List.append_assoc]
    rw [List.take_left' hlen, List.drop_left' hlen, hP.of_to_bytes x (hxs x (by simp)),
      ih (fun y hy => hxs y (by simp [hy]))]

theorem resize_and_read_append {α : Type} (P : Pod α) (n : Nat) (A rest : List Nat)
    (hA : A.length = n) :
    resize_and_read P n (A ++ rest) =
      if n / P.sizeof * P.sizeof < n then
        .error (.undefined_behaviour .write_past_end_of_vector)
      else
        .ok (of_raw_bytes P (n / P.sizeof)
              (A ++ List.replicate (n / P.sizeof * P.sizeof - n) 0), rest) := by
  unfold resize_and_read
  simp only [List.take_left' hA, List.drop_left' hA, hA]

theorem resize_and_read_raw {α : Type} {P : Pod α} {ok : α → Prop} (hP : P.Lawful ok)
    (xs : List α) (hxs : ∀ x ∈ xs, ok x) (rest : List Nat) :
    resize_and_read P (xs.length * P.sizeof) (raw_bytes P xs ++ rest) = .ok (xs, rest) := by
  rw [resize_and_read_append P _ _ _ (length_raw_bytes hP xs)]
  have hdiv : xs.length * P.sizeof / P.sizeof = xs.length :=
    Nat.mul_div_cancel _ hP.sizeof_pos
  simp only [hdiv, Nat.lt_irrefl, if_false, Nat.sub_self, List.replicate_zero]
  rw [of_raw_bytes_raw_bytes hP xs hxs]

theorem file_write_full {α : Type} {P : Pod α} {ok : α → Prop} (hP : P.Lawful ok)
    (xs : List α) : file_write P xs (xs.length * P.sizeof) = raw_bytes P xs := by
  unfold file_write
  exact List.take_of_length_le (by rw [length_raw_bytes hP])

theorem resize_and_read_aligned {α : Type} (P : Pod α) (n : Nat) (stream : List Nat)
    (hn : n % P.sizeof = 0) :
    ∃ xs, resize_and_read P n stream = .ok (xs, stream.drop n) ∧
      xs.length = n / P.sizeof := by
  unfold resize_and_read
  have h1 : n / P.sizeof * P.sizeof = n := Nat.div_mul_cancel (Nat.dvd_of_mod_eq_zero hn)
  have h2 : (stream.take n).length ≤ n := by simp [List.length_take]
  simp only [h1, Nat.not_lt.mpr h2, if_false]
  exact ⟨_, rfl, length_of_raw_bytes _ _ _⟩

theorem word_of_bytes (n : Nat) (h : n < 4294967296) :
    n % 256 + 256 * (n / 256 % 256) + 65536 * (n / 65536 % 256) +
      16777216 * (n / 16777216 % 256) = n := by
  omega

theorem length_header_bytes (h : runtime_mesh_binary_header) :
    (header_bytes h).length = sizeof_header := rfl

/-- A header whose eleven fields are `uint32_t` values is read back as written. -/
theorem header_of_bytes_header_bytes (h : runtime_mesh_binary_header)
    (h0 : h.headerVersion < UINT32_MOD) (h1 : h.compressionVersion < UINT32_MOD)
    (h2 : h.verticesBytes < UINT32_MOD) (h3 : h.normalsBytes < UINT32_MOD)
    (h4 : h.colorsBytes < UINT32_MOD) (h5 : h.texcoord0Bytes < UINT32_MOD)
    (h6 : h.texcoord1Bytes < UINT32_MOD) (h7 : h.tangentsBytes < UINT32_MOD)
    (h8 : h.bitangentsBytes < UINT32_MOD) (h9 : h.facesBytes < UINT32_MOD)
    (h10 : h.materialsBytes < UINT32_MOD) :
    header_of_bytes (header_bytes h) = h := by
  cases h
  simp only [header_of_bytes, header_bytes, from_le32, le32, List.cons_append,
    List.nil_append, List.getD_cons_zero, List.getD_cons_succ, List.drop_succ_cons,
    List.drop_zero, UINT32_MOD, runtime_mesh_binary_header.mk.injEq] at *
  exact ⟨word_of_bytes _ h0, word_of_bytes _ h1, word_of_bytes _ h2, word_of_bytes _ h3,
    word_of_bytes _ h4, word_of_bytes _ h5, word_of_bytes _ h6, word_of_bytes _ h7,
    word_of_bytes _ h8, word_of_bytes _ h9, word_of_bytes _ h10⟩

theorem read_header_append (h : runtime_mesh_binary_header) (payload : List Nat)
    (h0 : h.headerVersion < UINT32_MOD) (h1 : h.compressionVersion < UINT32_MOD)
    (h2 : h.verticesBytes < UINT32_MOD) (h3 : h.normalsBytes < UINT32_MOD)
    (h4 : h.colorsBytes < UINT32_MOD) (h5 : h.texcoord0Bytes < UINT32_MOD)
    (h6 : h.texcoord1Bytes < UINT32_MOD) (h7 : h.tangentsBytes < UINT32_MOD)
    (h8 : h.bitangentsBytes < UINT32_MOD) (h9 : h.facesBytes < UINT32_MOD)
    (h10 : h.materialsBytes < UINT32_MOD) :
    read_header (header_bytes h ++ payload) = some h := by
  unfold read_header
  rw [if_pos (by rw [List.length_append, length_header_bytes]; exact Nat.le_add_right _ _),
    List.take_left' (length_header_bytes h),
    header_of_bytes_header_bytes h h0 h1 h2 h3 h4 h5 h6 h7 h8 h9 h10]

theorem byte_count_eq (len s : Nat) (hs : 0 < s) (h : len * s < UINT32_MOD) :
    (len % UINT32_MOD * s) % UINT32_MOD = len * s := by
  have hlen : len < UINT32_MOD := lt_of_le_of_lt (Nat.le_mul_of_pos_right len hs) h
  rw [Nat.mod_eq_of_lt hlen, Nat.mod_eq_of_lt h]

/-- Under `fits_container` the file is the header followed by the whole raw memory of the
nine arrays. -/
theorem export_mesh_binary_eq (K : Versions) (mesh : runtime_mesh) (compressed : Bool)
    (hfit : mesh.fits_container) :
    export_mesh_binary K mesh compressed =
      header_bytes (make_header K mesh compressed) ++
      (raw_bytes pod_float3 mesh.vertices ++ (raw_bytes pod_float3 mesh.normals ++
      (raw_bytes pod_float3 mesh.colors ++ (raw_bytes pod_float2 mesh.texcoord0 ++
      (raw_bytes pod_float2 mesh.texcoord1 ++ (raw_bytes pod_float3 mesh.tangents ++
      (raw_bytes pod_float3 mesh.bitangents ++ (raw_bytes pod_uint3 mesh.faces ++
      (raw_bytes pod_uint32 mesh.material ++ []))))))))) := by
  obtain ⟨f1, f2, f3, f4, f5, f6, f7, f8, f9⟩ := hfit
  simp only [export_mesh_binary, make_header,
    byte_count_eq _ _ pod_float3_lawful.sizeof_pos f1,
    byte_count_eq _ _ pod_float3_lawful.sizeof_pos f2,
    byte_count_eq _ _ pod_float3_lawful.sizeof_pos f3,
    byte_count_eq _ _ pod_float2_lawful.sizeof_pos f4,
    byte_count_eq _ _ pod_float2_lawful.sizeof_pos f5,
    byte_count_eq _ _ pod_float3_lawful.sizeof_pos f6,
    byte_count_eq _ _ pod_float3_lawful.sizeof_pos f7,
    byte_count_eq _ _ pod_uint3_lawful.sizeof_pos f8,
    byte_count_eq _ _ pod_uint32_lawful.sizeof_pos f9,
    file_write_full pod_float3_lawful, file_write_full pod_float2_lawful,
    file_write_full pod_uint3_lawful, file_write_full pod_uint32_lawful,
    List.append_assoc, List.append_nil]

theorem read_header_make_header (K : Versions) (mesh : runtime_mesh) (compressed : Bool)
    (hK1 : K.runtime_mesh_binary_version < UINT32_MOD)
    (hK2 : K.runtime_mesh_compression_version < UINT32_MOD) :
    read_header (header_bytes (make_header K mesh compressed) ++
      (export_mesh_binary K mesh compressed).drop sizeof_header) =
      some (make_header K mesh compressed) := by
  have hpos : 0 < UINT32_MOD := by decide
  apply read_header_append
  · exact hK1
  · simp only [make_header]; split
    · exact hK2
    · exact hpos
  all_goals exact Nat.mod_lt _ hpos

theorem export_mesh_binary_split (K : Versions) (mesh : runtime_mesh) (compressed : Bool) :
    export_mesh_binary K mesh compressed =
      header_bytes (make_header K mesh compressed) ++
      (export_mesh_binary K mesh compressed).drop sizeof_header := by
  have h : ∀ (a b : List Nat), a.length = sizeof_header → a ++ b = a ++ (a ++ b).drop sizeof_header := by
    intro a b hab
    rw [List.drop_left' hab]
  simp only [export_mesh_binary, List.append_assoc]
  exact h _ _ (length_header_bytes _)

/-- The header read back from an exported file is the header that was written. -/
theorem read_header_export (K : Versions) (mesh : runtime_mesh) (compressed : Bool)
    (hK1 : K.runtime_mesh_binary_version < UINT32_MOD)
    (hK2 : K.runtime_mesh_compression_version < UINT32_MOD) :
    read_header (export_mesh_binary K mesh compressed) =
      some (make_header K mesh compressed) := by
  rw [export_mesh_binary_split]
  exact read_header_make_header K mesh compressed hK1 hK2

theorem import_mesh_binary_of_header (K : Versions) (bytes : List Nat)
    (h : runtime_mesh_binary_header) (hh : read_header bytes = some h)
    (hv : h.versions_ok K) :
    import_mesh_binary K (some bytes) =
      (resize_and_read pod_float3 h.verticesBytes (bytes.drop sizeof_header)).bind
      fun r1 => (resize_and_read pod_float3 h.normalsBytes r1.2).bind
      fun r2 => (resize_and_read pod_float3 h.colorsBytes r2.2).bind
      fun r3 => (resize_and_read pod_float2 h.texcoord0Bytes r3.2).bind
      fun r4 => (resize_and_read pod_float2 h.texcoord1Bytes r4.2).bind
      fun r5 => (resize_and_read pod_float3 h.tangentsBytes r5.2).bind
      fun r6 => (resize_and_read pod_float3 h.bitangentsBytes r6.2).bind
      fun r7 => (resize_and_read pod_uint3 h.facesBytes r7.2).bind
      fun r8 => (resize_and_read pod_uint32 h.materialsBytes r8.2).bind
      fun r9 => .ok { vertices := r1.1, normals := r2.1, colors := r3.1, texcoord0 := r4.1,
                      texcoord1 := r5.1, tangents := r6.1, bitangents := r7.1,
                      faces := r8.1, material := r9.1 } := by
  obtain ⟨hv1, hv2⟩ := hv
  have hc : ¬ (h.compressionVersion > 0 ∧
      h.compressionVersion ≠ K.runtime_mesh_compression_version) := by
    rintro ⟨hpos, hne⟩
    rcases hv2 with h0 | h1
    · omega
    · exact hne h1
  simp only [import_mesh_binary, hh, hv1, ne_eq, not_true_eq_false, if_false, hc]
  rfl

theorem resize_and_read_ok {α : Type} (P : Pod α) (n : Nat) (stream : List Nat)
    (r : List α × List Nat) (h : resize_and_read P n stream = .ok r) :
    r.1.length = n / P.sizeof ∧ r.2 = stream.drop n := by
  simp only [resize_and_read] at h
  split at h
  · cases h
  · cases h
    exact ⟨length_of_raw_bytes _ _ _, rfl⟩

theorem except_bind_ok {ε α β : Type} (x : Except ε α) (f : α → Except ε β) (b : β)
    (h : x.bind f = .ok b) : ∃ a, x = .ok a ∧ f a = .ok b := by
  cases x with
  | error e => cases h
  | ok a => exact ⟨a, rfl, h⟩

/-- Whenever `import_mesh_binary` returns a mesh, the header passed both assertions and
every array has `byteCount / elementSize` elements. -/
theorem import_mesh_binary_ok (K : Versions) (bytes : List Nat) (m : runtime_mesh)
    (hm : import_mesh_binary K (some bytes) = .ok m) :
    ∃ h, read_header bytes = some h ∧ h.versions_ok K ∧
      m.vertices.length = h.verticesBytes / 12 ∧ m.normals.length = h.normalsBytes / 12 ∧
      m.colors.length = h.colorsBytes / 12 ∧ m.texcoord0.length = h.texcoord0Bytes / 8 ∧
      m.texcoord1.length = h.texcoord1Bytes / 8 ∧ m.tangents.length = h.tangentsBytes / 12 ∧
      m.bitangents.length = h.bitangentsBytes / 12 ∧ m.faces.length = h.facesBytes / 12 ∧
      m.material.length = h.materialsBytes / 4 := by
  cases hh : read_header bytes with
  | none => simp [import_mesh_binary, hh] at hm
  | some h =>
    by_cases hv1 : h.headerVersion = K.runtime_mesh_binary_version
    · by_cases hv2 : h.compressionVersion > 0 ∧
          h.compressionVersion ≠ K.runtime_mesh_compression_version
      · simp [import_mesh_binary, hh, hv1, hv2] at hm
      · have hv : h.versions_ok K := by
          refine ⟨hv1, ?_⟩
          by_cases h0 : h.compressionVersion = 0
          · exact Or.inl h0
          · refine Or.inr ?_
            by_contra hne
            exact hv2 ⟨Nat.pos_of_ne_zero h0, hne⟩
        rw [import_mesh_binary_of_header K bytes h hh hv] at hm
        obtain ⟨r1, e1, hm⟩ := except_bind_ok _ _ _ hm
        obtain ⟨r2, e2, hm⟩ := except_bind_ok _ _ _ hm
        obtain ⟨r3, e3, hm⟩ := except_bind_ok _ _ _ hm
        obtain ⟨r4, e4, hm⟩ := except_bind_ok _ _ _ hm
        obtain ⟨r5, e5, hm⟩ := except_bind_ok _ _ _ hm
        obtain ⟨r6, e6, hm⟩ := except_bind_ok _ _ _ hm
        obtain ⟨r7, e7, hm⟩ := except_bind_ok _ _ _ hm
        obtain ⟨r8, e8, hm⟩ := except_bind_ok _ _ _ hm
        obtain ⟨r9, e9, hm⟩ := except_bind_ok _ _ _ hm
        cases hm
        exact ⟨h, rfl, hv, (resize_and_read_ok _ _ _ _ e1).1, (resize_and_read_ok _ _ _ _ e2).1,
          (resize_and_read_ok _ _ _ _ e3).1, (resize_and_read_ok _ _ _ _ e4).1,
          (resize_and_read_ok _ _ _ _ e5).1, (resize_and_read_ok _ _ _ _ e6).1,
          (resize_and_read_ok _ _ _ _ e7).1, (resize_and_read_ok _ _ _ _ e8).1,
          (resize_and_read_ok _ _ _ _ e9).1⟩
    · simp [import_mesh_binary, hh, hv1] at hm

/-! ## C1: round trip -/

/-- A mesh whose arrays fit the 32-bit byte counts and whose values are representable is
read back unchanged from the file written for it. -/
theorem import_export_of_fits (K : Versions) (mesh : runtime_mesh) (compressed : Bool)
    (hK1 : K.runtime_mesh_binary_version < UINT32_MOD)
    (hK2 : K.runtime_mesh_compression_version < UINT32_MOD)
    (hrep : mesh.representable) (hfit : mesh.fits_container) :
    import_mesh_binary K (some (export_mesh_binary K mesh compressed)) = .ok mesh := by
  have hh := read_header_export K mesh compressed hK1 hK2
  have hv : (make_header K mesh compressed).versions_ok K := by
    refine ⟨rfl, ?_⟩
    cases compressed
    · exact Or.inl rfl
    · exact Or.inr rfl
  rw [import_mesh_binary_of_header K _ _ hh hv, export_mesh_binary_eq K mesh compressed hfit,
    List.drop_left' (length_header_bytes _)]
  obtain ⟨f1, f2, f3, f4, f5, f6, f7, f8, f9⟩ := hfit
  obtain ⟨r1, r2, r3, r4, r5, r6, r7, r8, r9⟩ := hrep
  simp only [make_header,
    byte_count_eq _ _ pod_float3_lawful.sizeof_pos f1,
    byte_count_eq _ _ pod_float3_lawful.sizeof_pos f2,
    byte_count_eq _ _ pod_float3_lawful.sizeof_pos f3,
    byte_count_eq _ _ pod_float2_lawful.sizeof_pos f4,
    byte_count_eq _ _ pod_float2_lawful.sizeof_pos f5,
    byte_count_eq _ _ pod_float3_lawful.sizeof_pos f6,
    byte_count_eq _ _ pod_float3_lawful.sizeof_pos f7,
    byte_count_eq _ _ pod_uint3_lawful.sizeof_pos f8,
    byte_count_eq _ _ pod_uint32_lawful.sizeof_pos f9]
  rw [resize_and_read_raw pod_float3_lawful _ r1]
  simp only [Except.bind]
  rw [resize_and_read_raw pod_float3_lawful _ r2]
  simp only [Except.bind]
  rw [resize_and_read_raw pod_float3_lawful _ r3]
  simp only [Except.bind]
  rw [resize_and_read_raw pod_float2_lawful _ r4]
  simp only [Except.bind]
  rw [resize_and_read_raw pod_float2_lawful _ r5]
  simp only [Except.bind]
  rw [resize_and_read_raw pod_float3_lawful _ r6]
  simp only [Except.bind]
  rw [resize_and_read_raw pod_float3_lawful _ r7]
  simp only [Except.bind]
  rw [resize_and_read_raw pod_uint3_lawful _ r8]
  simp only [Except.bind]
  rw [resize_and_read_raw pod_uint32_lawful _ r9]

/-- C1 (as amended): for every mesh all of whose nine arrays occupy fewer than `2^32` bytes
(and whose scalars are 32-bit values, as in the C++ type), `import_mesh_binary` applied to
the bytes written by `export_mesh_binary` returns that very mesh, array for array, and the
header read back is the header written, field for field. -/
theorem C1_round_trip (K : Versions) (mesh : runtime_mesh) (compressed : Bool)
    (hK1 : K.runtime_mesh_binary_version < UINT32_MOD)
    (hK2 : K.runtime_mesh_compression_version < UINT32_MOD)
    (hrep : mesh.representable) (hfit : mesh.fits_container) :
    import_mesh_binary K (some (export_mesh_binary K mesh compressed)) = .ok mesh ∧
    read_header (export_mesh_binary K mesh compressed) =
      some (make_header K mesh compressed) := by
  exact ⟨import_export_of_fits K mesh compressed hK1 hK2 hrep hfit,
    read_header_export K mesh compressed hK1 hK2⟩

/-- Witness of C1 on a one-triangle mesh. -/
theorem C1_round_trip_witness :
    import_mesh_binary versions_1_1 (some (export_mesh_binary versions_1_1 triangle_mesh false))
      = .ok triangle_mesh ∧
    read_header (export_mesh_binary versions_1_1 triangle_mesh false) =
      some (make_header versions_1_1 triangle_mesh false) :=
  C1_round_trip versions_1_1 triangle_mesh false (by decide) (by decide)
    (by decide) (by decide)

theorem huge_mesh_vertices_length : huge_mesh.vertices.length = 357913942 := by
  simp only [huge_mesh, List.length_replicate]

theorem huge_mesh_verticesBytes :
    (make_header versions_1_1 huge_mesh false).verticesBytes = 8 := by
  simp only [make_header, huge_mesh_vertices_length]
  decide

theorem huge_mesh_valid : huge_mesh.valid := by
  refine ⟨?_, Or.inl rfl, Or.inl rfl, Or.inl rfl, Or.inl rfl, Or.inl rfl, Or.inl rfl,
    Or.inl rfl⟩
  intro f hf
  exact absurd hf (List.not_mem_nil f)

theorem huge_mesh_representable : huge_mesh.representable := by
  refine ⟨?_, ?_, ?_, ?_, ?_, ?_, ?_, ?_, ?_⟩
  · intro v hv
    rw [List.eq_of_mem_replicate hv]
    exact ⟨by decide, by decide, by decide⟩
  all_goals intro v hv; exact absurd hv (List.not_mem_nil v)

/-- C1 fails as stated: `huge_mesh` satisfies the data-model invariants, yet its header
says 8 bytes of vertices (`357913942 * 12` truncated to 32 bits) and the import of its
export is not `huge_mesh`. -/
theorem C1_counterexample :
    huge_mesh.valid ∧ huge_mesh.representable ∧
    (make_header versions_1_1 huge_mesh false).verticesBytes = 8 ∧
    import_mesh_binary versions_1_1 (some (export_mesh_binary versions_1_1 huge_mesh false))
      ≠ .ok huge_mesh := by
  refine ⟨huge_mesh_valid, huge_mesh_representable, huge_mesh_verticesBytes, ?_⟩
  intro hm
  obtain ⟨h, hh, _, hlen, _⟩ := import_mesh_binary_ok _ _ _ hm
  rw [read_header_export versions_1_1 huge_mesh false (by decide) (by decide)] at hh
  cases hh
  rw [huge_mesh_verticesBytes, huge_mesh_vertices_length] at hlen
  exact absurd hlen (by decide)

/-! ## C5: header version -/

/-- C5: for every container (a stream holding a whole header) whose `headerVersion` field
differs from `runtime_mesh_binary_version`, `import_mesh_binary` fails on the version
assertion of line 202 (the spec's `VersionMismatch`) and returns no mesh. -/
theorem C5_header_version_rejected (K : Versions) (bytes : List Nat)
    (h : runtime_mesh_binary_header) (hh : read_header bytes = some h)
    (hne : h.headerVersion ≠ K.runtime_mesh_binary_version) :
    import_mesh_binary K (some bytes) =
      .error (.assertion_failed .headerVersion_eq_runtime_mesh_binary_version) := by
  simp only [import_mesh_binary, hh, ne_eq, hne, not_false_eq_true, if_true]

/-- Witness of C5: the container of `triangle_mesh` with `headerVersion` incremented. -/
theorem C5_header_version_rejected_witness :
    read_header (export_mesh_binary ⟨2, 1⟩ triangle_mesh false) =
      some (make_header ⟨2, 1⟩ triangle_mesh false) ∧
    (make_header ⟨2, 1⟩ triangle_mesh false).headerVersion ≠
      versions_1_1.runtime_mesh_binary_version ∧
    import_mesh_binary versions_1_1 (some (export_mesh_binary ⟨2, 1⟩ triangle_mesh false)) =
      .error (.assertion_failed .headerVersion_eq_runtime_mesh_binary_version) :=
  ⟨read_header_export _ _ _ (by decide) (by decide), by decide,
    C5_header_version_rejected versions_1_1 (export_mesh_binary ⟨2, 1⟩ triangle_mesh false)
      (make_header ⟨2, 1⟩ triangle_mesh false)
      (read_header_export _ _ _ (by decide) (by decide)) (by decide)⟩

/-! ## Reading a stream that ends early -/

/-- Reading an aligned byte count from a stream and from the same stream followed by zero
bytes fills the vector alike; the padded stream stays padded. -/
theorem resize_and_read_pad {α : Type} (P : Pod α) (n : Nat) (stream : List Nat) (z : Nat)
    (hn : n % P.sizeof = 0) :
    ∃ xs z', resize_and_read P n stream = .ok (xs, stream.drop n) ∧
      resize_and_read P n (stream ++ List.replicate z 0) =
        .ok (xs, stream.drop n ++ List.replicate z' 0) ∧
      xs.length = n / P.sizeof := by
  have h1 : n / P.sizeof * P.sizeof = n := Nat.div_mul_cancel (Nat.dvd_of_mod_eq_zero hn)
  have h2 : (stream.take n).length ≤ n := by simp [List.length_take]
  have h3 : ((stream ++ List.replicate z 0).take n).length ≤ n := by simp [List.length_take]
  have hbuf : (stream ++ List.replicate z 0).take n ++
      List.replicate (n - ((stream ++ List.replicate z 0).take n).length) 0 =
      stream.take n ++ List.replicate (n - (stream.take n).length) 0 := by
    rw [List.take_append_eq_append_take, List.take_replicate, List.append_assoc,
      List.append_replicate_replicate]
    congr 2
    simp only [List.length_append, List.length_take, List.length_replicate]
    omega
  refine ⟨of_raw_bytes P (n / P.sizeof)
    (stream.take n ++ List.replicate (n - (stream.take n).length) 0), z - (n - stream.length),
    ?_, ?_, length_of_raw_bytes _ _ _⟩
  · simp only [resize_and_read, h1, Nat.not_lt.mpr h2, if_false]
  · simp only [resize_and_read, h1, Nat.not_lt.mpr h3, if_false, hbuf,
      List.drop_append_eq_append_drop, List.drop_replicate]

theorem read_header_pad (bytes : List Nat) (h : runtime_mesh_binary_header) (z : Nat)
    (hh : read_header bytes = some h) :
    read_header (bytes ++ List.replicate z 0) = some h ∧
    (bytes ++ List.replicate z 0).drop sizeof_header =
      bytes.drop sizeof_header ++ List.replicate z 0 := by
  unfold read_header at hh
  split at hh
  · rename_i hlen
    have hle : sizeof_header ≤ (bytes ++ List.replicate z 0).length := by
      rw [List.length_append]; omega
    have h0 : sizeof_header - bytes.length = 0 := by omega
    constructor
    · unfold read_header
      rw [if_pos hle, List.take_append_eq_append_take, h0, List.take_zero, List.append_nil]
      exact hh
    · rw [List.drop_append_eq_append_drop, h0, List.drop_zero]
  · cases hh

/-- A container with a valid, aligned header is decoded without failure, to the same mesh
as the container followed by any number of zero bytes; every array has its declared number
of elements. -/
theorem import_mesh_binary_pad (K : Versions) (bytes : List Nat)
    (h : runtime_mesh_binary_header) (hh : read_header bytes = some h)
    (hv : h.versions_ok K) (ha : h.aligned) (z : Nat) :
    ∃ m, import_mesh_binary K (some bytes) = .ok m ∧
      import_mesh_binary K (some (bytes ++ List.replicate z 0)) = .ok m ∧
      m.vertices.length = h.verticesBytes / 12 ∧ m.normals.length = h.normalsBytes / 12 ∧
      m.colors.length = h.colorsBytes / 12 ∧ m.texcoord0.length = h.texcoord0Bytes / 8 ∧
      m.texcoord1.length = h.texcoord1Bytes / 8 ∧ m.tangents.length = h.tangentsBytes / 12 ∧
      m.bitangents.length = h.bitangentsBytes / 12 ∧ m.faces.length = h.facesBytes / 12 ∧
      m.material.length = h.materialsBytes / 4 := by
  obtain ⟨a1, a2, a3, a4, a5, a6, a7, a8, a9⟩ := ha
  obtain ⟨hh', hdrop⟩ := read_header_pad bytes h z hh
  rw [import_mesh_binary_of_header K bytes h hh hv,
    import_mesh_binary_of_header K _ h hh' hv, hdrop]
  obtain ⟨x1, z1, e1, p1, l1⟩ := resize_and_read_pad pod_float3 h.verticesBytes
    (bytes.drop sizeof_header) z a1
  rw [e1, p1]; simp only [Except.bind]
  obtain ⟨x2, z2, e2, p2, l2⟩ := resize_and_read_pad pod_float3 h.normalsBytes _ z1 a2
  rw [e2, p2]; simp only [Except.bind]
  obtain ⟨x3, z3, e3, p3, l3⟩ := resize_and_read_pad pod_float3 h.colorsBytes _ z2 a3
  rw [e3, p3]; simp only [Except.bind]
  obtain ⟨x4, z4, e4, p4, l4⟩ := resize_and_read_pad pod_float2 h.texcoord0Bytes _ z3 a4
  rw [e4, p4]; simp only [Except.bind]
  obtain ⟨x5, z5, e5, p5, l5⟩ := resize_and_read_pad pod_float2 h.texcoord1Bytes _ z4 a5
  rw [e5, p5]; simp only [Except.bind]
  obtain ⟨x6, z6, e6, p6, l6⟩ := resize_and_read_pad pod_float3 h.tangentsBytes _ z5 a6
  rw [e6, p6]; simp only [Except.bind]
  obtain ⟨x7, z7, e7, p7, l7⟩ := resize_and_read_pad pod_float3 h.bitangentsBytes _ z6 a7
  rw [e7, p7]; simp only [Except.bind]
  obtain ⟨x8, z8, e8, p8, l8⟩ := resize_and_read_pad pod_uint3 h.facesBytes _ z7 a8
  rw [e8, p8]; simp only [Except.bind]
  obtain ⟨x9, z9, e9, p9, l9⟩ := resize_and_read_pad pod_uint32 h.materialsBytes _ z8 a9
  rw [e9, p9]
  exact ⟨_, rfl, rfl, l1, l2, l3, l4, l5, l6, l7, l8, l9⟩

/-! ## C9: truncated input -/

/-- C9, the code at two failing inputs whose header declares 12 bytes of vertices.  No
read of `import_mesh_binary` is followed by a look at the stream, and the stream size
measured at lines 195-197 is never used: with no payload byte at all the call returns a
mesh of one zero vertex, and with five payload bytes only it returns the vertex made of
these five bytes and seven zero bytes.  No `TruncatedFile` failure exists: every stream
with a valid header and aligned byte counts whose payload is shorter than declared is
decoded without failure, to the mesh that the stream padded with zero bytes decodes to. -/
theorem C9_truncated_input_not_rejected :
    read_header (header_bytes (header_vertices_only 12)) = some (header_vertices_only 12) ∧
    (header_vertices_only 12).versions_ok versions_1_1 ∧
    (header_bytes (header_vertices_only 12)).length - sizeof_header <
      (header_vertices_only 12).payload_bytes ∧
    import_mesh_binary versions_1_1 (some (header_bytes (header_vertices_only 12))) =
      .ok { vertices := [⟨0, 0, 0⟩] } ∧
    import_mesh_binary versions_1_1
        (some (header_bytes (header_vertices_only 12) ++ [1, 2, 3, 4, 5])) =
      .ok { vertices := [⟨67305985, 5, 0⟩] } ∧
    ∀ (K : Versions) (bytes : List Nat) (h : runtime_mesh_binary_header),
      read_header bytes = some h → h.versions_ok K → h.aligned →
      bytes.length - sizeof_header < h.payload_bytes →
      ∃ m, import_mesh_binary K (some bytes) = .ok m ∧
        import_mesh_binary K (some (bytes ++
          List.replicate (sizeof_header + h.payload_bytes - bytes.length) 0)) = .ok m :=
  ⟨by decide, ⟨rfl, Or.inl rfl⟩, by decide, by rfl, by rfl,
    fun K bytes h hh hv ha _ =>
      (import_mesh_binary_pad K bytes h hh hv ha _).imp fun _ hm => ⟨hm.1, hm.2.1⟩⟩

/-! ## C10: misaligned byte counts -/

/-- C10, the code at two failing inputs whose header declares 8 bytes of vertices (not a
multiple of 12).  No `MalformedSource` check exists.  With the 8 payload bytes present,
the vector is resized to `8 / 12 = 0` elements and the 8 bytes are then read into it,
beyond its last element.  With no payload byte present, the empty mesh is returned. -/
theorem C10_misaligned_count_not_rejected :
    read_header (header_bytes (header_vertices_only 8) ++ [1, 2, 3, 4, 5, 6, 7, 8]) =
      some (header_vertices_only 8) ∧
    ¬ (header_vertices_only 8).aligned ∧
    import_mesh_binary versions_1_1
        (some (header_bytes (header_vertices_only 8) ++ [1, 2, 3, 4, 5, 6, 7, 8])) =
      .error (.undefined_behaviour .write_past_end_of_vector) ∧
    import_mesh_binary versions_1_1 (some (header_bytes (header_vertices_only 8))) = .ok {} :=
  ⟨by decide, by decide, by rfl, by rfl⟩

/-! ## Lemmas on `first_seen` -/

section FirstSeen

variable {α : Type} [DecidableEq α]

theorem first_seen_nil : first_seen ([] : List α) = [] := rfl

theorem first_seen_concat (p : List α) (k : α) :
    first_seen (p ++ [k]) =
      if k ∈ first_seen p then first_seen p else first_seen p ++ [k] := by
  simp only [first_seen, List.foldl_append, List.foldl_cons, List.foldl_nil]

theorem mem_first_seen (p : List α) (k : α) : k ∈ first_seen p ↔ k ∈ p := by
  induction p using List.reverseRecOn generalizing k with
  | nil => simp [first_seen_nil]
  | append_singleton p a ih =>
    rw [first_seen_concat]
    by_cases ha : a ∈ first_seen p
    · rw [if_pos ha, List.mem_append, List.mem_singleton, ih]
      constructor
      · exact Or.inl
      · rintro (h | h)
        · exact h
        · rw [h]; exact (ih a).mp ha
    · rw [if_neg ha, List.mem_append, List.mem_append, ih]

theorem nodup_first_seen (p : List α) : (first_seen p).Nodup := by
  induction p using List.reverseRecOn with
  | nil => simp [first_seen_nil]
  | append_singleton p a ih =>
    rw [first_seen_concat]
    by_cases ha : a ∈ first_seen p
    · rw [if_pos ha]; exact ih
    · rw [if_neg ha]
      exact List.Nodup.append ih (List.nodup_singleton a)
        (List.disjoint_singleton.mpr ha)

theorem first_seen_append (p q : List α) : ∃ t, first_seen (p ++ q) = first_seen p ++ t := by
  induction q using List.reverseRecOn with
  | nil => exact ⟨[], by simp⟩
  | append_singleton q a ih =>
    obtain ⟨t, ht⟩ := ih
    rw [← List.append_assoc, first_seen_concat, ht]
    by_cases ha : a ∈ first_seen p ++ t
    · exact ⟨t, by rw [if_pos ha]⟩
    · exact ⟨t ++ [a], by rw [if_neg ha, List.append_assoc]⟩

/-- Index stability: the position of a key already met does not change when the stream
goes on. -/
theorem indexOf_first_seen_append (p q : List α) (k : α) (hk : k ∈ p) :
    (first_seen (p ++ q)).indexOf k = (first_seen p).indexOf k := by
  obtain ⟨t, ht⟩ := first_seen_append p q
  rw [ht, List.indexOf_append_of_mem ((mem_first_seen p k).mpr hk)]

theorem indexOf_first_seen_lt (p : List α) (k : α) (hk : k ∈ p) :
    (first_seen p).indexOf k < (first_seen p).length :=
  List.indexOf_lt_length.mpr ((mem_first_seen p k).mpr hk)

theorem length_first_seen_le (p : List α) : (first_seen p).length ≤ p.length := by
  induction p using List.reverseRecOn with
  | nil => simp [first_seen_nil]
  | append_singleton p a ih =>
    rw [first_seen_concat]
    by_cases ha : a ∈ first_seen p
    · rw [if_pos ha, List.length_append]; omega
    · rw [if_neg ha, List.length_append, List.length_append]; simpa using ih

theorem length_first_seen_eq_iff (p : List α) :
    (first_seen p).length = p.length ↔ p.Nodup := by
  induction p using List.reverseRecOn with
  | nil => simp [first_seen_nil]
  | append_singleton p a ih =>
    have hle := length_first_seen_le p
    rw [first_seen_concat, List.nodup_append]
    by_cases ha : a ∈ first_seen p
    · rw [if_pos ha]
      have hap : a ∈ p := (mem_first_seen p a).mp ha
      constructor
      · intro h
        rw [List.length_append, List.length_singleton] at h
        omega
      · rintro ⟨_, _, hd⟩
        exact absurd (List.mem_singleton_self a) (hd hap)
    · rw [if_neg ha]
      have hap : a ∉ p := fun h => ha ((mem_first_seen p a).mpr h)
      simp only [List.length_append, List.length_singleton, Nat.add_right_cancel_iff, ih,
        List.nodup_singleton, true_and, List.disjoint_singleton]
      exact ⟨fun h => ⟨h, hap⟩, fun h => h.1⟩

theorem pairwise_first_seen (p : List α) :
    (first_seen p).Pairwise (fun a b => p.indexOf a < p.indexOf b) := by
  induction p using List.reverseRecOn with
  | nil => simp [first_seen_nil]
  | append_singleton p a ih =>
    have hmono : (first_seen p).Pairwise
        (fun x y => (p ++ [a]).indexOf x < (p ++ [a]).indexOf y) := by
      refine ih.imp_of_mem ?_
      intro x y hx hy hxy
      rw [List.indexOf_append_of_mem ((mem_first_seen p x).mp hx),
        List.indexOf_append_of_mem ((mem_first_seen p y).mp hy)]
      exact hxy
    rw [first_seen_concat]
    by_cases ha : a ∈ first_seen p
    · rw [if_pos ha]; exact hmono
    · rw [if_neg ha, List.pairwise_append]
      refine ⟨hmono, List.pairwise_singleton _ _, ?_⟩
      intro x hx y hy
      rw [List.mem_singleton] at hy
      subst hy
      have hxp : x ∈ p := (mem_first_seen p x).mp hx
      have hyp : y ∉ p := fun h => ha ((mem_first_seen p y).mpr h)
      rw [List.indexOf_append_of_mem hxp, List.indexOf_append_of_not_mem hyp,
        List.indexOf_cons_self]
      exact Nat.lt_of_lt_of_le (List.indexOf_lt_length.mpr hxp) (Nat.le_add_right _ _)

end FirstSeen

/-! ## The de-duplication loop -/

theorem add_corner_hit (k : unique_vertex) (g : runtime_mesh)
    (m : List (unique_vertex × Nat)) (i : Nat) (h : map_find m k = some i) :
    add_corner k g m = (i, g, m) := by
  simp only [add_corner, h]

theorem add_corner_miss (k : unique_vertex) (g : runtime_mesh)
    (m : List (unique_vertex × Nat)) (h : map_find m k = none) :
    add_corner k g m =
      (g.vertices.length % UINT32_MOD,
       { g with vertices := g.vertices ++ [k.position], normals := g.normals ++ [k.normal],
                texcoord0 := g.texcoord0 ++ [k.texcoord] },
       (k, g.vertices.length % UINT32_MOD) :: m) := by
  simp only [add_corner, h]

theorem add_corner_spec (g0 : runtime_mesh) (seen : List unique_vertex) (g : runtime_mesh)
    (m : List (unique_vertex × Nat)) (k : unique_vertex) (h : seen_inv g0 seen g m) :
    (add_corner k g m).1 = new_index g0 (if k ∈ seen then seen else seen ++ [k]) k ∧
    seen_inv g0 (if k ∈ seen then seen else seen ++ [k])
      (add_corner k g m).2.1 (add_corner k g m).2.2 ∧
    (add_corner k g m).2.1.faces = g.faces ∧
    (add_corner k g m).2.1.material = g.material := by
  by_cases hk : k ∈ seen
  · have hf := h.find k
    rw [if_pos hk] at hf
    rw [add_corner_hit k g m _ hf, if_pos hk]
    exact ⟨rfl, h, rfl, rfl⟩
  · have hf := h.find k
    rw [if_neg hk] at hf
    have hidx : g.vertices.length % UINT32_MOD = new_index g0 (seen ++ [k]) k := by
      rw [new_index, List.indexOf_append_of_not_mem hk, List.indexOf_cons_self, h.vertices,
        List.length_append, List.length_map, Nat.add_zero]
    rw [add_corner_miss k g m hf, if_neg hk]
    refine ⟨hidx, ⟨?_, ?_, ?_, ?_⟩, rfl, rfl⟩
    · simp only [h.vertices, List.map_append, List.map_cons, List.map_nil, List.append_assoc]
    · simp only [h.normals, List.map_append, List.map_cons, List.map_nil, List.append_assoc]
    · simp only [h.texcoord0, List.map_append, List.map_cons, List.map_nil, List.append_assoc]
    · intro k'
      simp only [map_find]
      by_cases hkk : k = k'
      · subst hkk
        rw [if_pos rfl, if_pos (List.mem_append_right _ (List.mem_singleton_self k)), hidx]
      · rw [if_neg hkk, h.find k']
        by_cases hk' : k' ∈ seen
        · rw [if_pos hk', if_pos (List.mem_append_left _ hk'), new_index, new_index,
            List.indexOf_append_of_mem hk']
        · rw [if_neg hk', if_neg]
          rw [List.mem_append, List.mem_singleton]
          rintro (h1 | h1)
          · exact hk' h1
          · exact hkk h1.symm

theorem process_face_eq (attrib : attrib_t) (mesh : mesh_t) (f off : Nat) (g : runtime_mesh)
    (m : List (unique_vertex × Nat)) :
    process_face attrib mesh f off g m =
      (vector_at mesh.num_face_vertices f).bind fun n =>
      if n ≠ 3 then .error (.assertion_failed .num_face_vertices_eq_3) else
      (vector_at mesh.indices (off + 0)).bind fun idx0 =>
      (make_unique_vertex attrib idx0).bind fun k0 =>
      (vector_at mesh.indices (off + 1)).bind fun idx1 =>
      (make_unique_vertex attrib idx1).bind fun k1 =>
      (vector_at mesh.indices (off + 2)).bind fun idx2 =>
      (make_unique_vertex attrib idx2).bind fun k2 =>
      (vector_at mesh.material_ids f).bind fun mid =>
      .ok (face_step k0 k1 k2 mid g m) := by
  unfold process_face
  cases vector_at mesh.num_face_vertices f with
  | error e => rfl
  | ok n =>
    by_cases hn : n ≠ 3
    · simp only [bind, Except.bind, hn, if_true]
      rfl
    · simp only [bind, Except.bind, hn, if_false]
      rfl

theorem vector_at_ok {α : Type} (xs : List α) (i : Nat) (x : α) :
    vector_at xs i = .ok x ↔ xs[i]? = some x := by
  unfold vector_at
  cases xs[i]? with
  | none => simp
  | some y => simp

theorem corner_key_ok (attrib : attrib_t) (mesh : mesh_t) (c : Nat) (idx : index_t)
    (k : unique_vertex) (h1 : vector_at mesh.indices c = .ok idx)
    (h2 : make_unique_vertex attrib idx = .ok k) : corner_key attrib mesh c = .ok k := by
  rw [corner_key, h1]
  exact h2

theorem process_face_ok (attrib : attrib_t) (mesh : mesh_t) (f off : Nat) (g : runtime_mesh)
    (m : List (unique_vertex × Nat)) (r : runtime_mesh × List (unique_vertex × Nat))
    (h : process_face attrib mesh f off g m = .ok r) :
    ∃ k0 k1 k2 mid, mesh.num_face_vertices[f]? = some 3 ∧
      corner_key attrib mesh (off + 0) = .ok k0 ∧ corner_key attrib mesh (off + 1) = .ok k1 ∧
      corner_key attrib mesh (off + 2) = .ok k2 ∧ mesh.material_ids[f]? = some mid ∧
      r = face_step k0 k1 k2 mid g m := by
  rw [process_face_eq] at h
  obtain ⟨n, hn, h⟩ := except_bind_ok _ _ _ h
  by_cases hn3 : n ≠ 3
  · rw [if_pos hn3] at h
    cases h
  · rw [if_neg hn3] at h
    have hn3 : n = 3 := not_not.mp hn3
    subst hn3
    obtain ⟨idx0, hi0, h⟩ := except_bind_ok _ _ _ h
    obtain ⟨k0, hk0, h⟩ := except_bind_ok _ _ _ h
    obtain ⟨idx1, hi1, h⟩ := except_bind_ok _ _ _ h
    obtain ⟨k1, hk1, h⟩ := except_bind_ok _ _ _ h
    obtain ⟨idx2, hi2, h⟩ := except_bind_ok _ _ _ h
    obtain ⟨k2, hk2, h⟩ := except_bind_ok _ _ _ h
    obtain ⟨mid, hmid, h⟩ := except_bind_ok _ _ _ h
    cases h
    exact ⟨k0, k1, k2, mid, (vector_at_ok _ _ _).mp hn, corner_key_ok _ _ _ _ _ hi0 hk0,
      corner_key_ok _ _ _ _ _ hi1 hk1, corner_key_ok _ _ _ _ _ hi2 hk2,
      (vector_at_ok _ _ _).mp hmid, rfl⟩

theorem add_corner_first_seen (g0 : runtime_mesh) (p : List unique_vertex) (g : runtime_mesh)
    (m : List (unique_vertex × Nat)) (k : unique_vertex)
    (h : seen_inv g0 (first_seen p) g m) :
    (add_corner k g m).1 = new_index g0 (first_seen (p ++ [k])) k ∧
    seen_inv g0 (first_seen (p ++ [k])) (add_corner k g m).2.1 (add_corner k g m).2.2 ∧
    (add_corner k g m).2.1.faces = g.faces ∧
    (add_corner k g m).2.1.material = g.material := by
  rw [first_seen_concat]
  exact add_corner_spec g0 (first_seen p) g m k h

theorem new_index_append (g0 : runtime_mesh) (p q : List unique_vertex) (k : unique_vertex)
    (hk : k ∈ p) : new_index g0 (first_seen (p ++ q)) k = new_index g0 (first_seen p) k := by
  rw [new_index, new_index, indexOf_first_seen_append p q k hk]

theorem face_step_spec (attrib : attrib_t) (mesh : mesh_t) (g0 : runtime_mesh) (f : Nat)
    (p : List unique_vertex) (g : runtime_mesh) (m : List (unique_vertex × Nat))
    (k0 k1 k2 : unique_vertex) (mid : Int) (h : loop_inv attrib mesh g0 f p g m)
    (h0 : corner_key attrib mesh (3 * f + 0) = .ok k0)
    (h1 : corner_key attrib mesh (3 * f + 1) = .ok k1)
    (h2 : corner_key attrib mesh (3 * f + 2) = .ok k2) :
    loop_inv attrib mesh g0 (f + 1) (p ++ [k0, k1, k2])
      (face_step k0 k1 k2 mid g m).1 (face_step k0 k1 k2 mid g m).2 := by
  obtain ⟨i0, s0, f0, _⟩ := add_corner_first_seen g0 p g m k0 h.seen
  obtain ⟨i1, s1, f1, _⟩ := add_corner_first_seen g0 (p ++ [k0]) _ _ k1 s0
  obtain ⟨i2, s2, f2, _⟩ := add_corner_first_seen g0 (p ++ [k0] ++ [k1]) _ _ k2 s1
  have hp3 : p ++ [k0] ++ [k1] ++ [k2] = p ++ [k0, k1, k2] := by simp
  rw [hp3] at s2
  have hlen := h.length
  obtain ⟨news, hfaces, hnews, hidx⟩ := h.faces
  have hmem0 : k0 ∈ p ++ [k0] := List.mem_append_right _ (List.mem_singleton_self _)
  have hmem1 : k1 ∈ p ++ [k0] ++ [k1] := List.mem_append_right _ (List.mem_singleton_self _)
  have e0 : new_index g0 (first_seen (p ++ [k0, k1, k2])) k0 =
      new_index g0 (first_seen (p ++ [k0])) k0 := by
    have := new_index_append g0 (p ++ [k0]) [k1, k2] k0 hmem0
    simpa using this
  have e1 : new_index g0 (first_seen (p ++ [k0, k1, k2])) k1 =
      new_index g0 (first_seen (p ++ [k0] ++ [k1])) k1 := by
    have := new_index_append g0 (p ++ [k0] ++ [k1]) [k2] k1 hmem1
    simpa using this
  have e2 : new_index g0 (first_seen (p ++ [k0, k1, k2])) k2 =
      new_index g0 (first_seen (p ++ [k0] ++ [k1] ++ [k2])) k2 := by
    rw [hp3]
  refine ⟨?_, ?_, ?_, ?_⟩
  · -- the three parallel arrays and the map
    simp only [face_step]
    constructor
    · rw [← s2.vertices]; split <;> rfl
    · rw [← s2.normals]; split <;> rfl
    · rw [← s2.texcoord0]; split <;> rfl
    · exact s2.find
  · simp only [List.length_append, List.length_cons, List.length_nil, hlen]
    omega
  · intro c k hc
    by_cases hcp : c < p.length
    · rw [List.getElem?_append_left hcp] at hc
      exact h.keys c k hc
    · rw [List.getElem?_append_right (Nat.le_of_not_lt hcp)] at hc
      have hc3 : c - p.length < 3 := by
        by_contra hge
        rw [List.getElem?_eq_none (by simpa using Nat.le_of_not_lt hge)] at hc
        cases hc
      have hcases : c = 3 * f + 0 ∨ c = 3 * f + 1 ∨ c = 3 * f + 2 := by omega
      rcases hcases with hc0 | hc0 | hc0
      · have : c - p.length = 0 := by omega
        rw [this] at hc
        simp only [List.getElem?_cons_zero, List.getElem?_cons_succ, Option.some.injEq] at hc
        subst hc
        rw [hc0]; exact h0
      · have : c - p.length = 1 := by omega
        rw [this] at hc
        simp only [List.getElem?_cons_zero, List.getElem?_cons_succ, Option.some.injEq] at hc
        subst hc
        rw [hc0]; exact h1
      · have : c - p.length = 2 := by omega
        rw [this] at hc
        simp only [List.getElem?_cons_zero, List.getElem?_cons_succ, Option.some.injEq] at hc
        subst hc
        rw [hc0]; exact h2
  · refine ⟨news ++ [⟨(add_corner k0 g m).1,
        (add_corner k1 (add_corner k0 g m).2.1 (add_corner k0 g m).2.2).1,
        (add_corner k2 (add_corner k1 (add_corner k0 g m).2.1 (add_corner k0 g m).2.2).2.1
          (add_corner k1 (add_corner k0 g m).2.1 (add_corner k0 g m).2.2).2.2).1⟩], ?_, ?_, ?_⟩
    · simp only [face_step]
      rw [← List.append_assoc, ← hfaces, ← f0, ← f1, ← f2]
      split <;> rfl
    · rw [List.length_append, hnews]; rfl
    · intro c k hc
      by_cases hcp : c < p.length
      · rw [List.getElem?_append_left hcp] at hc
        have hk : k ∈ p := List.getElem?_mem hc
        have hdiv : c / 3 < news.length := by omega
        rw [List.getElem?_append_left hdiv, new_index_append g0 p _ k hk]
        exact hidx c k hc
      · rw [List.getElem?_append_right (Nat.le_of_not_lt hcp)] at hc
        have hc3 : c - p.length < 3 := by
          by_contra hge
          rw [List.getElem?_eq_none (by simpa using Nat.le_of_not_lt hge)] at hc
          cases hc
        have hdiv : c / 3 = news.length := by omega
        rw [hdiv, List.getElem?_concat_length]
        have hcases : c = 3 * f + 0 ∨ c = 3 * f + 1 ∨ c = 3 * f + 2 := by omega
        rcases hcases with hc0 | hc0 | hc0
        · have e : c - p.length = 0 := by omega
          have hmod : c % 3 = 0 := by omega
          rw [e] at hc
          simp only [List.getElem?_cons_zero, List.getElem?_cons_succ, Option.some.injEq] at hc
          subst hc
          rw [hmod, e0, ← i0]
          rfl
        · have e : c - p.length = 1 := by omega
          have hmod : c % 3 = 1 := by omega
          rw [e] at hc
          simp only [List.getElem?_cons_zero, List.getElem?_cons_succ, Option.some.injEq] at hc
          subst hc
          rw [hmod, e1, ← i1]
          rfl
        · have e : c - p.length = 2 := by omega
          have hmod : c % 3 = 2 := by omega
          rw [e] at hc
          simp only [List.getElem?_cons_zero, List.getElem?_cons_succ, Option.some.injEq] at hc
          subst hc
          rw [hmod, e2, ← i2]
          rfl

theorem face_loop_succ (attrib : attrib_t) (mesh : mesh_t) (n f off : Nat) (g : runtime_mesh)
    (m : List (unique_vertex × Nat)) :
    face_loop attrib mesh (n + 1) f off g m =
      (process_face attrib mesh f off g m).bind fun r =>
        face_loop attrib mesh n (f + 1) (off + 3) r.1 r.2 := by
  rfl

theorem loop_inv_init (attrib : attrib_t) (mesh : mesh_t) (g0 : runtime_mesh) :
    loop_inv attrib mesh g0 0 [] g0 [] := by
  refine ⟨⟨?_, ?_, ?_, ?_⟩, rfl, ?_, ⟨[], ?_, rfl, ?_⟩⟩
  · simp [first_seen_nil]
  · simp [first_seen_nil]
  · simp [first_seen_nil]
  · intro k; simp [first_seen_nil, map_find]
  · intro c k hc; simp at hc
  · simp
  · intro c k hc; simp at hc

theorem face_loop_ok (attrib : attrib_t) (mesh : mesh_t) (g0 : runtime_mesh) (n : Nat) :
    ∀ (f : Nat) (p : List unique_vertex) (g : runtime_mesh) (m : List (unique_vertex × Nat))
      (r : runtime_mesh × List (unique_vertex × Nat)),
      loop_inv attrib mesh g0 f p g m →
      face_loop attrib mesh n f (3 * f) g m = .ok r →
      ∃ q, loop_inv attrib mesh g0 (f + n) (p ++ q) r.1 r.2 := by
  induction n with
  | zero =>
    intro f p g m r hinv h
    simp only [face_loop, Except.ok.injEq] at h
    subst h
    exact ⟨[], by simpa using hinv⟩
  | succ n ih =>
    intro f p g m r hinv h
    rw [face_loop_succ] at h
    obtain ⟨r1, hr1, h⟩ := except_bind_ok _ _ _ h
    obtain ⟨k0, k1, k2, mid, _, h0, h1, h2, _, hstep⟩ := process_face_ok _ _ _ _ _ _ _ hr1
    subst hstep
    have hinv1 := face_step_spec attrib mesh g0 f p g m k0 k1 k2 mid hinv h0 h1 h2
    have e : 3 * f + 3 = 3 * (f + 1) := by omega
    rw [e] at h
    obtain ⟨q, hq⟩ := ih (f + 1) _ _ _ r hinv1 h
    refine ⟨[k0, k1, k2] ++ q, ?_⟩
    have e2 : f + (n + 1) = f + 1 + n := by omega
    rw [e2, ← List.append_assoc]
    exact hq

/-- What a run of the shape body that returns `g` has done to the mesh `g0` it started
on: `ks` being the corner stream, `vertices`, `normals`, `texcoord0` have grown by the
members of `first_seen ks`, and `faces` by one triple per face, holding for each corner the
index of its key. -/
theorem import_obj_shape_spec (attrib : attrib_t) (mesh : mesh_t) (g0 g : runtime_mesh)
    (h : import_obj_shape attrib mesh g0 = .ok g) :
    ∃ ks news, is_corner_stream attrib mesh ks ∧
      g.vertices = g0.vertices ++ (first_seen ks).map (fun k => k.position) ∧
      g.normals = g0.normals ++ (first_seen ks).map (fun k => k.normal) ∧
      g.texcoord0 = g0.texcoord0 ++ (first_seen ks).map (fun k => k.texcoord) ∧
      g.faces = g0.faces ++ news ∧ news.length = mesh.num_face_vertices.length ∧
      ∀ c k, ks[c]? = some k →
        (news[c / 3]?).map (fun t => t.component (c % 3)) =
          some (new_index g0 (first_seen ks) k) := by
  have heq : import_obj_shape attrib mesh g0 =
      (face_loop attrib mesh mesh.num_face_vertices.length 0 (3 * 0) g0 []).bind
        fun r => .ok r.1 := rfl
  rw [heq] at h
  obtain ⟨r, hr, h⟩ := except_bind_ok _ _ _ h
  cases h
  obtain ⟨q, hq⟩ := face_loop_ok attrib mesh g0 _ 0 [] g0 [] r (loop_inv_init _ _ _) hr
  simp only [List.nil_append, Nat.zero_add] at hq
  obtain ⟨news, hf, hn, hidx⟩ := hq.faces
  exact ⟨q, news, ⟨hq.length, hq.keys⟩, hq.seen.vertices, hq.seen.normals, hq.seen.texcoord0,
    hf, hn, hidx⟩

/-! ## The shape loop and the map of meshes -/

theorem meshes_at_of_not_mem (meshes : List (String × runtime_mesh)) (name : String)
    (h : name ∉ meshes.map Prod.fst) : meshes_at meshes name = {} := by
  induction meshes with
  | nil => rfl
  | cons e rest ih =>
    obtain ⟨n, g⟩ := e
    simp only [List.map_cons, List.mem_cons, not_or] at h
    simp only [meshes_at]
    rw [if_neg (fun hn => h.1 hn.symm)]
    exact ih h.2

theorem meshes_at_mem_or (meshes : List (String × runtime_mesh)) (name : String) :
    meshes_at meshes name = {} ∨ ∃ e ∈ meshes, e.2 = meshes_at meshes name := by
  induction meshes with
  | nil => exact Or.inl rfl
  | cons e rest ih =>
    obtain ⟨n, g⟩ := e
    simp only [meshes_at]
    by_cases hn : n = name
    · rw [if_pos hn]
      exact Or.inr ⟨(n, g), List.mem_cons_self _ _, rfl⟩
    · rw [if_neg hn]
      rcases ih with h | ⟨e, he, h⟩
      · exact Or.inl h
      · exact Or.inr ⟨e, List.mem_cons_of_mem _ he, h⟩

theorem mem_meshes_store (meshes : List (String × runtime_mesh)) (name : String)
    (g : runtime_mesh) (e : String × runtime_mesh) (h : e ∈ meshes_store meshes name g) :
    e = (name, g) ∨ e ∈ meshes := by
  induction meshes with
  | nil =>
    simp only [meshes_store, List.mem_singleton] at h
    exact Or.inl h
  | cons e0 rest ih =>
    obtain ⟨n, g0⟩ := e0
    simp only [meshes_store] at h
    by_cases hn : n = name
    · rw [if_pos hn, List.mem_cons] at h
      rcases h with h | h
      · exact Or.inl (by rw [h, hn])
      · exact Or.inr (List.mem_cons_of_mem _ h)
    · rw [if_neg hn, List.mem_cons] at h
      rcases h with h | h
      · exact Or.inr (by rw [h]; exact List.mem_cons_self _ _)
      · rcases ih h with h1 | h1
        · exact Or.inl h1
        · exact Or.inr (List.mem_cons_of_mem _ h1)

theorem meshes_store_mem_self (meshes : List (String × runtime_mesh)) (name : String)
    (g : runtime_mesh) : (name, g) ∈ meshes_store meshes name g := by
  induction meshes with
  | nil => simp [meshes_store]
  | cons e0 rest ih =>
    obtain ⟨n, g0⟩ := e0
    simp only [meshes_store]
    by_cases hn : n = name
    · rw [if_pos hn, hn]; exact List.mem_cons_self _ _
    · rw [if_neg hn]; exact List.mem_cons_of_mem _ ih

theorem meshes_store_mem_other (meshes : List (String × runtime_mesh)) (name : String)
    (g : runtime_mesh) (e : String × runtime_mesh) (he : e ∈ meshes) (hne : e.1 ≠ name) :
    e ∈ meshes_store meshes name g := by
  induction meshes with
  | nil => cases he
  | cons e0 rest ih =>
    obtain ⟨n, g0⟩ := e0
    simp only [meshes_store]
    rw [List.mem_cons] at he
    by_cases hn : n = name
    · rw [if_pos hn]
      rcases he with he | he
      · exact absurd (by rw [he]; exact hn) hne
      · exact List.mem_cons_of_mem _ he
    · rw [if_neg hn]
      rcases he with he | he
      · rw [he]; exact List.mem_cons_self _ _
      · exact List.mem_cons_of_mem _ (ih he)

theorem map_fst_meshes_store (meshes : List (String × runtime_mesh)) (name : String)
    (g : runtime_mesh) (n : String) (h : n ∈ (meshes_store meshes name g).map Prod.fst) :
    n = name ∨ n ∈ meshes.map Prod.fst := by
  obtain ⟨e, he, rfl⟩ := List.mem_map.mp h
  rcases mem_meshes_store meshes name g e he with h1 | h1
  · exact Or.inl (by rw [h1])
  · exact Or.inr (List.mem_map_of_mem _ h1)

theorem shapes_loop_cons (attrib : attrib_t) (shape : shape_t) (rest : List shape_t)
    (meshes : List (String × runtime_mesh)) :
    shapes_loop attrib (shape :: rest) meshes =
      (import_obj_shape attrib shape.mesh (meshes_at meshes shape.name)).bind fun g =>
        shapes_loop attrib rest (meshes_store meshes shape.name g) := by
  rfl

/-- A property of meshes that the empty mesh has and every shape body preserves holds for
every mesh of the result. -/
theorem shapes_loop_preserves (attrib : attrib_t) (P : runtime_mesh → Prop) (hP0 : P {})
    (hstep : ∀ mesh g0 g, P g0 → import_obj_shape attrib mesh g0 = .ok g → P g) :
    ∀ (shapes : List shape_t) (meshes result : List (String × runtime_mesh)),
      (∀ e ∈ meshes, P e.2) → shapes_loop attrib shapes meshes = .ok result →
      ∀ e ∈ result, P e.2 := by
  intro shapes
  induction shapes with
  | nil =>
    intro meshes result hm h
    simp only [shapes_loop, Except.ok.injEq] at h
    subst h
    exact hm
  | cons shape rest ih =>
    intro meshes result hm h
    rw [shapes_loop_cons] at h
    obtain ⟨g, hg, h⟩ := except_bind_ok _ _ _ h
    have hg0 : P (meshes_at meshes shape.name) := by
      rcases meshes_at_mem_or meshes shape.name with h0 | ⟨e, he, h0⟩
      · rw [h0]; exact hP0
      · rw [← h0]; exact hm e he
    have hPg : P g := hstep _ _ _ hg0 hg
    refine ih _ result ?_ h
    intro e he
    rcases mem_meshes_store _ _ _ _ he with h1 | h1
    · rw [h1]; exact hPg
    · exact hm e h1

theorem shapes_loop_keeps (attrib : attrib_t) :
    ∀ (shapes : List shape_t) (meshes result : List (String × runtime_mesh))
      (e : String × runtime_mesh), e ∈ meshes → e.1 ∉ shapes.map (fun s => s.name) →
      shapes_loop attrib shapes meshes = .ok result → e ∈ result := by
  intro shapes
  induction shapes with
  | nil =>
    intro meshes result e he _ h
    simp only [shapes_loop, Except.ok.injEq] at h
    subst h
    exact he
  | cons shape rest ih =>
    intro meshes result e he hne h
    rw [shapes_loop_cons] at h
    obtain ⟨g, _, h⟩ := except_bind_ok _ _ _ h
    simp only [List.map_cons, List.mem_cons, not_or] at hne
    exact ih _ result e (meshes_store_mem_other _ _ _ _ he hne.1) hne.2 h

/-- When the shapes have pairwise different names, each shape's mesh in the result is the
one its shape body builds from the empty mesh. -/
theorem shapes_loop_nodup (attrib : attrib_t) :
    ∀ (shapes : List shape_t) (meshes result : List (String × runtime_mesh)),
      (shapes.map (fun s => s.name)).Nodup →
      (∀ s ∈ shapes, s.name ∉ meshes.map Prod.fst) →
      shapes_loop attrib shapes meshes = .ok result →
      ∀ s ∈ shapes, ∃ g, (s.name, g) ∈ result ∧ import_obj_shape attrib s.mesh {} = .ok g := by
  intro shapes
  induction shapes with
  | nil => intro _ _ _ _ _ s hs; cases hs
  | cons shape rest ih =>
    intro meshes result hnd hfresh h s hs
    rw [shapes_loop_cons] at h
    obtain ⟨g, hg, h⟩ := except_bind_ok _ _ _ h
    rw [List.map_cons, List.nodup_cons] at hnd
    rw [meshes_at_of_not_mem _ _ (hfresh shape (List.mem_cons_self _ _))] at hg
    rw [List.mem_cons] at hs
    rcases hs with hs | hs
    · subst hs
      exact ⟨g, shapes_loop_keeps attrib rest _ result _ (meshes_store_mem_self _ _ _) hnd.1 h,
        hg⟩
    · refine ih _ result hnd.2 ?_ h s hs
      intro s' hs' hmem
      rcases map_fst_meshes_store _ _ _ _ hmem with h1 | h1
      · exact hnd.1 (by rw [← h1]; exact List.mem_map_of_mem _ hs')
      · exact hfresh s' (List.mem_cons_of_mem _ hs') h1

theorem import_obj_model_nodup (loaded : LoadObj_result)
    (result : List (String × runtime_mesh))
    (hnd : (loaded.shapes.map (fun s => s.name)).Nodup)
    (h : import_obj_model loaded = .ok result) :
    ∀ s ∈ loaded.shapes, ∃ g, (s.name, g) ∈ result ∧
      import_obj_shape loaded.attrib s.mesh {} = .ok g :=
  shapes_loop_nodup loaded.attrib loaded.shapes [] result hnd
    (fun _ _ hmem => by cases hmem) h

/-! ## The importer returns on well-formed input -/

theorem corner_key_of_readable (attrib : attrib_t) (mesh : mesh_t)
    (hr : mesh.readable attrib) (c : Nat) (hc : c < 3 * mesh.num_face_vertices.length) :
    ∃ idx k, vector_at mesh.indices c = .ok idx ∧ make_unique_vertex attrib idx = .ok k := by
  have h := hr.2.2 c hc
  unfold corner_key at h
  cases h1 : vector_at mesh.indices c with
  | error e => rw [h1] at h; cases h
  | ok idx =>
    rw [h1] at h
    cases h2 : make_unique_vertex attrib idx with
    | error e =>
      have : (Except.ok idx : Except Failure index_t).bind (make_unique_vertex attrib) =
          .error e := h2
      rw [this] at h
      cases h
    | ok k => exact ⟨idx, k, rfl, h2⟩

theorem process_face_returns (attrib : attrib_t) (mesh : mesh_t)
    (hr : mesh.readable attrib) (f : Nat) (hf : f < mesh.num_face_vertices.length)
    (g : runtime_mesh) (m : List (unique_vertex × Nat)) :
    ∃ r, process_face attrib mesh f (3 * f) g m = .ok r := by
  have hn : vector_at mesh.num_face_vertices f = .ok 3 := by
    rw [vector_at_ok, List.getElem?_eq_getElem hf]
    exact congrArg some (hr.1 _ (List.getElem_mem _))
  have hmat : f < mesh.material_ids.length := Nat.lt_of_lt_of_le hf hr.2.1
  have hm : vector_at mesh.material_ids f = .ok mesh.material_ids[f] := by
    rw [vector_at_ok, List.getElem?_eq_getElem hmat]
  obtain ⟨i0, k0, hi0, hk0⟩ := corner_key_of_readable attrib mesh hr (3 * f + 0) (by omega)
  obtain ⟨i1, k1, hi1, hk1⟩ := corner_key_of_readable attrib mesh hr (3 * f + 1) (by omega)
  obtain ⟨i2, k2, hi2, hk2⟩ := corner_key_of_readable attrib mesh hr (3 * f + 2) (by omega)
  refine ⟨face_step k0 k1 k2 mesh.material_ids[f] g m, ?_⟩
  rw [process_face_eq, hn]
  simp only [Except.bind, ne_eq, not_true_eq_false, if_false, hi0, hk0, hi1, hk1, hi2, hk2, hm]

theorem face_loop_returns (attrib : attrib_t) (mesh : mesh_t) (hr : mesh.readable attrib)
    (n : Nat) :
    ∀ (f : Nat) (g : runtime_mesh) (m : List (unique_vertex × Nat)),
      f + n ≤ mesh.num_face_vertices.length →
      ∃ r, face_loop attrib mesh n f (3 * f) g m = .ok r := by
  induction n with
  | zero => intro f g m _; exact ⟨(g, m), rfl⟩
  | succ n ih =>
    intro f g m hf
    obtain ⟨r1, hr1⟩ := process_face_returns attrib mesh hr f (by omega) g m
    obtain ⟨r, hr2⟩ := ih (f + 1) r1.1 r1.2 (by omega)
    refine ⟨r, ?_⟩
    rw [face_loop_succ, hr1]
    have e : 3 * f + 3 = 3 * (f + 1) := by omega
    simp only [Except.bind, e]
    exact hr2

theorem import_obj_shape_returns (attrib : attrib_t) (mesh : mesh_t)
    (hr : mesh.readable attrib) (g0 : runtime_mesh) :
    ∃ g, import_obj_shape attrib mesh g0 = .ok g := by
  obtain ⟨r, h⟩ := face_loop_returns attrib mesh hr mesh.num_face_vertices.length 0 g0 []
    (by omega)
  have heq : import_obj_shape attrib mesh g0 =
      (face_loop attrib mesh mesh.num_face_vertices.length 0 (3 * 0) g0 []).bind
        fun r => .ok r.1 := rfl
  exact ⟨r.1, by rw [heq, h]; rfl⟩

theorem shapes_loop_returns (attrib : attrib_t) :
    ∀ (shapes : List shape_t) (meshes : List (String × runtime_mesh)),
      (∀ s ∈ shapes, s.mesh.readable attrib) →
      ∃ result, shapes_loop attrib shapes meshes = .ok result := by
  intro shapes
  induction shapes with
  | nil => intro meshes _; exact ⟨meshes, rfl⟩
  | cons shape rest ih =>
    intro meshes hr
    obtain ⟨g, hg⟩ := import_obj_shape_returns attrib shape.mesh
      (hr shape (List.mem_cons_self _ _)) (meshes_at meshes shape.name)
    obtain ⟨result, hres⟩ := ih (meshes_store meshes shape.name g)
      (fun s hs => hr s (List.mem_cons_of_mem _ hs))
    exact ⟨result, by rw [shapes_loop_cons, hg]; exact hres⟩

/-- On a parsed source all of whose shapes are well formed, `import_obj_model` returns. -/
theorem import_obj_model_returns (loaded : LoadObj_result) (hr : loaded.readable) :
    ∃ meshes, import_obj_model loaded = .ok meshes :=
  shapes_loop_returns loaded.attrib loaded.shapes [] hr

/-! ## C3: index bound -/

theorem new_index_lt (g0 : runtime_mesh) (ks : List unique_vertex) (k : unique_vertex)
    (hk : k ∈ ks) :
    new_index g0 (first_seen ks) k < g0.vertices.length + (first_seen ks).length := by
  have h1 := indexOf_first_seen_lt ks k hk
  have h2 : new_index g0 (first_seen ks) k ≤ g0.vertices.length + (first_seen ks).indexOf k :=
    Nat.mod_le _ _
  omega

theorem import_obj_shape_indices_in_range (attrib : attrib_t) (mesh : mesh_t)
    (g0 g : runtime_mesh) (h0 : g0.indices_in_range)
    (h : import_obj_shape attrib mesh g0 = .ok g) : g.indices_in_range := by
  obtain ⟨ks, news, ⟨hlen, _⟩, hv, _, _, hf, hn, hidx⟩ := import_obj_shape_spec _ _ _ _ h
  have hvl : g.vertices.length = g0.vertices.length + (first_seen ks).length := by
    rw [hv, List.length_append, List.length_map]
  have hcomp : ∀ t ∈ news, ∀ v, v < 3 → t.component v < g.vertices.length := by
    intro t ht v hv3
    obtain ⟨j, hj⟩ := List.getElem?_of_mem ht
    have hjl : j < news.length := by
      by_contra hge
      rw [List.getElem?_eq_none (Nat.le_of_not_lt hge)] at hj
      cases hj
    have hc : 3 * j + v < ks.length := by omega
    have hk := hidx (3 * j + v) ks[3 * j + v] (List.getElem?_eq_getElem hc)
    have e1 : (3 * j + v) / 3 = j := by omega
    have e2 : (3 * j + v) % 3 = v := by omega
    rw [e1, e2, hj] at hk
    simp only [Option.map_some', Option.some.injEq] at hk
    rw [hk, hvl]
    exact new_index_lt g0 ks _ (List.getElem_mem _)
  intro t ht
  rw [hf, List.mem_append] at ht
  rcases ht with ht | ht
  · obtain ⟨hx, hy, hz⟩ := h0 t ht
    have hle : g0.vertices.length ≤ g.vertices.length := by omega
    exact ⟨by omega, by omega, by omega⟩
  · exact ⟨hcomp t ht 0 (by decide), hcomp t ht 1 (by decide), hcomp t ht 2 (by decide)⟩

/-- C3: in every mesh `import_obj_model` returns, every component of every triple in
`faces` is strictly less than `vertices.size()`; and `import_obj_model` does return on
every parsed source whose shapes are well formed. -/
theorem C3_index_bound (loaded : LoadObj_result) :
    (loaded.readable → ∃ meshes, import_obj_model loaded = .ok meshes) ∧
    ∀ meshes, import_obj_model loaded = .ok meshes →
      ∀ e ∈ meshes, ∀ t ∈ e.2.faces,
        t.x < e.2.vertices.length ∧ t.y < e.2.vertices.length ∧ t.z < e.2.vertices.length :=
  ⟨import_obj_model_returns loaded, fun meshes h =>
    shapes_loop_preserves loaded.attrib runtime_mesh.indices_in_range
      (fun _ ht => by cases ht)
      (fun mesh g0 g h0 hg => import_obj_shape_indices_in_range loaded.attrib mesh g0 g h0 hg)
      loaded.shapes [] meshes (fun _ he => by cases he) h⟩

/-- Witness of C3: a source with two shapes. -/
theorem C3_index_bound_witness :
    loaded_two_shapes.readable ∧
    (∃ meshes, import_obj_model loaded_two_shapes = .ok meshes) ∧
    import_obj_model loaded_two_shapes = .ok result_two_shapes ∧
    ∀ e ∈ result_two_shapes, ∀ t ∈ e.2.faces,
      t.x < e.2.vertices.length ∧ t.y < e.2.vertices.length ∧ t.z < e.2.vertices.length :=
  ⟨by decide, (C3_index_bound loaded_two_shapes).1 (by decide), rfl,
    (C3_index_bound loaded_two_shapes).2 result_two_shapes rfl⟩

/-! ## The mesh of a shape with a name of its own -/

/-- The whole description of the mesh a shape body builds from the empty mesh: `ks` being
the corner stream and `out = first_seen ks`, the three parallel arrays are the members of
`out`, there is one face per input face, and each corner's index is the position of its
key in `out` (as a `uint32_t`). -/
theorem import_obj_shape_fresh (attrib : attrib_t) (mesh : mesh_t) (g : runtime_mesh)
    (h : import_obj_shape attrib mesh {} = .ok g) :
    ∃ ks, is_corner_stream attrib mesh ks ∧
      g.vertices = (first_seen ks).map (fun k => k.position) ∧
      g.normals = (first_seen ks).map (fun k => k.normal) ∧
      g.texcoord0 = (first_seen ks).map (fun k => k.texcoord) ∧
      g.faces.length = mesh.num_face_vertices.length ∧
      ∀ c k, ks[c]? = some k →
        corner_index g c = some ((first_seen ks).indexOf k % UINT32_MOD) := by
  obtain ⟨ks, news, hks, hv, hn, ht, hf, hlen, hidx⟩ := import_obj_shape_spec _ _ _ _ h
  have hf' : g.faces = news := hf
  refine ⟨ks, hks, hv, hn, ht, by rw [hf', hlen], ?_⟩
  intro c k hc
  have := hidx c k hc
  rw [corner_index, hf', this, new_index]
  have e : ({} : runtime_mesh).vertices.length = 0 := rfl
  rw [e, Nat.zero_add]

theorem vertex_key_at_map (g : runtime_mesh) (out : List unique_vertex)
    (hv : g.vertices = out.map (fun k => k.position))
    (hn : g.normals = out.map (fun k => k.normal))
    (ht : g.texcoord0 = out.map (fun k => k.texcoord)) (i : Nat) (hi : i < out.length) :
    vertex_key_at g i = (some out[i].position, some out[i].normal, some out[i].texcoord) := by
  simp only [vertex_key_at, hv, hn, ht, List.getElem?_map, List.getElem?_eq_getElem hi,
    Option.map_some']

/-! ## C2: de-duplication is unique -/

/-- C2 (as amended): when the shapes of the source have pairwise different names, for
every shape the mesh stored under its name is such that two corners of the shape's corner
stream with identical (position, normal, texcoord) key receive the same vertex index, and
no two distinct indices `i ≠ j` of the mesh carry the same
`(vertices[i], normals[i], texcoord0[i])`; and `import_obj_model` does return on every
parsed source whose shapes are well formed. -/
theorem C2_dedup_unique (loaded : LoadObj_result)
    (hnd : (loaded.shapes.map (fun s => s.name)).Nodup) :
    (loaded.readable → ∃ meshes, import_obj_model loaded = .ok meshes) ∧
    ∀ meshes, import_obj_model loaded = .ok meshes →
      ∀ s ∈ loaded.shapes, ∃ g ks, (s.name, g) ∈ meshes ∧
        is_corner_stream loaded.attrib s.mesh ks ∧
        (∀ c c' k, ks[c]? = some k → ks[c']? = some k →
          ∃ i, corner_index g c = some i ∧ corner_index g c' = some i) ∧
        (∀ i j, i < g.vertices.length → j < g.vertices.length → i ≠ j →
          vertex_key_at g i ≠ vertex_key_at g j) := by
  refine ⟨import_obj_model_returns loaded, ?_⟩
  intro meshes h s hs
  obtain ⟨g, hg, hshape⟩ := import_obj_model_nodup loaded meshes hnd h s hs
  obtain ⟨ks, hks, hv, hn, ht, _, hidx⟩ := import_obj_shape_fresh _ _ _ hshape
  refine ⟨g, ks, hg, hks, ?_, ?_⟩
  · intro c c' k hc hc'
    exact ⟨_, hidx c k hc, hidx c' k hc'⟩
  · intro i j hi hj hij heq
    have hlen : g.vertices.length = (first_seen ks).length := by rw [hv, List.length_map]
    rw [hlen] at hi hj
    rw [vertex_key_at_map g _ hv hn ht i hi, vertex_key_at_map g _ hv hn ht j hj] at heq
    simp only [Prod.mk.injEq, Option.some.injEq] at heq
    have hk : (first_seen ks)[i] = (first_seen ks)[j] := by
      cases hki : (first_seen ks)[i]
      cases hkj : (first_seen ks)[j]
      rw [hki, hkj] at heq
      simp only at heq
      obtain ⟨h1, h2, h3⟩ := heq
      rw [h1, h2, h3]
    exact hij (((nodup_first_seen ks).getElem_inj_iff).mp hk)

/-- Witness of C2: a source with two shapes named `a` and `b`. -/
theorem C2_dedup_unique_witness :
    (loaded_two_shapes.shapes.map (fun s => s.name)).Nodup ∧
    loaded_two_shapes.readable ∧
    import_obj_model loaded_two_shapes = .ok result_two_shapes ∧
    ∀ s ∈ loaded_two_shapes.shapes, ∃ g ks, (s.name, g) ∈ result_two_shapes ∧
      is_corner_stream loaded_two_shapes.attrib s.mesh ks ∧
      (∀ c c' k, ks[c]? = some k → ks[c']? = some k →
        ∃ i, corner_index g c = some i ∧ corner_index g c' = some i) ∧
      (∀ i j, i < g.vertices.length → j < g.vertices.length → i ≠ j →
        vertex_key_at g i ≠ vertex_key_at g j) :=
  ⟨by decide, by decide, rfl,
    (C2_dedup_unique loaded_two_shapes (by decide)).2 result_two_shapes rfl⟩

/-- C2 fails as stated: two shapes of the same name are stored in one mesh but
de-duplicated separately.  In the mesh built for `loaded_same_name`, corner 0 (first
shape) and corner 3 (second shape) have the same key and receive the indices 0 and 3,
and the distinct indices 0 and 3 carry the same (position, normal, texcoord). -/
theorem C2_counterexample :
    loaded_same_name.readable ∧
    import_obj_model loaded_same_name = .ok [("a", mesh_same_name)] ∧
    corner_key attrib_triangle mesh_triangle 0 = .ok ⟨⟨0, 0, 0⟩, ⟨0, 0, 1065353216⟩, ⟨0, 0⟩⟩ ∧
    corner_index mesh_same_name 0 = some 0 ∧ corner_index mesh_same_name 3 = some 3 ∧
    vertex_key_at mesh_same_name 0 = vertex_key_at mesh_same_name 3 :=
  ⟨by decide, rfl, rfl, rfl, rfl, rfl⟩

/-! ## C6: vertex count -/

/-- C6 (as amended): when the shapes of the source have pairwise different names, for
every shape the mesh stored under its name has at most as many vertices as the shape has
corners, with equality if and only if no two corners of the shape share a key; and
`import_obj_model` does return on every parsed source whose shapes are well formed. -/
theorem C6_dedup_count (loaded : LoadObj_result)
    (hnd : (loaded.shapes.map (fun s => s.name)).Nodup) :
    (loaded.readable → ∃ meshes, import_obj_model loaded = .ok meshes) ∧
    ∀ meshes, import_obj_model loaded = .ok meshes →
      ∀ s ∈ loaded.shapes, ∃ g ks, (s.name, g) ∈ meshes ∧
        is_corner_stream loaded.attrib s.mesh ks ∧
        g.vertices.length ≤ ks.length ∧ (g.vertices.length = ks.length ↔ ks.Nodup) := by
  refine ⟨import_obj_model_returns loaded, ?_⟩
  intro meshes h s hs
  obtain ⟨g, hg, hshape⟩ := import_obj_model_nodup loaded meshes hnd h s hs
  obtain ⟨ks, hks, hv, _, _, _, _⟩ := import_obj_shape_fresh _ _ _ hshape
  have hlen : g.vertices.length = (first_seen ks).length := by rw [hv, List.length_map]
  refine ⟨g, ks, hg, hks, ?_, ?_⟩
  · rw [hlen]; exact length_first_seen_le ks
  · rw [hlen]; exact length_first_seen_eq_iff ks

/-- Witness of C6: a source with two shapes named `a` and `b`. -/
theorem C6_dedup_count_witness :
    (loaded_two_shapes.shapes.map (fun s => s.name)).Nodup ∧
    loaded_two_shapes.readable ∧
    import_obj_model loaded_two_shapes = .ok result_two_shapes ∧
    ∀ s ∈ loaded_two_shapes.shapes, ∃ g ks, (s.name, g) ∈ result_two_shapes ∧
      is_corner_stream loaded_two_shapes.attrib s.mesh ks ∧
      g.vertices.length ≤ ks.length ∧ (g.vertices.length = ks.length ↔ ks.Nodup) :=
  ⟨by decide, by decide, rfl,
    (C6_dedup_count loaded_two_shapes (by decide)).2 result_two_shapes rfl⟩

theorem keys_triangle_is_corner_stream :
    is_corner_stream attrib_triangle mesh_triangle keys_triangle := by
  refine ⟨rfl, ?_⟩
  intro c k hc
  match c with
  | 0 => cases hc; rfl
  | 1 => cases hc; rfl
  | 2 => cases hc; rfl
  | n + 3 => cases hc

/-- C6 fails as stated: for `loaded_same_name` the mesh named `a` collects the corners of
two shapes of three corners each.  It has 6 vertices: more than the 3 corners of either
shape, and as many as the 6 corners of both together although these share keys. -/
theorem C6_counterexample :
    loaded_same_name.readable ∧
    import_obj_model loaded_same_name = .ok [("a", mesh_same_name)] ∧
    is_corner_stream attrib_triangle mesh_triangle keys_triangle ∧
    keys_triangle.length < mesh_same_name.vertices.length ∧
    mesh_same_name.vertices.length = (keys_triangle ++ keys_triangle).length ∧
    ¬ (keys_triangle ++ keys_triangle).Nodup :=
  ⟨by decide, rfl, keys_triangle_is_corner_stream, by decide, rfl, by decide⟩

/-! ## C8: first-seen order -/

/-- C8 (as amended): when the shapes of the source have pairwise different names, for
every shape with corner stream `ks` the arrays `vertices`, `normals`, `texcoord0` of the
mesh stored under its name are the members of a list `out` of keys that holds every key of
the stream exactly once, in the order of first occurrence in the stream; `faces` has one
triple per input face, and the index stored for a corner is the position of its key in
`out` (as a `uint32_t`); and `import_obj_model` does return on every parsed source whose
shapes are well formed. -/
theorem C8_first_seen_order (loaded : LoadObj_result)
    (hnd : (loaded.shapes.map (fun s => s.name)).Nodup) :
    (loaded.readable → ∃ meshes, import_obj_model loaded = .ok meshes) ∧
    ∀ meshes, import_obj_model loaded = .ok meshes →
      ∀ s ∈ loaded.shapes, ∃ (g : runtime_mesh) (ks out : List unique_vertex),
        (s.name, g) ∈ meshes ∧
        is_corner_stream loaded.attrib s.mesh ks ∧
        g.vertices = out.map (fun k => k.position) ∧
        g.normals = out.map (fun k => k.normal) ∧
        g.texcoord0 = out.map (fun k => k.texcoord) ∧
        out.Nodup ∧ (∀ k, k ∈ out ↔ k ∈ ks) ∧
        out.Pairwise (fun a b => ks.indexOf a < ks.indexOf b) ∧
        g.faces.length = s.mesh.num_face_vertices.length ∧
        (∀ c k, ks[c]? = some k → corner_index g c = some (out.indexOf k % UINT32_MOD)) := by
  refine ⟨import_obj_model_returns loaded, ?_⟩
  intro meshes h s hs
  obtain ⟨g, hg, hshape⟩ := import_obj_model_nodup loaded meshes hnd h s hs
  obtain ⟨ks, hks, hv, hn, ht, hf, hidx⟩ := import_obj_shape_fresh _ _ _ hshape
  exact ⟨g, ks, first_seen ks, hg, hks, hv, hn, ht, nodup_first_seen ks,
    mem_first_seen ks, pairwise_first_seen ks, hf, hidx⟩

/-- Witness of C8: a source with two shapes named `a` and `b`. -/
theorem C8_first_seen_order_witness :
    (loaded_two_shapes.shapes.map (fun s => s.name)).Nodup ∧
    loaded_two_shapes.readable ∧
    import_obj_model loaded_two_shapes = .ok result_two_shapes ∧
    ∀ s ∈ loaded_two_shapes.shapes, ∃ (g : runtime_mesh) (ks out : List unique_vertex),
      (s.name, g) ∈ result_two_shapes ∧
      is_corner_stream loaded_two_shapes.attrib s.mesh ks ∧
      g.vertices = out.map (fun k => k.position) ∧
      g.normals = out.map (fun k => k.normal) ∧
      g.texcoord0 = out.map (fun k => k.texcoord) ∧
      out.Nodup ∧ (∀ k, k ∈ out ↔ k ∈ ks) ∧
      out.Pairwise (fun a b => ks.indexOf a < ks.indexOf b) ∧
      g.faces.length = s.mesh.num_face_vertices.length ∧
      (∀ c k, ks[c]? = some k → corner_index g c = some (out.indexOf k % UINT32_MOD)) :=
  ⟨by decide, by decide, rfl,
    (C8_first_seen_order loaded_two_shapes (by decide)).2 result_two_shapes rfl⟩

/-- C8 fails as stated: for `loaded_same_name` the arrays of the mesh named `a` list six
entries, the three distinct keys of the stream twice over (the entry at index 3 repeats
the one at index 0), so vertex 3 is not a fourth distinct key. -/
theorem C8_counterexample :
    loaded_same_name.readable ∧
    import_obj_model loaded_same_name = .ok [("a", mesh_same_name)] ∧
    is_corner_stream attrib_triangle mesh_triangle keys_triangle ∧
    first_seen (keys_triangle ++ keys_triangle) = keys_triangle ∧
    mesh_same_name.vertices =
      (keys_triangle ++ keys_triangle).map (fun k => k.position) ∧
    mesh_same_name.vertices ≠ (first_seen (keys_triangle ++ keys_triangle)).map
      (fun k => k.position) :=
  ⟨by decide, rfl, keys_triangle_is_corner_stream, by decide, rfl, by decide⟩

/-! ## The optimizer driver -/

theorem length_overwrite {α : Type} (buffer written : List α) :
    (overwrite buffer written).length = buffer.length := by
  simp only [overwrite, List.length_append, List.length_take, List.length_drop]
  omega

theorem rebuild_faces_length (n : Nat) :
    ∀ l : List Nat, l.length = 3 * n → ∃ faces, rebuild_faces l = .ok faces ∧ faces.length = n := by
  induction n with
  | zero =>
    intro l hl
    have : l = [] := List.length_eq_zero.mp (by omega)
    subst this
    exact ⟨[], rfl, rfl⟩
  | succ n ih =>
    intro l hl
    match l, hl with
    | a :: b :: c :: rest, hl =>
      have hrest : rest.length = 3 * n := by
        simp only [List.length_cons] at hl
        omega
      obtain ⟨faces, hf, hlen⟩ := ih rest hrest
      refine ⟨⟨a, b, c⟩ :: faces, ?_, by rw [List.length_cons, hlen]⟩
      simp only [rebuild_faces, hf]
    | [], hl => simp at hl
    | [_], hl => simp at hl; omega
    | [_, _], hl => simp at hl; omega

/-- What a completed call of `optimize_model` has done, whatever the library routines wrote:
the faces are rebuilt from an index buffer of `3 * faces.size()` entries, the vertex buffer
has its old size, and no other array is touched. -/
theorem optimize_model_ok {σ : Type} (lib : meshoptimizer σ) (input : runtime_mesh)
    (r : runtime_mesh × σ × σ) (h : optimize_model lib input = .ok r) :
    input.faces ≠ [] ∧
    (∃ indices : List Nat, indices.length = input.faces.length * 3 ∧
      rebuild_faces indices = .ok r.1.faces) ∧
    r.1.vertices.length = input.vertices.length ∧
    r.1.normals = input.normals ∧ r.1.colors = input.colors ∧
    r.1.texcoord0 = input.texcoord0 ∧ r.1.texcoord1 = input.texcoord1 ∧
    r.1.tangents = input.tangents ∧ r.1.bitangents = input.bitangents ∧
    r.1.material = input.material := by
  unfold optimize_model at h
  simp only [bind, Except.bind, pure, Except.pure] at h
  split at h
  · cases h
  · rename_i v0 hv0
    split at h
    · cases h
    · rename_i faces hfaces
      split at h
      · cases h
      · cases h
        refine ⟨?_, ⟨_, ?_, hfaces⟩, ?_, rfl, rfl, rfl, rfl, rfl, rfl, rfl⟩
        · intro hnil
          rw [hnil] at hv0
          cases hv0
        · rw [length_overwrite, length_overwrite, List.length_replicate]
        · simp only [length_overwrite, List.length_replicate]

theorem rebuild_faces_length_eq (n : Nat) (l : List Nat) (faces : List uint3)
    (hl : l.length = n * 3) (h : rebuild_faces l = .ok faces) : faces.length = n := by
  obtain ⟨faces', hf, hlen⟩ := rebuild_faces_length n l (by omega)
  rw [hf] at h
  cases h
  exact hlen

/-- A mesh with at least one face is optimized without failure, whatever the library
routines write. -/
theorem optimize_model_returns {σ : Type} (lib : meshoptimizer σ) (input : runtime_mesh)
    (hne : input.faces ≠ []) : ∃ r, optimize_model lib input = .ok r := by
  obtain ⟨f, fs, hf⟩ := List.exists_cons_of_ne_nil hne
  have hpos : 0 < input.faces.length := by rw [hf]; simp
  have h0 : vector_at input.faces 0 = .ok f := by rw [hf]; simp [vector_at]
  unfold optimize_model
  simp only [bind, Except.bind, pure, Except.pure, h0]
  obtain ⟨faces, hfaces, hlen⟩ := rebuild_faces_length input.faces.length
    (overwrite
      (overwrite (List.replicate (input.faces.length * 3) 0)
        (lib.optimizePostTransform (List.replicate (input.faces.length * 3) 0)
          (flatten_faces input.faces) (flatten_faces input.faces).length
          input.vertices.length 32))
      (lib.optimizePreTransform (List.replicate input.vertices.length ⟨0, 0, 0⟩)
        input.vertices
        (overwrite (List.replicate (input.faces.length * 3) 0)
          (lib.optimizePostTransform (List.replicate (input.faces.length * 3) 0)
            (flatten_faces input.faces) (flatten_faces input.faces).length
            input.vertices.length 32))
        (overwrite (List.replicate (input.faces.length * 3) 0)
          (lib.optimizePostTransform (List.replicate (input.faces.length * 3) 0)
            (flatten_faces input.faces) (flatten_faces input.faces).length
            input.vertices.length 32)).length
        input.vertices.length pod_float3.sizeof).2)
    (by rw [length_overwrite, length_overwrite, List.length_replicate]; omega)
  rw [hfaces]
  obtain ⟨t, ts, hts⟩ := List.exists_cons_of_ne_nil
    (List.ne_nil_of_length_pos (by rw [hlen]; exact hpos))
  have h1 : vector_at faces 0 = .ok t := by rw [hts]; simp [vector_at]
  simp only [h1]
  exact ⟨_, rfl⟩

/-! ## C7: count preservation -/

/-- C7: whatever the index and vertex reordering routines write into their output
buffers, a call of `optimize_model` that completes leaves `vertices.size()` and
`faces.size()` as they were; and the call completes on every mesh with at least one
face. -/
theorem C7_count_preservation {σ : Type} (lib : meshoptimizer σ) (input : runtime_mesh) :
    (input.faces ≠ [] → ∃ r, optimize_model lib input = .ok r) ∧
    ∀ r, optimize_model lib input = .ok r →
      r.1.vertices.length = input.vertices.length ∧
      r.1.faces.length = input.faces.length := by
  refine ⟨optimize_model_returns lib input, ?_⟩
  intro r h
  obtain ⟨_, ⟨indices, hlen, hfaces⟩, hv, _⟩ := optimize_model_ok lib input r h
  exact ⟨hv, rebuild_faces_length_eq _ indices _ hlen hfaces⟩

/-- Witness of C7: the one-triangle mesh, with the routines as the spec describes
them. -/
theorem C7_count_preservation_witness :
    mesh_reversed_triangle.faces ≠ [] ∧
    (∃ r, optimize_model meshoptimizer_spec mesh_reversed_triangle = .ok r) ∧
    ∀ r, optimize_model meshoptimizer_spec mesh_reversed_triangle = .ok r →
      r.1.vertices.length = mesh_reversed_triangle.vertices.length ∧
      r.1.faces.length = mesh_reversed_triangle.faces.length :=
  ⟨by decide,
   (C7_count_preservation meshoptimizer_spec mesh_reversed_triangle).1 (by decide),
   (C7_count_preservation meshoptimizer_spec mesh_reversed_triangle).2⟩

/-! ## C4: attribute preservation -/

/-- C4, the code at a failing input: on the valid one-triangle mesh whose face is
(2, 1, 0), with the library routines as the spec describes them, `optimize_model` rewrites
`vertices` into first-use order and `faces` to (0, 1, 2) but leaves `normals` as it was.
Corner 0 of the triangle carried position (2, 0, 0) and normal (0, 0, 12); after the call
its index 0 reaches the same position but the normal (0, 0, 10). -/
theorem C4_normals_not_reordered :
    mesh_reversed_triangle.valid ∧
    (optimize_model meshoptimizer_spec mesh_reversed_triangle).map (fun r => r.1) =
      .ok { vertices := [⟨2, 0, 0⟩, ⟨1, 0, 0⟩, ⟨0, 0, 0⟩]
            normals := [⟨0, 0, 10⟩, ⟨0, 0, 11⟩, ⟨0, 0, 12⟩]
            faces := [⟨0, 1, 2⟩] } ∧
    (mesh_reversed_triangle.vertices[2]?, mesh_reversed_triangle.normals[2]?) =
      (some ⟨2, 0, 0⟩, some ⟨0, 0, 12⟩) :=
  ⟨by decide, rfl, rfl⟩

/-! ## C11: header computation -/

theorem byte_count_mod (len s : Nat) :
    (len % UINT32_MOD * s) % UINT32_MOD = (len * s) % UINT32_MOD := by
  rw [Nat.mul_mod, Nat.mod_mod, ← Nat.mul_mod]

/-- C11: for every mesh, the header written by `export_mesh_binary` has
`headerVersion = runtime_mesh_binary_version` and, for each of the nine arrays, a byte
count equal to (number of elements) x (element size in bytes) as a `uint32_t` value, that
is modulo `2^32`; the header is the first 44 bytes of the file. -/
theorem C11_header_computation (K : Versions) (mesh : runtime_mesh) (compressed : Bool) :
    (export_mesh_binary K mesh compressed).take sizeof_header =
      header_bytes (make_header K mesh compressed) ∧
    (make_header K mesh compressed).headerVersion = K.runtime_mesh_binary_version ∧
    (make_header K mesh compressed).verticesBytes = (mesh.vertices.length * 12) % 2 ^ 32 ∧
    (make_header K mesh compressed).normalsBytes = (mesh.normals.length * 12) % 2 ^ 32 ∧
    (make_header K mesh compressed).colorsBytes = (mesh.colors.length * 12) % 2 ^ 32 ∧
    (make_header K mesh compressed).texcoord0Bytes = (mesh.texcoord0.length * 8) % 2 ^ 32 ∧
    (make_header K mesh compressed).texcoord1Bytes = (mesh.texcoord1.length * 8) % 2 ^ 32 ∧
    (make_header K mesh compressed).tangentsBytes = (mesh.tangents.length * 12) % 2 ^ 32 ∧
    (make_header K mesh compressed).bitangentsBytes =
      (mesh.bitangents.length * 12) % 2 ^ 32 ∧
    (make_header K mesh compressed).facesBytes = (mesh.faces.length * 12) % 2 ^ 32 ∧
    (make_header K mesh compressed).materialsBytes = (mesh.material.length * 4) % 2 ^ 32 := by
  refine ⟨?_, rfl, ?_, ?_, ?_, ?_, ?_, ?_, ?_, ?_, ?_⟩
  · rw [export_mesh_binary_split, List.take_left' (length_header_bytes _)]
  all_goals exact byte_count_mod _ _

/-! ## C12: container layout -/

theorem length_file_write {α : Type} {P : Pod α} {ok : α → Prop} (hP : P.Lawful ok)
    (xs : List α) (n : Nat) (hn : n ≤ xs.length * P.sizeof) :
    (file_write P xs n).length = n := by
  rw [file_write, List.length_take, length_raw_bytes hP]
  exact Nat.min_eq_left hn

theorem byte_count_le (len s : Nat) : (len % UINT32_MOD * s) % UINT32_MOD ≤ len * s := by
  rw [byte_count_mod]
  exact Nat.mod_le _ _

theorem length_export_mesh_binary (K : Versions) (mesh : runtime_mesh) (compressed : Bool) :
    (export_mesh_binary K mesh compressed).length =
      sizeof_header + (make_header K mesh compressed).payload_bytes := by
  simp only [export_mesh_binary, List.length_append, length_header_bytes,
    runtime_mesh_binary_header.payload_bytes, make_header,
    length_file_write pod_float3_lawful _ _ (byte_count_le _ _),
    length_file_write pod_float2_lawful _ _ (byte_count_le _ _),
    length_file_write pod_uint3_lawful _ _ (byte_count_le _ _),
    length_file_write pod_uint32_lawful _ _ (byte_count_le _ _)]
  omega

theorem empty_array_layout {α : Type} (P : Pod α) (xs : List α) (hxs : xs = []) :
    (xs.length % UINT32_MOD * P.sizeof) % UINT32_MOD = 0 ∧ raw_bytes P xs = [] := by
  subst hxs
  exact ⟨by simp, rfl⟩

/-- C12 (as amended): for every mesh, the bytes written by `export_mesh_binary` are the
11-field header (44 bytes) followed immediately, in the order vertices, normals, colors,
texcoord0, texcoord1, tangents, bitangents, faces, materials, by the first
(header byte count) raw bytes of each array, which are all of its raw bytes when every
array occupies fewer than `2^32` bytes; the total length is 44 plus the sum of the nine
header byte counts, and an empty array has a zero byte count and no raw bytes. -/
theorem C12_container_layout (K : Versions) (mesh : runtime_mesh) (compressed : Bool) :
    export_mesh_binary K mesh compressed =
      header_bytes (make_header K mesh compressed) ++
      (raw_bytes pod_float3 mesh.vertices).take (make_header K mesh compressed).verticesBytes ++
      (raw_bytes pod_float3 mesh.normals).take (make_header K mesh compressed).normalsBytes ++
      (raw_bytes pod_float3 mesh.colors).take (make_header K mesh compressed).colorsBytes ++
      (raw_bytes pod_float2 mesh.texcoord0).take
        (make_header K mesh compressed).texcoord0Bytes ++
      (raw_bytes pod_float2 mesh.texcoord1).take
        (make_header K mesh compressed).texcoord1Bytes ++
      (raw_bytes pod_float3 mesh.tangents).take (make_header K mesh compressed).tangentsBytes ++
      (raw_bytes pod_float3 mesh.bitangents).take
        (make_header K mesh compressed).bitangentsBytes ++
      (raw_bytes pod_uint3 mesh.faces).take (make_header K mesh compressed).facesBytes ++
      (raw_bytes pod_uint32 mesh.material).take
        (make_header K mesh compressed).materialsBytes ∧
    (header_bytes (make_header K mesh compressed)).length = 44 ∧
    (export_mesh_binary K mesh compressed).length =
      44 + (make_header K mesh compressed).payload_bytes ∧
    (mesh.fits_container →
      export_mesh_binary K mesh compressed =
        header_bytes (make_header K mesh compressed) ++
        raw_bytes pod_float3 mesh.vertices ++ raw_bytes pod_float3 mesh.normals ++
        raw_bytes pod_float3 mesh.colors ++ raw_bytes pod_float2 mesh.texcoord0 ++
        raw_bytes pod_float2 mesh.texcoord1 ++ raw_bytes pod_float3 mesh.tangents ++
        raw_bytes pod_float3 mesh.bitangents ++ raw_bytes pod_uint3 mesh.faces ++
        raw_bytes pod_uint32 mesh.material) ∧
    (mesh.vertices = [] → (make_header K mesh compressed).verticesBytes = 0 ∧
      raw_bytes pod_float3 mesh.vertices = []) ∧
    (mesh.normals = [] → (make_header K mesh compressed).normalsBytes = 0 ∧
      raw_bytes pod_float3 mesh.normals = []) ∧
    (mesh.colors = [] → (make_header K mesh compressed).colorsBytes = 0 ∧
      raw_bytes pod_float3 mesh.colors = []) ∧
    (mesh.texcoord0 = [] → (make_header K mesh compressed).texcoord0Bytes = 0 ∧
      raw_bytes pod_float2 mesh.texcoord0 = []) ∧
    (mesh.texcoord1 = [] → (make_header K mesh compressed).texcoord1Bytes = 0 ∧
      raw_bytes pod_float2 mesh.texcoord1 = []) ∧
    (mesh.tangents = [] → (make_header K mesh compressed).tangentsBytes = 0 ∧
      raw_bytes pod_float3 mesh.tangents = []) ∧
    (mesh.bitangents = [] → (make_header K mesh compressed).bitangentsBytes = 0 ∧
      raw_bytes pod_float3 mesh.bitangents = []) ∧
    (mesh.faces = [] → (make_header K mesh compressed).facesBytes = 0 ∧
      raw_bytes pod_uint3 mesh.faces = []) ∧
    (mesh.material = [] → (make_header K mesh compressed).materialsBytes = 0 ∧
      raw_bytes pod_uint32 mesh.material = []) := by
  refine ⟨rfl, rfl, length_export_mesh_binary K mesh compressed, ?_,
    empty_array_layout _ _, empty_array_layout _ _, empty_array_layout _ _,
    empty_array_layout _ _, empty_array_layout _ _, empty_array_layout _ _,
    empty_array_layout _ _, empty_array_layout _ _, empty_array_layout _ _⟩
  intro hfit
  rw [export_mesh_binary_eq K mesh compressed hfit]
  simp only [List.append_assoc, List.append_nil]

/-- Witness of C12: the one-triangle mesh, every array of which fits. -/
theorem C12_container_layout_witness :
    triangle_mesh.fits_container ∧
    export_mesh_binary versions_1_1 triangle_mesh false =
      header_bytes (make_header versions_1_1 triangle_mesh false) ++
      raw_bytes pod_float3 triangle_mesh.vertices ++ raw_bytes pod_float3 triangle_mesh.normals ++
      raw_bytes pod_float3 triangle_mesh.colors ++ raw_bytes pod_float2 triangle_mesh.texcoord0 ++
      raw_bytes pod_float2 triangle_mesh.texcoord1 ++ raw_bytes pod_float3 triangle_mesh.tangents ++
      raw_bytes pod_float3 triangle_mesh.bitangents ++ raw_bytes pod_uint3 triangle_mesh.faces ++
      raw_bytes pod_uint32 triangle_mesh.material :=
  ⟨by decide, (C12_container_layout versions_1_1 triangle_mesh false).2.2.2.1 (by decide)⟩

theorem huge_mesh_payload_bytes :
    (make_header versions_1_1 huge_mesh false).payload_bytes = 8 := by
  have h1 := huge_mesh_verticesBytes
  have h2 : (make_header versions_1_1 huge_mesh false).normalsBytes = 0 := rfl
  have h3 : (make_header versions_1_1 huge_mesh false).colorsBytes = 0 := rfl
  have h4 : (make_header versions_1_1 huge_mesh false).texcoord0Bytes = 0 := rfl
  have h5 : (make_header versions_1_1 huge_mesh false).texcoord1Bytes = 0 := rfl
  have h6 : (make_header versions_1_1 huge_mesh false).tangentsBytes = 0 := rfl
  have h7 : (make_header versions_1_1 huge_mesh false).bitangentsBytes = 0 := rfl
  have h8 : (make_header versions_1_1 huge_mesh false).facesBytes = 0 := rfl
  have h9 : (make_header versions_1_1 huge_mesh false).materialsBytes = 0 := rfl
  rw [runtime_mesh_binary_header.payload_bytes, h1, h2, h3, h4, h5, h6, h7, h8, h9]

theorem huge_mesh_raw_length :
    (raw_bytes pod_float3 huge_mesh.vertices).length = 4294967304 := by
  rw [length_raw_bytes pod_float3_lawful, huge_mesh_vertices_length]
  simp only [pod_float3]

theorem huge_mesh_export_length :
    (export_mesh_binary versions_1_1 huge_mesh false).length = 52 := by
  rw [length_export_mesh_binary, huge_mesh_payload_bytes]
  simp only [sizeof_header]

theorem ne_of_length_lt (x y : List Nat) (n : Nat) (hx : x.length = n) (hy : n < y.length) :
    x ≠ y := by
  intro h
  rw [h] at hx
  omega

/-- C12 fails as stated: the positions of the valid mesh `huge_mesh` occupy
`357913942 * 12 = 4294967304` raw bytes, yet the whole file written for it is 52 bytes
long (the header and 8 bytes of positions): the header is not followed by the raw bytes of
the arrays. -/
theorem C12_counterexample :
    huge_mesh.valid ∧
    (raw_bytes pod_float3 huge_mesh.vertices).length = 4294967304 ∧
    (export_mesh_binary versions_1_1 huge_mesh false).length = 52 ∧
    export_mesh_binary versions_1_1 huge_mesh false ≠
      header_bytes (make_header versions_1_1 huge_mesh false) ++
      raw_bytes pod_float3 huge_mesh.vertices ++ raw_bytes pod_float3 huge_mesh.normals ++
      raw_bytes pod_float3 huge_mesh.colors ++ raw_bytes pod_float2 huge_mesh.texcoord0 ++
      raw_bytes pod_float2 huge_mesh.texcoord1 ++ raw_bytes pod_float3 huge_mesh.tangents ++
      raw_bytes pod_float3 huge_mesh.bitangents ++ raw_bytes pod_uint3 huge_mesh.faces ++
      raw_bytes pod_uint32 huge_mesh.material := by
  refine ⟨huge_mesh_valid, huge_mesh_raw_length, huge_mesh_export_length, ?_⟩
  refine ne_of_length_lt _ _ 52 huge_mesh_export_length ?_
  simp only [List.length_append, huge_mesh_raw_length]
  omega

/-! ## C16: compression version -/

/-- C16: for every container whose `headerVersion` matches, `import_mesh_binary` passes
both version assertions when `compressionVersion` is 0 or equals
`runtime_mesh_compression_version` (it then fails on no assertion, and returns a mesh when
the byte counts are aligned), and fails on the assertion of line 203 (the spec's
`VersionMismatch`) for every other `compressionVersion`. -/
theorem C16_compression_version (K : Versions) (bytes : List Nat)
    (h : runtime_mesh_binary_header) (hh : read_header bytes = some h)
    (hv : h.headerVersion = K.runtime_mesh_binary_version) :
    ((h.compressionVersion = 0 ∨
        h.compressionVersion = K.runtime_mesh_compression_version) →
      (∀ a, import_mesh_binary K (some bytes) ≠ .error (.assertion_failed a)) ∧
      (h.aligned → ∃ m, import_mesh_binary K (some bytes) = .ok m)) ∧
    ((h.compressionVersion ≠ 0 ∧
        h.compressionVersion ≠ K.runtime_mesh_compression_version) →
      import_mesh_binary K (some bytes) =
        .error (.assertion_failed .compressionVersion_eq_runtime_mesh_compression_version)) := by
  constructor
  · intro hc
    have hok : h.versions_ok K := ⟨hv, hc⟩
    constructor
    · intro a ha
      rw [import_mesh_binary_of_header K bytes h hh hok] at ha
      have hrr : ∀ {α : Type} (P : Pod α) (n : Nat) (s : List Nat) (a : Assertion),
          resize_and_read P n s ≠ .error (.assertion_failed a) := by
        intro α P n s a hr
        simp only [resize_and_read] at hr
        split at hr <;> cases hr
      have hb : ∀ {α β : Type} (x : Except Failure α) (f : α → Except Failure β)
          (a : Assertion), (∀ a, x ≠ .error (.assertion_failed a)) →
          (∀ v a, f v ≠ .error (.assertion_failed a)) →
          x.bind f ≠ .error (.assertion_failed a) := by
        intro α β x f a hx hf
        cases x with
        | error e =>
          simp only [Except.bind]
          intro h
          cases h
          exact hx a rfl
        | ok v => simp only [Except.bind]; exact hf v a
      refine hb _ _ a (hrr _ _ _) (fun _ a => hb _ _ a (hrr _ _ _) (fun _ a =>
        hb _ _ a (hrr _ _ _) (fun _ a => hb _ _ a (hrr _ _ _) (fun _ a =>
        hb _ _ a (hrr _ _ _) (fun _ a => hb _ _ a (hrr _ _ _) (fun _ a =>
        hb _ _ a (hrr _ _ _) (fun _ a => hb _ _ a (hrr _ _ _) (fun _ a =>
        hb _ _ a (hrr _ _ _) (fun _ a hcontra => ?_))))))))) ha
      cases hcontra
    · intro ha
      obtain ⟨m, hm, _⟩ := import_mesh_binary_pad K bytes h hh hok ha 0
      exact ⟨m, hm⟩
  · rintro ⟨h0, hne⟩
    have hpos : h.compressionVersion > 0 := Nat.pos_of_ne_zero h0
    simp only [import_mesh_binary, hh, hv, ne_eq, not_true_eq_false, if_false, hpos, hne,
      not_false_eq_true, and_self, if_true]

/-- Witness of C16: headers of version 1 with compression version 0, 1 and 2, against the
supported versions 1 / 1. -/
theorem C16_compression_version_witness :
    read_header (header_bytes (header_compression 0)) = some (header_compression 0) ∧
    (header_compression 0).headerVersion = versions_1_1.runtime_mesh_binary_version ∧
    import_mesh_binary versions_1_1 (some (header_bytes (header_compression 0))) = .ok {} ∧
    import_mesh_binary versions_1_1 (some (header_bytes (header_compression 1))) = .ok {} ∧
    import_mesh_binary versions_1_1 (some (header_bytes (header_compression 2))) =
      .error (.assertion_failed .compressionVersion_eq_runtime_mesh_compression_version) :=
  ⟨by decide, rfl, rfl, rfl,
    (C16_compression_version versions_1_1 (header_bytes (header_compression 2))
      (header_compression 2) (by decide) rfl).2 ⟨by decide, by decide⟩⟩

/-! ## The arrays the de-duplication loop does not index -/

theorem add_corner_frame (k : unique_vertex) (g : runtime_mesh)
    (m : List (unique_vertex × Nat)) :
    (add_corner k g m).2.1.material = g.material ∧
    (add_corner k g m).2.1.faces = g.faces ∧
    (add_corner k g m).2.1.colors = g.colors ∧
    (add_corner k g m).2.1.texcoord1 = g.texcoord1 ∧
    (add_corner k g m).2.1.tangents = g.tangents ∧
    (add_corner k g m).2.1.bitangents = g.bitangents := by
  cases h : map_find m k with
  | some i => rw [add_corner_hit k g m i h]; exact ⟨rfl, rfl, rfl, rfl, rfl, rfl⟩
  | none => rw [add_corner_miss k g m h]; exact ⟨rfl, rfl, rfl, rfl, rfl, rfl⟩

theorem face_step_frame (k0 k1 k2 : unique_vertex) (mid : Int) (g : runtime_mesh)
    (m : List (unique_vertex × Nat)) :
    (face_step k0 k1 k2 mid g m).1.material = g.material ++ positive_ids [mid] ∧
    (face_step k0 k1 k2 mid g m).1.faces.length = g.faces.length + 1 ∧
    (face_step k0 k1 k2 mid g m).1.colors = g.colors ∧
    (face_step k0 k1 k2 mid g m).1.texcoord1 = g.texcoord1 ∧
    (face_step k0 k1 k2 mid g m).1.tangents = g.tangents ∧
    (face_step k0 k1 k2 mid g m).1.bitangents = g.bitangents := by
  obtain ⟨a1, a2, a3, a4, a5, a6⟩ := add_corner_frame k0 g m
  obtain ⟨b1, b2, b3, b4, b5, b6⟩ := add_corner_frame k1 (add_corner k0 g m).2.1
    (add_corner k0 g m).2.2
  obtain ⟨c1, c2, c3, c4, c5, c6⟩ := add_corner_frame k2
    (add_corner k1 (add_corner k0 g m).2.1 (add_corner k0 g m).2.2).2.1
    (add_corner k1 (add_corner k0 g m).2.1 (add_corner k0 g m).2.2).2.2
  simp only [face_step, positive_ids, List.filterMap_cons, List.filterMap_nil]
  by_cases hmid : mid > 0
  · simp only [hmid, if_true, List.length_append, List.length_singleton]
    exact ⟨by rw [c1, b1, a1], by rw [c2, b2, a2], by rw [c3, b3, a3], by rw [c4, b4, a4],
      by rw [c5, b5, a5], by rw [c6, b6, a6]⟩
  · simp only [hmid, if_false, List.length_append, List.length_singleton, List.append_nil]
    exact ⟨by rw [c1, b1, a1], by rw [c2, b2, a2], by rw [c3, b3, a3], by rw [c4, b4, a4],
      by rw [c5, b5, a5], by rw [c6, b6, a6]⟩

theorem positive_ids_append (a b : List Int) :
    positive_ids (a ++ b) = positive_ids a ++ positive_ids b := by
  simp only [positive_ids, List.filterMap_append]

theorem length_positive_ids_le (ids : List Int) : (positive_ids ids).length ≤ ids.length :=
  List.length_filterMap_le _ _

theorem face_loop_frame (attrib : attrib_t) (mesh : mesh_t) (n : Nat) :
    ∀ (f off : Nat) (g : runtime_mesh) (m : List (unique_vertex × Nat))
      (r : runtime_mesh × List (unique_vertex × Nat)),
      face_loop attrib mesh n f off g m = .ok r →
      r.1.material = g.material ++ positive_ids ((mesh.material_ids.drop f).take n) ∧
      (∀ j, f ≤ j → j < f + n → mesh.num_face_vertices[j]? = some 3) ∧
      r.1.colors = g.colors ∧ r.1.texcoord1 = g.texcoord1 ∧
      r.1.tangents = g.tangents ∧ r.1.bitangents = g.bitangents := by
  induction n with
  | zero =>
    intro f off g m r h
    simp only [face_loop, Except.ok.injEq] at h
    subst h
    refine ⟨by simp [positive_ids], ?_, rfl, rfl, rfl, rfl⟩
    intro j h1 h2
    omega
  | succ n ih =>
    intro f off g m r h
    rw [face_loop_succ] at h
    obtain ⟨r1, hr1, h⟩ := except_bind_ok _ _ _ h
    obtain ⟨k0, k1, k2, mid, hn3, _, _, _, hmid, hstep⟩ := process_face_ok _ _ _ _ _ _ _ hr1
    subst hstep
    obtain ⟨s1, _, s3, s4, s5, s6⟩ := face_step_frame k0 k1 k2 mid g m
    obtain ⟨i1, i2, i3, i4, i5, i6⟩ := ih (f + 1) (off + 3) _ _ r h
    have hlt : f < mesh.material_ids.length := by
      by_contra hge
      rw [List.getElem?_eq_none (Nat.le_of_not_lt hge)] at hmid
      cases hmid
    have hget : mesh.material_ids[f] = mid := by
      rw [List.getElem?_eq_getElem hlt] at hmid
      exact Option.some.inj hmid
    have hdrop : (mesh.material_ids.drop f).take (n + 1) =
        [mid] ++ (mesh.material_ids.drop (f + 1)).take n := by
      rw [List.drop_eq_getElem_cons hlt, hget]
      rfl
    refine ⟨?_, ?_, by rw [i3, s3], by rw [i4, s4], by rw [i5, s5], by rw [i6, s6]⟩
    · rw [i1, s1, hdrop, positive_ids_append, List.append_assoc]
    · intro j h1 h2
      by_cases hj : j = f
      · rw [hj]; exact hn3
      · exact i2 j (by omega) (by omega)

/-- The arrays of a returned shape body that the corner keys do not feed: `material` has
grown by the positive material ids of the faces, in face order; every face was a triangle;
`colors`, `texcoord1`, `tangents`, `bitangents` are untouched. -/
theorem import_obj_shape_frame (attrib : attrib_t) (mesh : mesh_t) (g0 g : runtime_mesh)
    (h : import_obj_shape attrib mesh g0 = .ok g) :
    g.material = g0.material ++
      positive_ids (mesh.material_ids.take mesh.num_face_vertices.length) ∧
    (∀ n ∈ mesh.num_face_vertices, n = 3) ∧
    g.colors = g0.colors ∧ g.texcoord1 = g0.texcoord1 ∧
    g.tangents = g0.tangents ∧ g.bitangents = g0.bitangents := by
  have heq : import_obj_shape attrib mesh g0 =
      (face_loop attrib mesh mesh.num_face_vertices.length 0 0 g0 []).bind
        fun r => .ok r.1 := rfl
  rw [heq] at h
  obtain ⟨r, hr, h⟩ := except_bind_ok _ _ _ h
  cases h
  obtain ⟨h1, h2, h3, h4, h5, h6⟩ := face_loop_frame attrib mesh _ 0 0 g0 [] r hr
  rw [List.drop_zero] at h1
  refine ⟨h1, ?_, h3, h4, h5, h6⟩
  intro n hn
  obtain ⟨j, hj⟩ := List.getElem?_of_mem hn
  have hjl : j < mesh.num_face_vertices.length := by
    by_contra hge
    rw [List.getElem?_eq_none (Nat.le_of_not_lt hge)] at hj
    cases hj
  have := h2 j (Nat.zero_le _) (by omega)
  rw [hj] at this
  exact Option.some.inj this

/-! ## C13: material array -/

theorem import_obj_shape_material_le (attrib : attrib_t) (mesh : mesh_t)
    (g0 g : runtime_mesh) (h0 : g0.material.length ≤ g0.faces.length)
    (h : import_obj_shape attrib mesh g0 = .ok g) :
    g.material.length ≤ g.faces.length := by
  obtain ⟨_, news, _, _, _, _, hf, hn, _⟩ := import_obj_shape_spec _ _ _ _ h
  obtain ⟨hm, _⟩ := import_obj_shape_frame _ _ _ _ h
  have h1 := length_positive_ids_le (mesh.material_ids.take mesh.num_face_vertices.length)
  have h2 : (mesh.material_ids.take mesh.num_face_vertices.length).length ≤
      mesh.num_face_vertices.length := by
    rw [List.length_take]; exact Nat.min_le_left _ _
  rw [hm, hf, List.length_append, List.length_append, hn]
  omega

/-- C13 (as amended): in every mesh `import_obj_model` returns, `material` has at most
`faces.size()` entries; when the shapes have pairwise different names, the mesh of a shape
has one face per input face and its `material` holds, in face order, the material ids of
exactly the faces whose id is greater than 0; and `import_obj_model` does return on every
parsed source whose shapes are well formed. -/
theorem C13_material_shape (loaded : LoadObj_result) :
    (loaded.readable → ∃ meshes, import_obj_model loaded = .ok meshes) ∧
    ∀ meshes, import_obj_model loaded = .ok meshes →
      (∀ e ∈ meshes, e.2.material.length ≤ e.2.faces.length) ∧
      ((loaded.shapes.map (fun s => s.name)).Nodup →
        ∀ s ∈ loaded.shapes, ∃ g, (s.name, g) ∈ meshes ∧
          g.faces.length = s.mesh.num_face_vertices.length ∧
          g.material =
            positive_ids (s.mesh.material_ids.take s.mesh.num_face_vertices.length)) := by
  refine ⟨import_obj_model_returns loaded, ?_⟩
  intro meshes h
  constructor
  · exact shapes_loop_preserves loaded.attrib (fun g => g.material.length ≤ g.faces.length)
      (Nat.le_refl _)
      (fun mesh g0 g h0 hg => import_obj_shape_material_le loaded.attrib mesh g0 g h0 hg)
      loaded.shapes [] meshes (fun _ he => by cases he) h
  · intro hnd s hs
    obtain ⟨g, hg, hshape⟩ := import_obj_model_nodup loaded meshes hnd h s hs
    obtain ⟨_, _, _, _, _, hf, _⟩ := import_obj_shape_fresh _ _ _ hshape
    obtain ⟨hm, _⟩ := import_obj_shape_frame _ _ _ _ hshape
    exact ⟨g, hg, hf, hm⟩

/-- Witness of C13 (amended): a source with two shapes named `a` and `b`. -/
theorem C13_material_shape_witness :
    loaded_two_shapes.readable ∧
    (loaded_two_shapes.shapes.map (fun s => s.name)).Nodup ∧
    import_obj_model loaded_two_shapes = .ok result_two_shapes ∧
    (∀ e ∈ result_two_shapes, e.2.material.length ≤ e.2.faces.length) ∧
    ∀ s ∈ loaded_two_shapes.shapes, ∃ g, (s.name, g) ∈ result_two_shapes ∧
      g.faces.length = s.mesh.num_face_vertices.length ∧
      g.material =
        positive_ids (s.mesh.material_ids.take s.mesh.num_face_vertices.length) :=
  ⟨by decide, by decide, rfl,
    ((C13_material_shape loaded_two_shapes).2 result_two_shapes rfl).1,
    ((C13_material_shape loaded_two_shapes).2 result_two_shapes rfl).2 (by decide)⟩

/-- C13 fails as stated: for a well-formed shape of two triangles with material ids 1 and
0, the mesh returned has two faces and a `material` array of one entry: neither empty nor
one id per face. -/
theorem C13_counterexample :
    loaded_mixed_materials.readable ∧
    import_obj_model loaded_mixed_materials = .ok result_mixed_materials ∧
    ∀ e ∈ result_mixed_materials,
      e.2.faces.length = 2 ∧ e.2.material = [1] ∧
      ¬ (e.2.material = [] ∨ e.2.material.length = e.2.faces.length) :=
  ⟨by decide, rfl, by decide⟩

/-! ## C14: non-triangular faces -/

theorem shapes_loop_ok_shapes (attrib : attrib_t) :
    ∀ (shapes : List shape_t) (meshes result : List (String × runtime_mesh)),
      shapes_loop attrib shapes meshes = .ok result →
      ∀ s ∈ shapes, ∃ g0 g, import_obj_shape attrib s.mesh g0 = .ok g := by
  intro shapes
  induction shapes with
  | nil => intro _ _ _ s hs; cases hs
  | cons shape rest ih =>
    intro meshes result h s hs
    rw [shapes_loop_cons] at h
    obtain ⟨g, hg, h⟩ := except_bind_ok _ _ _ h
    rw [List.mem_cons] at hs
    rcases hs with hs | hs
    · subst hs; exact ⟨_, g, hg⟩
    · exact ih _ result h s hs

theorem corner_key_of_isSome (attrib : attrib_t) (mesh : mesh_t) (c : Nat)
    (h : (corner_key attrib mesh c).toOption.isSome) :
    ∃ idx k, vector_at mesh.indices c = .ok idx ∧ make_unique_vertex attrib idx = .ok k := by
  unfold corner_key at h
  cases h1 : vector_at mesh.indices c with
  | error e => rw [h1] at h; cases h
  | ok idx =>
    rw [h1] at h
    cases h2 : make_unique_vertex attrib idx with
    | error e =>
      have : (Except.ok idx : Except Failure index_t).bind (make_unique_vertex attrib) =
          .error e := h2
      rw [this] at h
      cases h
    | ok k => exact ⟨idx, k, rfl, h2⟩

theorem process_face_total (attrib : attrib_t) (mesh : mesh_t)
    (hc : mesh.corners_readable attrib) (f : Nat) (hf : f < mesh.num_face_vertices.length)
    (g : runtime_mesh) (m : List (unique_vertex × Nat)) :
    (∃ r, process_face attrib mesh f (3 * f) g m = .ok r) ∨
    process_face attrib mesh f (3 * f) g m =
      .error (.assertion_failed .num_face_vertices_eq_3) := by
  have hn : vector_at mesh.num_face_vertices f = .ok mesh.num_face_vertices[f] := by
    rw [vector_at_ok, List.getElem?_eq_getElem hf]
  by_cases h3 : mesh.num_face_vertices[f] = 3
  · left
    have hmat : f < mesh.material_ids.length := Nat.lt_of_lt_of_le hf hc.1
    have hm : vector_at mesh.material_ids f = .ok mesh.material_ids[f] := by
      rw [vector_at_ok, List.getElem?_eq_getElem hmat]
    obtain ⟨i0, k0, hi0, hk0⟩ := corner_key_of_isSome attrib mesh (3 * f + 0)
      (hc.2 _ (by omega))
    obtain ⟨i1, k1, hi1, hk1⟩ := corner_key_of_isSome attrib mesh (3 * f + 1)
      (hc.2 _ (by omega))
    obtain ⟨i2, k2, hi2, hk2⟩ := corner_key_of_isSome attrib mesh (3 * f + 2)
      (hc.2 _ (by omega))
    refine ⟨face_step k0 k1 k2 mesh.material_ids[f] g m, ?_⟩
    rw [process_face_eq, hn]
    simp only [Except.bind, h3, ne_eq, not_true_eq_false, if_false, hi0, hk0, hi1, hk1, hi2,
      hk2, hm]
  · right
    rw [process_face_eq, hn]
    simp only [Except.bind, ne_eq, h3, not_false_eq_true, if_true]

theorem face_loop_total (attrib : attrib_t) (mesh : mesh_t)
    (hc : mesh.corners_readable attrib) (n : Nat) :
    ∀ (f : Nat) (g : runtime_mesh) (m : List (unique_vertex × Nat)),
      f + n ≤ mesh.num_face_vertices.length →
      (∃ r, face_loop attrib mesh n f (3 * f) g m = .ok r) ∨
      face_loop attrib mesh n f (3 * f) g m =
        .error (.assertion_failed .num_face_vertices_eq_3) := by
  induction n with
  | zero => intro f g m _; exact Or.inl ⟨(g, m), rfl⟩
  | succ n ih =>
    intro f g m hf
    have e : 3 * f + 3 = 3 * (f + 1) := by omega
    rcases process_face_total attrib mesh hc f (by omega) g m with ⟨r1, hr1⟩ | herr
    · rcases ih (f + 1) r1.1 r1.2 (by omega) with ⟨r, hr2⟩ | herr2
      · left
        refine ⟨r, ?_⟩
        rw [face_loop_succ, hr1]
        simp only [Except.bind, e]
        exact hr2
      · right
        rw [face_loop_succ, hr1]
        simp only [Except.bind, e]
        exact herr2
    · right
      rw [face_loop_succ, herr]
      rfl

theorem import_obj_shape_total (attrib : attrib_t) (mesh : mesh_t)
    (hc : mesh.corners_readable attrib) (g0 : runtime_mesh) :
    (∃ g, import_obj_shape attrib mesh g0 = .ok g) ∨
    import_obj_shape attrib mesh g0 = .error (.assertion_failed .num_face_vertices_eq_3) := by
  have heq : import_obj_shape attrib mesh g0 =
      (face_loop attrib mesh mesh.num_face_vertices.length 0 (3 * 0) g0 []).bind
        fun r => .ok r.1 := rfl
  rcases face_loop_total attrib mesh hc mesh.num_face_vertices.length 0 g0 [] (by omega)
    with ⟨r, h⟩ | h
  · exact Or.inl ⟨r.1, by rw [heq, h]; rfl⟩
  · exact Or.inr (by rw [heq, h]; rfl)

theorem shapes_loop_total (attrib : attrib_t) :
    ∀ (shapes : List shape_t) (meshes : List (String × runtime_mesh)),
      (∀ s ∈ shapes, s.mesh.corners_readable attrib) →
      (∃ result, shapes_loop attrib shapes meshes = .ok result) ∨
      shapes_loop attrib shapes meshes =
        .error (.assertion_failed .num_face_vertices_eq_3) := by
  intro shapes
  induction shapes with
  | nil => intro meshes _; exact Or.inl ⟨meshes, rfl⟩
  | cons shape rest ih =>
    intro meshes hc
    rcases import_obj_shape_total attrib shape.mesh (hc shape (List.mem_cons_self _ _))
      (meshes_at meshes shape.name) with ⟨g, hg⟩ | herr
    · rcases ih (meshes_store meshes shape.name g)
        (fun s hs => hc s (List.mem_cons_of_mem _ hs)) with ⟨result, hres⟩ | herr2
      · exact Or.inl ⟨result, by rw [shapes_loop_cons, hg]; exact hres⟩
      · exact Or.inr (by rw [shapes_loop_cons, hg]; exact herr2)
    · exact Or.inr (by rw [shapes_loop_cons, herr]; rfl)

/-- C14: for every parsed source in which some shape has a face whose vertex count is not
3, `import_obj_model` returns no mapping at all (so no entry for that shape); and when the
corners and material ids of all shapes can be read, the call ends on the assertion of
line 104 (the spec's `MalformedSource`). -/
theorem C14_non_triangular_rejected (loaded : LoadObj_result)
    (hnt : ∃ s ∈ loaded.shapes, ∃ n ∈ s.mesh.num_face_vertices, n ≠ 3) :
    (∀ meshes, import_obj_model loaded ≠ .ok meshes) ∧
    ((∀ s ∈ loaded.shapes, s.mesh.corners_readable loaded.attrib) →
      import_obj_model loaded = .error (.assertion_failed .num_face_vertices_eq_3)) := by
  have hnot : ∀ meshes, import_obj_model loaded ≠ .ok meshes := by
    intro meshes h
    obtain ⟨s, hs, n, hn, hne⟩ := hnt
    obtain ⟨g0, g, hg⟩ := shapes_loop_ok_shapes loaded.attrib loaded.shapes [] meshes h s hs
    exact hne ((import_obj_shape_frame _ _ _ _ hg).2.1 n hn)
  refine ⟨hnot, ?_⟩
  intro hc
  rcases shapes_loop_total loaded.attrib loaded.shapes [] hc with ⟨result, h⟩ | h
  · exact absurd h (hnot result)
  · exact h

/-- Witness of C14: a source whose only face is a quad with four vertex references. -/
theorem C14_non_triangular_rejected_witness :
    (∃ s ∈ loaded_quad.shapes, ∃ n ∈ s.mesh.num_face_vertices, n ≠ 3) ∧
    (∀ s ∈ loaded_quad.shapes, s.mesh.corners_readable loaded_quad.attrib) ∧
    (∀ meshes, import_obj_model loaded_quad ≠ .ok meshes) ∧
    import_obj_model loaded_quad = .error (.assertion_failed .num_face_vertices_eq_3) :=
  ⟨by decide, by decide,
    (C14_non_triangular_rejected loaded_quad (by decide)).1,
    (C14_non_triangular_rejected loaded_quad (by decide)).2 (by decide)⟩

/-! ## The key of a corner -/

theorem vector_at_int_cases {α : Type} (xs : List α) (i : Int) :
    vector_at_int xs i = .error (.undefined_behaviour .index_out_of_range) ∨
    ∃ x, vector_at_int xs i = .ok x ∧ 0 ≤ i ∧ xs[i.toNat]? = some x := by
  unfold vector_at_int
  by_cases hi : 0 ≤ i
  · rw [if_pos hi]
    unfold vector_at
    cases h : xs[i.toNat]? with
    | none => exact Or.inl rfl
    | some x => exact Or.inr ⟨x, rfl, hi, rfl⟩
  · rw [if_neg hi]
    exact Or.inl rfl

theorem make_unique_vertex_eq (attrib : attrib_t) (idx : index_t) :
    make_unique_vertex attrib idx =
      (vector_at_int attrib.vertices (3 * idx.vertex_index + 0)).bind fun px =>
      (vector_at_int attrib.vertices (3 * idx.vertex_index + 1)).bind fun py =>
      (vector_at_int attrib.vertices (3 * idx.vertex_index + 2)).bind fun pz =>
      (vector_at_int attrib.normals (3 * idx.normal_index + 0)).bind fun nx =>
      (vector_at_int attrib.normals (3 * idx.normal_index + 1)).bind fun ny =>
      (vector_at_int attrib.normals (3 * idx.normal_index + 2)).bind fun nz =>
      if idx.texcoord_index ≠ -1 then
        (vector_at_int attrib.texcoords (2 * idx.texcoord_index + 0)).bind fun u =>
        (vector_at_int attrib.texcoords (2 * idx.texcoord_index + 1)).bind fun v =>
        .ok ⟨⟨px, py, pz⟩, ⟨nx, ny, nz⟩, ⟨u, v⟩⟩
      else .ok ⟨⟨px, py, pz⟩, ⟨nx, ny, nz⟩, ⟨0, 0⟩⟩ := by
  rfl

/-- Every failure of `make_unique_vertex` is an out-of-range read. -/
theorem make_unique_vertex_cases (attrib : attrib_t) (idx : index_t) :
    make_unique_vertex attrib idx = .error (.undefined_behaviour .index_out_of_range) ∨
    ∃ k, make_unique_vertex attrib idx = .ok k ∧ 0 ≤ 3 * idx.normal_index + 0 ∧
      (idx.texcoord_index = -1 → k.texcoord = ⟨0, 0⟩) ∧
      (idx.texcoord_index ≠ -1 →
        attrib.texcoords[(2 * idx.texcoord_index + 0).toNat]? = some k.texcoord.x ∧
        attrib.texcoords[(2 * idx.texcoord_index + 1).toNat]? = some k.texcoord.y) := by
  rw [make_unique_vertex_eq]
  rcases vector_at_int_cases attrib.vertices (3 * idx.vertex_index + 0) with h | ⟨px, h, _⟩
  · rw [h]; exact Or.inl rfl
  rw [h]
  rcases vector_at_int_cases attrib.vertices (3 * idx.vertex_index + 1) with h | ⟨py, h, _⟩
  · rw [h]; exact Or.inl rfl
  rw [h]
  rcases vector_at_int_cases attrib.vertices (3 * idx.vertex_index + 2) with h | ⟨pz, h, _⟩
  · rw [h]; exact Or.inl rfl
  rw [h]
  rcases vector_at_int_cases attrib.normals (3 * idx.normal_index + 0) with h | ⟨nx, h, hn, _⟩
  · rw [h]; exact Or.inl rfl
  rw [h]
  rcases vector_at_int_cases attrib.normals (3 * idx.normal_index + 1) with h | ⟨ny, h, _⟩
  · rw [h]; exact Or.inl rfl
  rw [h]
  rcases vector_at_int_cases attrib.normals (3 * idx.normal_index + 2) with h | ⟨nz, h, _⟩
  · rw [h]; exact Or.inl rfl
  rw [h]
  simp only [Except.bind]
  by_cases ht : idx.texcoord_index = -1
  · rw [if_neg (not_not.mpr ht)]
    exact Or.inr ⟨_, rfl, hn, fun _ => rfl, fun hne => absurd ht hne⟩
  · rw [if_pos ht]
    rcases vector_at_int_cases attrib.texcoords (2 * idx.texcoord_index + 0)
      with h | ⟨u, h, _, hu⟩
    · rw [h]; exact Or.inl rfl
    rw [h]
    rcases vector_at_int_cases attrib.texcoords (2 * idx.texcoord_index + 1)
      with h | ⟨v, h, _, hv⟩
    · rw [h]; exact Or.inl rfl
    rw [h]
    exact Or.inr ⟨_, rfl, hn, fun he => absurd he ht, fun _ => ⟨hu, hv⟩⟩

theorem corner_key_ok_iff (attrib : attrib_t) (mesh : mesh_t) (c : Nat) (k : unique_vertex)
    (h : corner_key attrib mesh c = .ok k) :
    ∃ idx, mesh.indices[c]? = some idx ∧ make_unique_vertex attrib idx = .ok k := by
  obtain ⟨idx, h1, h2⟩ := except_bind_ok _ _ _ h
  exact ⟨idx, (vector_at_ok _ _ _).mp h1, h2⟩

/-! ## C18: missing normal -/

theorem make_unique_vertex_missing_normal (attrib : attrib_t) (idx : index_t)
    (h : idx.normal_index = -1) :
    make_unique_vertex attrib idx = .error (.undefined_behaviour .index_out_of_range) := by
  rcases make_unique_vertex_cases attrib idx with he | ⟨k, _, hn, _⟩
  · exact he
  · rw [h] at hn
    exact absurd hn (by decide)

/-- C18, the code on a corner without normal.  Lines 113-114 guard the texcoord read with
`texcoord_index != -1` but read `attrib.normals[3 * idx.normal_index + 0]` unguarded: for
`normal_index = -1` the key of the corner is never built (the read is out of range), so
`import_obj_model` returns no mapping for any source that has such a corner, and on the
triangle of `loaded_missing_normal` the call ends in that out-of-range read; a corner
without texcoord is read without failure and gets the zero texcoord. -/
theorem C18_missing_normal_read_out_of_range :
    (∀ (attrib : attrib_t) (idx : index_t), idx.normal_index = -1 →
      make_unique_vertex attrib idx = .error (.undefined_behaviour .index_out_of_range)) ∧
    (∀ loaded : LoadObj_result,
      (∃ s ∈ loaded.shapes, ∃ c idx, c < 3 * s.mesh.num_face_vertices.length ∧
        s.mesh.indices[c]? = some idx ∧ idx.normal_index = -1) →
      ∀ meshes, import_obj_model loaded ≠ .ok meshes) ∧
    import_obj_model loaded_missing_normal =
      .error (.undefined_behaviour .index_out_of_range) ∧
    make_unique_vertex attrib_triangle ⟨0, 0, -1⟩ =
      .ok ⟨⟨0, 0, 0⟩, ⟨0, 0, 1065353216⟩, ⟨0, 0⟩⟩ := by
  refine ⟨make_unique_vertex_missing_normal, ?_, rfl, rfl⟩
  rintro loaded ⟨s, hs, c, idx, hc, hidx, hn⟩ meshes h
  obtain ⟨g0, g, hg⟩ := shapes_loop_ok_shapes loaded.attrib loaded.shapes [] meshes h s hs
  obtain ⟨ks, _, ⟨hlen, hkeys⟩, _⟩ := import_obj_shape_spec _ _ _ _ hg
  have hck : c < ks.length := by rw [hlen]; exact hc
  obtain ⟨idx', hidx', hk⟩ := corner_key_ok_iff _ _ _ _
    (hkeys c ks[c] (List.getElem?_eq_getElem hck))
  rw [hidx] at hidx'
  cases hidx'
  rw [make_unique_vertex_missing_normal loaded.attrib idx hn] at hk
  cases hk

/-! ## C17: texture coordinates -/

theorem import_obj_shape_parallel (attrib : attrib_t) (mesh : mesh_t)
    (g0 g : runtime_mesh)
    (h0 : g0.texcoord0.length = g0.vertices.length ∧ g0.normals.length = g0.vertices.length)
    (h : import_obj_shape attrib mesh g0 = .ok g) :
    g.texcoord0.length = g.vertices.length ∧ g.normals.length = g.vertices.length := by
  obtain ⟨ks, _, _, hv, hn, ht, _⟩ := import_obj_shape_spec _ _ _ _ h
  rw [hv, hn, ht]
  simp only [List.length_append, List.length_map, h0.1, h0.2, and_self]

theorem meshes_store_of_not_mem (meshes : List (String × runtime_mesh)) (name : String)
    (g : runtime_mesh) (h : name ∉ meshes.map Prod.fst) :
    meshes_store meshes name g = meshes ++ [(name, g)] := by
  induction meshes with
  | nil => rfl
  | cons e rest ih =>
    obtain ⟨n, g0⟩ := e
    simp only [List.map_cons, List.mem_cons, not_or] at h
    simp only [meshes_store]
    rw [if_neg (fun hn => h.1 hn.symm), ih h.2]
    rfl

theorem map_fst_meshes_store_of_mem (meshes : List (String × runtime_mesh)) (name : String)
    (g : runtime_mesh) (h : name ∈ meshes.map Prod.fst) :
    (meshes_store meshes name g).map Prod.fst = meshes.map Prod.fst := by
  induction meshes with
  | nil => cases h
  | cons e rest ih =>
    obtain ⟨n, g0⟩ := e
    simp only [meshes_store]
    by_cases hn : n = name
    · rw [if_pos hn]; rfl
    · rw [if_neg hn]
      simp only [List.map_cons, List.mem_cons] at h
      rcases h with h | h
      · exact absurd h.symm hn
      · simp only [List.map_cons, ih h]

theorem nodup_keys_meshes_store (meshes : List (String × runtime_mesh)) (name : String)
    (g : runtime_mesh) (h : (meshes.map Prod.fst).Nodup) :
    ((meshes_store meshes name g).map Prod.fst).Nodup := by
  by_cases hn : name ∈ meshes.map Prod.fst
  · rw [map_fst_meshes_store_of_mem meshes name g hn]; exact h
  · rw [meshes_store_of_not_mem meshes name g hn, List.map_append]
    exact List.Nodup.append h (List.nodup_singleton _)
      (List.disjoint_singleton.mpr hn)

/-- The names of the map `import_obj_model` returns are pairwise different. -/
theorem shapes_loop_nodup_keys (attrib : attrib_t) :
    ∀ (shapes : List shape_t) (meshes result : List (String × runtime_mesh)),
      (meshes.map Prod.fst).Nodup → shapes_loop attrib shapes meshes = .ok result →
      (result.map Prod.fst).Nodup := by
  intro shapes
  induction shapes with
  | nil =>
    intro meshes result hm h
    simp only [shapes_loop, Except.ok.injEq] at h
    subst h
    exact hm
  | cons shape rest ih =>
    intro meshes result hm h
    rw [shapes_loop_cons] at h
    obtain ⟨g, _, h⟩ := except_bind_ok _ _ _ h
    exact ih _ result (nodup_keys_meshes_store meshes shape.name g hm) h

/-- Copying a map entry by entry into another map with different names appends it. -/
theorem copy_asset_eq (asset : List (String × runtime_mesh)) :
    ∀ results : List (String × runtime_mesh),
      ((results ++ asset).map Prod.fst).Nodup → copy_asset results asset = results ++ asset := by
  induction asset with
  | nil => intro results _; simp [copy_asset]
  | cons a rest ih =>
    intro results h
    have hnot : a.1 ∉ results.map Prod.fst := by
      rw [List.map_append, List.nodup_append] at h
      intro hmem
      exact h.2.2 hmem (by simp)
    have hstep : meshes_store results a.1 a.2 = results ++ [a] :=
      meshes_store_of_not_mem results a.1 a.2 hnot
    have h2 : ((results ++ [a] ++ rest).map Prod.fst).Nodup := by
      simpa using h
    have := ih (results ++ [a]) h2
    simp only [copy_asset, List.foldl_cons, hstep] at this ⊢
    rw [this]
    simp

theorem copy_asset_nodup_keys (asset : List (String × runtime_mesh)) :
    ∀ results : List (String × runtime_mesh),
      (results.map Prod.fst).Nodup → ((copy_asset results asset).map Prod.fst).Nodup := by
  induction asset with
  | nil => intro results h; exact h
  | cons a rest ih =>
    intro results h
    exact ih _ (nodup_keys_meshes_store results a.1 a.2 h)

theorem import_fbx_model_nodup_keys (USING_FBX : Bool)
    (import_fbx_file : Except String (List (String × runtime_mesh))) :
    ((import_fbx_model USING_FBX import_fbx_file).map Prod.fst).Nodup := by
  unfold import_fbx_model
  split
  · split
    · exact copy_asset_nodup_keys _ [] List.nodup_nil
    · exact List.nodup_nil
  · exact List.nodup_nil

/-- C15: `import_model` fails with the `cannot import model format` error (the spec's
`UnsupportedFormat`) for every extension other than `FBX`, `fbx`, `OBJ`, `obj`; for `OBJ`
and `obj` it returns exactly what `import_obj_model` returns (or fails as it does), and
for `FBX` and `fbx` exactly the map `import_fbx_model` returns. -/
theorem C15_extension_dispatch (ext : String) (USING_FBX : Bool)
    (import_fbx_file : Except String (List (String × runtime_mesh)))
    (loaded : LoadObj_result) :
    ((ext ≠ "FBX" ∧ ext ≠ "fbx" ∧ ext ≠ "OBJ" ∧ ext ≠ "obj") →
      import_model ext USING_FBX import_fbx_file loaded =
        .error (.runtime_error .cannot_import_model_format)) ∧
    ((ext = "OBJ" ∨ ext = "obj") →
      import_model ext USING_FBX import_fbx_file loaded = import_obj_model loaded) ∧
    ((ext = "FBX" ∨ ext = "fbx") →
      import_model ext USING_FBX import_fbx_file loaded =
        .ok (import_fbx_model USING_FBX import_fbx_file)) := by
  refine ⟨?_, ?_, ?_⟩
  · rintro ⟨h1, h2, h3, h4⟩
    simp only [import_model, h1, h2, h3, h4, or_self, if_false]
  · intro hobj
    have hnf : ¬ (ext = "FBX" ∨ ext = "fbx") := by
      rcases hobj with h | h <;> rw [h] <;> decide
    simp only [import_model, hnf, if_false, hobj, if_true]
    cases h : import_obj_model loaded with
    | error e => rfl
    | ok asset =>
      have hnd := shapes_loop_nodup_keys loaded.attrib loaded.shapes [] asset
        List.nodup_nil h
      have := copy_asset_eq asset [] (by simpa using hnd)
      simp only [bind, Except.bind, pure, Except.pure, this, List.nil_append]
  · intro hf
    simp only [import_model, hf, if_true]
    rw [copy_asset_eq _ [] (by simpa using import_fbx_model_nodup_keys _ _), List.nil_append]

/-- Witness of C15: the extensions `obj`, `fbx` and `ply`. -/
theorem C15_extension_dispatch_witness :
    import_model "obj" true (.ok result_two_shapes) loaded_two_shapes =
      .ok result_two_shapes ∧
    import_model "fbx" true (.ok result_two_shapes) loaded_two_shapes =
      .ok result_two_shapes ∧
    import_model "ply" true (.ok result_two_shapes) loaded_two_shapes =
      .error (.runtime_error .cannot_import_model_format) :=
  ⟨(C15_extension_dispatch "obj" true (.ok result_two_shapes) loaded_two_shapes).2.1
      (Or.inr rfl),
    (C15_extension_dispatch "fbx" true (.ok result_two_shapes) loaded_two_shapes).2.2
      (Or.inr rfl),
    (C15_extension_dispatch "ply" true (.ok result_two_shapes) loaded_two_shapes).1
      (by decide)⟩

/-! ## C19: the unit cube -/

/-- C19: the unit cube given as 12 triangles (36 corners) with one flat normal per cube
face is imported as a mesh of exactly 24 vertices and 12 faces (36 indices), and exporting
then importing that mesh gives it back unchanged, the 24 positions and the 36 indices
included. -/
theorem C19_unit_cube :
    loaded_cube.readable ∧
    loaded_cube.shapes.map (fun s => (s.mesh.indices.length, s.mesh.num_face_vertices.length))
      = [(36, 12)] ∧
    import_obj_model loaded_cube = .ok [("cube", cube_mesh)] ∧
    cube_mesh.vertices.length = 24 ∧ cube_mesh.faces.length = 12 ∧
    (flatten_faces cube_mesh.faces).length = 36 ∧
    import_mesh_binary versions_1_1 (some (export_mesh_binary versions_1_1 cube_mesh false)) =
      .ok cube_mesh :=
  ⟨by decide, rfl, rfl, rfl, rfl, rfl,
    import_export_of_fits versions_1_1 cube_mesh false (by decide) (by decide)
      (by decide) (by decide)⟩

/-! ## C20: the cache statistics before and after reordering -/

set_option maxRecDepth 100000 in
theorem mesh_detour_stats :
    (optimize_model meshoptimizer_spec mesh_detour).map (fun r => r.2) =
      .ok ((35, 32), (36, 32)) := rfl

theorem mesh_seven_faces_stats :
    (optimize_model meshoptimizer_spec mesh_seven_faces).map (fun r => r.2) =
      .ok ((3, 7), (3, 7)) := rfl

/-- C20, the claim as written fails, with the library routines as the spec describes them.
On `mesh_detour` the statistics (misses, triangles) are (35, 32) before and (36, 32) after:
the greedy order follows the strip, whose faces each reuse two cached vertices, until
vertex 0 has left the cache of 32 entries, and the face (0, 3, 4) then misses three times
instead of twice.  On `mesh_seven_faces` the statistics after are (3, 7), an ACMR below
0.5. -/
theorem C20_counterexample :
    mesh_detour.indices_in_range ∧
    (optimize_model meshoptimizer_spec mesh_detour).map (fun r => r.2) =
      .ok ((35, 32), (36, 32)) ∧
    ¬ acmr_le (36, 32) (35, 32) ∧
    mesh_seven_faces.indices_in_range ∧
    (optimize_model meshoptimizer_spec mesh_seven_faces).map (fun r => r.2) =
      .ok ((3, 7), (3, 7)) ∧
    ¬ acmr_at_least_half (3, 7) :=
  ⟨by decide, mesh_detour_stats, by decide, by decide, mesh_seven_faces_stats, by decide⟩

/-! ### The cache of the spec-side optimizer -/

theorem mem_cache_fetch (cs : Nat) (cache : List Nat) (v x : Nat)
    (h : x ∈ cache_fetch cs cache v) : x ∈ cache ∨ x = v := by
  unfold cache_fetch at h
  split at h
  · exact Or.inl h
  · have h' := List.mem_of_mem_drop h
    rw [List.mem_append, List.mem_singleton] at h'
    exact h'

/-- Every vertex of the sequence that is not in the cache at the start costs at least one
miss, whatever the cache size. -/
theorem cache_misses_ge (cs : Nat) (seq : List Nat) :
    ∀ cache : List Nat,
      (seq.toFinset \ cache.toFinset).card ≤ cache_misses cs cache seq := by
  induction seq with
  | nil => intro cache; simp [cache_misses]
  | cons v rest ih =>
    intro cache
    have h1 := ih (cache_fetch cs cache v)
    have hsub : (v :: rest).toFinset \ cache.toFinset ⊆
        (if v ∈ cache then (∅ : Finset Nat) else {v}) ∪
          (rest.toFinset \ (cache_fetch cs cache v).toFinset) := by
      intro x hx
      rw [Finset.mem_sdiff, List.mem_toFinset, List.mem_toFinset, List.mem_cons] at hx
      obtain ⟨hx1, hx2⟩ := hx
      rw [Finset.mem_union]
      by_cases hxv : x = v
      · subst hxv
        left
        rw [if_neg hx2]
        exact Finset.mem_singleton_self x
      · right
        rw [Finset.mem_sdiff, List.mem_toFinset, List.mem_toFinset]
        refine ⟨hx1.resolve_left hxv, ?_⟩
        intro hmem
        rcases mem_cache_fetch cs cache v x hmem with h | h
        · exact hx2 h
        · exact hxv h
    have hcard := (Finset.card_le_card hsub).trans (Finset.card_union_le _ _)
    have hite : (if v ∈ cache then (∅ : Finset Nat) else {v}).card =
        (if v ∈ cache then 0 else 1) := by
      split <;> simp
    rw [hite] at hcard
    simp only [cache_misses]
    omega

/-- While the cache has room for every vertex fetched, the misses are exactly the distinct
vertices that were not in the cache at the start. -/
theorem cache_misses_eq (cs : Nat) (seq : List Nat) :
    ∀ cache : List Nat, cache.Nodup → (cache.toFinset ∪ seq.toFinset).card ≤ cs →
      cache_misses cs cache seq = (seq.toFinset \ cache.toFinset).card := by
  induction seq with
  | nil => intro cache _ _; simp [cache_misses]
  | cons v rest ih =>
    intro cache hnd hcard
    simp only [cache_misses]
    by_cases hv : v ∈ cache
    · have hf : cache_fetch cs cache v = cache := by simp only [cache_fetch, if_pos hv]
      have hle : (cache.toFinset ∪ rest.toFinset).card ≤ cs := by
        refine (Finset.card_le_card ?_).trans hcard
        intro x hx
        rw [Finset.mem_union, List.mem_toFinset, List.mem_toFinset] at hx
        rw [Finset.mem_union, List.mem_toFinset, List.mem_toFinset, List.mem_cons]
        tauto
      rw [hf, ih cache hnd hle, if_pos hv, Nat.zero_add]
      congr 1
      ext x
      simp only [Finset.mem_sdiff, List.mem_toFinset, List.mem_cons]
      constructor
      · rintro ⟨h1, h2⟩
        exact ⟨Or.inr h1, h2⟩
      · rintro ⟨h1 | h1, h2⟩
        · subst h1; exact absurd hv h2
        · exact ⟨h1, h2⟩
    · have hlen : cache.length + 1 ≤ cs := by
        refine le_trans ?_ hcard
        have h1 : (insert v cache.toFinset).card = cache.length + 1 := by
          rw [Finset.card_insert_of_not_mem (by rwa [List.mem_toFinset]),
            List.toFinset_card_of_nodup hnd]
        rw [← h1]
        refine Finset.card_le_card ?_
        intro x hx
        rw [Finset.mem_insert, List.mem_toFinset] at hx
        rw [Finset.mem_union, List.mem_toFinset, List.mem_toFinset, List.mem_cons]
        tauto
      have hf : cache_fetch cs cache v = cache ++ [v] := by
        simp only [cache_fetch, if_neg hv]
        rw [Nat.sub_eq_zero_of_le hlen, List.drop_zero]
      have hnd' : (cache ++ [v]).Nodup := by
        rw [List.nodup_append]
        refine ⟨hnd, List.nodup_singleton v, ?_⟩
        intro a ha hb
        rw [List.mem_singleton] at hb
        subst hb
        exact hv ha
      have hle : ((cache ++ [v]).toFinset ∪ rest.toFinset).card ≤ cs := by
        refine (Finset.card_le_card ?_).trans hcard
        intro x hx
        rw [Finset.mem_union, List.mem_toFinset, List.mem_toFinset, List.mem_append,
          List.mem_singleton] at hx
        rw [Finset.mem_union, List.mem_toFinset, List.mem_toFinset, List.mem_cons]
        tauto
      rw [hf, ih (cache ++ [v]) hnd' hle, if_neg hv]
      have hset : (v :: rest).toFinset \ cache.toFinset =
          insert v (rest.toFinset \ (cache ++ [v]).toFinset) := by
        ext x
        simp only [Finset.mem_sdiff, Finset.mem_insert, List.mem_toFinset, List.mem_cons,
          List.mem_append, List.not_mem_nil, or_false]
        constructor
        · rintro ⟨h1 | h1, h2⟩
          · exact Or.inl h1
          · by_cases hxv : x = v
            · exact Or.inl hxv
            · exact Or.inr ⟨h1, fun h => h.elim h2 hxv⟩
        · rintro (h1 | ⟨h1, h2⟩)
          · subst h1; exact ⟨Or.inl rfl, hv⟩
          · exact ⟨Or.inr h1, fun h => h2 (Or.inl h)⟩
      rw [hset, Finset.card_insert_of_not_mem, Nat.add_comm]
      rw [Finset.mem_sdiff, List.mem_toFinset, List.mem_toFinset, List.mem_append]
      intro h
      exact h.2 (Or.inr (List.mem_singleton_self v))

theorem length_first_seen_eq_card (p : List Nat) :
    (first_seen p).length = p.toFinset.card := by
  rw [← List.toFinset_card_of_nodup (nodup_first_seen p)]
  congr 1
  ext x
  rw [List.mem_toFinset, List.mem_toFinset, mem_first_seen]

/-! ### The reordering of the spec-side optimizer -/

theorem most_cached_mem (cache : List Nat) :
    ∀ (l : List uint3) (t : uint3), most_cached cache l = some t → t ∈ l := by
  intro l
  induction l with
  | nil => intro t h; cases h
  | cons a rest ih =>
    intro t h
    simp only [most_cached] at h
    cases hr : most_cached cache rest with
    | none =>
      rw [hr] at h
      cases h
      exact List.mem_cons_self _ _
    | some u =>
      rw [hr] at h
      simp only at h
      split at h
      · cases h
        exact List.mem_cons_of_mem _ (ih _ hr)
      · cases h
        exact List.mem_cons_self _ _

theorem most_cached_none (cache : List Nat) (l : List uint3)
    (h : most_cached cache l = none) : l = [] := by
  cases l with
  | nil => rfl
  | cons a rest =>
    simp only [most_cached] at h
    cases hr : most_cached cache rest with
    | none => rw [hr] at h; cases h
    | some u =>
      rw [hr] at h
      simp only at h
      split at h <;> cases h

/-- Pass A emits every triangle exactly once. -/
theorem pass_a_perm (cs : Nat) :
    ∀ (fuel : Nat) (cache : List Nat) (remaining : List uint3), remaining.length ≤ fuel →
      (pass_a cs fuel cache remaining).Perm remaining := by
  intro fuel
  induction fuel with
  | zero =>
    intro cache remaining h
    have : remaining = [] := List.length_eq_zero.mp (Nat.le_zero.mp h)
    subst this
    simp only [pass_a]
    exact List.Perm.refl _
  | succ fuel ih =>
    intro cache remaining h
    simp only [pass_a]
    cases hm : most_cached cache remaining with
    | none =>
      rw [most_cached_none cache remaining hm]
    | some t =>
      have ht := most_cached_mem cache remaining t hm
      have hlen : (remaining.erase t).length ≤ fuel := by
        rw [List.length_erase_of_mem ht]
        omega
      exact ((ih (cache_fetch_triangle cs cache t) (remaining.erase t) hlen).cons t).trans
        (List.perm_cons_erase ht).symm

theorem mem_flatten_faces (v : Nat) :
    ∀ ts : List uint3, v ∈ flatten_faces ts ↔ ∃ t ∈ ts, v = t.x ∨ v = t.y ∨ v = t.z := by
  intro ts
  induction ts with
  | nil => simp [flatten_faces]
  | cons a rest ih =>
    simp only [flatten_faces, List.mem_cons, ih]
    constructor
    · rintro (h | h | h | ⟨t, ht, hv⟩)
      · exact ⟨a, Or.inl rfl, Or.inl h⟩
      · exact ⟨a, Or.inl rfl, Or.inr (Or.inl h)⟩
      · exact ⟨a, Or.inl rfl, Or.inr (Or.inr h)⟩
      · exact ⟨t, Or.inr ht, hv⟩
    · rintro ⟨t, ht | ht, hv⟩
      · subst ht
        rcases hv with h | h | h
        · exact Or.inl h
        · exact Or.inr (Or.inl h)
        · exact Or.inr (Or.inr (Or.inl h))
      · exact Or.inr (Or.inr (Or.inr ⟨t, ht, hv⟩))

theorem toFinset_flatten_faces_perm (l₁ l₂ : List uint3) (h : l₁.Perm l₂) :
    (flatten_faces l₁).toFinset = (flatten_faces l₂).toFinset := by
  ext v
  rw [List.mem_toFinset, List.mem_toFinset, mem_flatten_faces, mem_flatten_faces]
  constructor
  · rintro ⟨t, ht, hv⟩
    exact ⟨t, h.mem_iff.mp ht, hv⟩
  · rintro ⟨t, ht, hv⟩
    exact ⟨t, h.mem_iff.mpr ht, hv⟩

theorem length_flatten_faces (ts : List uint3) : (flatten_faces ts).length = ts.length * 3 := by
  induction ts with
  | nil => rfl
  | cons a rest ih => simp only [flatten_faces, List.length_cons, ih]; omega

theorem triangles_of_flatten_faces (ts : List uint3) : triangles_of (flatten_faces ts) = ts := by
  induction ts with
  | nil => rfl
  | cons a rest ih => simp only [flatten_faces, triangles_of, ih]

theorem rebuild_faces_flatten_faces (ts : List uint3) :
    rebuild_faces (flatten_faces ts) = .ok ts := by
  induction ts with
  | nil => rfl
  | cons a rest ih => simp only [flatten_faces, rebuild_faces, ih]

theorem map_flatten_faces (f : Nat → Nat) (ts : List uint3) :
    (flatten_faces ts).map f = flatten_faces (ts.map (fun t => ⟨f t.x, f t.y, f t.z⟩)) := by
  induction ts with
  | nil => rfl
  | cons a rest ih => simp only [flatten_faces, List.map_cons, ih]

theorem overwrite_of_length_eq {α : Type} (buffer written : List α)
    (h : written.length = buffer.length) : overwrite buffer written = written := by
  unfold overwrite
  rw [List.take_of_length_le (Nat.le_of_eq h), List.drop_of_length_le (Nat.le_of_eq h.symm),
    List.append_nil]

theorem take_flatten_faces (ts : List uint3) :
    (flatten_faces ts).take (ts.length * 3) = flatten_faces ts :=
  List.take_of_length_le (Nat.le_of_eq (length_flatten_faces ts))

theorem vector_at_zero_map {α β : Type} (g : α → β) (l : List α) (a : α)
    (h : vector_at l 0 = .ok a) : vector_at (l.map g) 0 = .ok (g a) := by
  cases l with
  | nil => cases h
  | cons b rest =>
    simp only [vector_at, List.getElem?_cons_zero] at h
    cases h
    simp only [vector_at, List.map_cons, List.getElem?_cons_zero]

/-- The statistics that `optimize_model` measures with the spec-side routines: before, the
misses of the face indices; after, the misses of the Pass A order as Pass B renames it. -/
theorem optimize_model_spec_stats (input : runtime_mesh) (hne : input.faces ≠ []) :
    ∃ out, optimize_model meshoptimizer_spec input = .ok (out,
      (cache_misses 32 [] (flatten_faces input.faces), input.faces.length),
      (cache_misses 32 []
        ((flatten_faces (pass_a 32 input.faces.length [] input.faces)).map
          (fun i => (first_seen
            (flatten_faces (pass_a 32 input.faces.length [] input.faces))).indexOf i)),
       input.faces.length)) := by
  obtain ⟨f, fs, hf⟩ := List.exists_cons_of_ne_nil hne
  have h0 : vector_at input.faces 0 = .ok f := by rw [hf]; simp [vector_at]
  have hperm := pass_a_perm 32 input.faces.length [] input.faces (Nat.le_refl _)
  have hPlen : (pass_a 32 input.faces.length [] input.faces).length = input.faces.length :=
    hperm.length_eq
  have hdiv : input.faces.length * 3 / 3 = input.faces.length :=
    Nat.mul_div_cancel _ (by decide)
  unfold optimize_model
  simp only [bind, Except.bind, pure, Except.pure, h0, meshoptimizer_spec,
    length_flatten_faces, hdiv, take_flatten_faces, triangles_of_flatten_faces]
  have hov1 : overwrite (List.replicate (input.faces.length * 3) 0)
      (flatten_faces (pass_a 32 input.faces.length [] input.faces)) =
      flatten_faces (pass_a 32 input.faces.length [] input.faces) :=
    overwrite_of_length_eq _ _ (by rw [length_flatten_faces, hPlen, List.length_replicate])
  have hov2 : ∀ (g : Nat → Nat) (l : List Nat), overwrite l (l.map g) = l.map g :=
    fun g l => overwrite_of_length_eq _ _ (List.length_map l g)
  simp only [hov1, List.take_length, hov2]
  simp only [map_flatten_faces, rebuild_faces_flatten_faces]
  obtain ⟨p, ps, hp⟩ := List.exists_cons_of_ne_nil
    (List.ne_nil_of_length_pos (l := pass_a 32 input.faces.length [] input.faces)
      (by rw [hPlen, hf]; simp))
  have hP0 : vector_at (pass_a 32 input.faces.length [] input.faces) 0 = .ok p := by
    rw [hp]; simp only [vector_at, List.getElem?_cons_zero]
  simp only [vector_at_zero_map _ _ _ hP0, List.length_map, hPlen, hdiv]
  exact ⟨_, rfl⟩

/-- Pass B renames the vertices one to one: the renamed index sequence has as many
distinct entries as the sequence it renames. -/
theorem card_toFinset_map_indexOf (G : List Nat) :
    ((G.map (fun i => (first_seen G).indexOf i)).toFinset).card = G.toFinset.card := by
  have himage : (G.map (fun i => (first_seen G).indexOf i)).toFinset =
      G.toFinset.image (fun i => (first_seen G).indexOf i) := by
    ext x
    simp only [List.mem_toFinset, List.mem_map, Finset.mem_image]
  rw [himage]
  refine Finset.card_image_of_injOn ?_
  intro x hx y hy hxy
  have hx' : x ∈ first_seen G := (mem_first_seen G x).mpr (List.mem_toFinset.mp hx)
  have hy' : y ∈ first_seen G := (mem_first_seen G y).mpr (List.mem_toFinset.mp hy)
  exact (List.indexOf_inj hx' hy').mp hxy

/-- The two statistics of `optimize_model` with the spec-side routines, against the number
of distinct vertices the faces reference: before, at least that many misses; after, at
least that many as well, and exactly that many when they all fit the cache. -/
theorem optimize_model_spec_bounds (input : runtime_mesh)
    (r : runtime_mesh × (Nat × Nat) × (Nat × Nat))
    (h : optimize_model meshoptimizer_spec input = .ok r) :
    r.2.1.2 = input.faces.length ∧ r.2.2.2 = input.faces.length ∧
    input.referenced ≤ r.2.1.1 ∧ input.referenced ≤ r.2.2.1 ∧
    (input.referenced ≤ 32 → r.2.2.1 = input.referenced) := by
  have hne := (optimize_model_ok meshoptimizer_spec input r h).1
  obtain ⟨out, hout⟩ := optimize_model_spec_stats input hne
  rw [hout] at h
  cases h
  have hperm := pass_a_perm 32 input.faces.length [] input.faces (Nat.le_refl _)
  have hGF := toFinset_flatten_faces_perm _ _ hperm
  have hR := card_toFinset_map_indexOf
    (flatten_faces (pass_a 32 input.faces.length [] input.faces))
  rw [hGF] at hR
  have hin := cache_misses_ge 32 (flatten_faces input.faces) []
  have hafter := cache_misses_ge 32
    ((flatten_faces (pass_a 32 input.faces.length [] input.faces)).map
      (fun i => (first_seen
        (flatten_faces (pass_a 32 input.faces.length [] input.faces))).indexOf i)) []
  simp only [List.toFinset_nil, Finset.sdiff_empty] at hin hafter
  rw [hR] at hafter
  have href : input.referenced = (flatten_faces input.faces).toFinset.card :=
    length_first_seen_eq_card _
  refine ⟨rfl, rfl, ?_, ?_, ?_⟩
  · rw [href]; exact hin
  · rw [href]; exact hafter
  · intro hle
    rw [href] at hle ⊢
    have heq := cache_misses_eq 32
      ((flatten_faces (pass_a 32 input.faces.length [] input.faces)).map
        (fun i => (first_seen
          (flatten_faces (pass_a 32 input.faces.length [] input.faces))).indexOf i)) []
      List.nodup_nil
      (by rw [List.toFinset_nil, Finset.empty_union, hR]; exact hle)
    simp only [List.toFinset_nil, Finset.sdiff_empty] at heq
    rw [hR] at heq
    exact heq

/-- C20: with the library routines as the spec describes them (cache size 32),
`optimize_model` returns on every mesh with at least one face, and the two statistics it
measures satisfy: when the faces reference at most 32 distinct vertices, the ACMR after
reordering is at most the ACMR before; when the mesh has at most twice as many faces as
distinct vertices referenced, the ACMR after reordering is at least 0.5. -/
theorem C20_acmr_bounds (input : runtime_mesh) :
    (input.faces ≠ [] → ∃ r, optimize_model meshoptimizer_spec input = .ok r) ∧
    ∀ r, optimize_model meshoptimizer_spec input = .ok r →
      (input.referenced ≤ 32 → acmr_le r.2.2 r.2.1) ∧
      (input.faces.length ≤ 2 * input.referenced → acmr_at_least_half r.2.2) := by
  refine ⟨optimize_model_returns meshoptimizer_spec input, ?_⟩
  intro r h
  obtain ⟨h1, h2, h3, h4, h5⟩ := optimize_model_spec_bounds input r h
  constructor
  · intro hle
    unfold acmr_le
    rw [h1, h2, h5 hle]
    exact Nat.mul_le_mul_right _ h3
  · intro hle
    unfold acmr_at_least_half
    rw [h2]
    omega

/-- Witness of C20 on the unit-cube mesh: 12 faces on 24 referenced vertices. -/
theorem C20_acmr_bounds_witness :
    cube_mesh.faces ≠ [] ∧ cube_mesh.referenced ≤ 32 ∧
    cube_mesh.faces.length ≤ 2 * cube_mesh.referenced ∧
    (∃ r, optimize_model meshoptimizer_spec cube_mesh = .ok r) ∧
    ∀ r, optimize_model meshoptimizer_spec cube_mesh = .ok r →
      acmr_le r.2.2 r.2.1 ∧ acmr_at_least_half r.2.2 :=
  ⟨by decide, by decide, by decide, (C20_acmr_bounds cube_mesh).1 (by decide),
   fun r h => ⟨((C20_acmr_bounds cube_mesh).2 r h).1 (by decide),
     ((C20_acmr_bounds cube_mesh).2 r h).2 (by decide)⟩⟩

/-! ## C21: a source that could not be parsed -/

theorem throws_nothing_bind {α β : Type} (x : Except Failure α) (f : α → Except Failure β)
    (hx : throws_nothing x) (hf : ∀ a, throws_nothing (f a)) : throws_nothing (x.bind f) := by
  cases x with
  | error e =>
    intro what h
    simp only [Except.bind] at h
    cases h
    exact hx what rfl
  | ok a => exact hf a

theorem throws_nothing_ok {α : Type} (a : α) : throws_nothing (.ok a : Except Failure α) := by
  intro what h
  cases h

theorem throws_nothing_vector_at {α : Type} (xs : List α) (i : Nat) :
    throws_nothing (vector_at xs i) := by
  intro what h
  unfold vector_at at h
  split at h <;> cases h

theorem throws_nothing_make_unique_vertex (attrib : attrib_t) (idx : index_t) :
    throws_nothing (make_unique_vertex attrib idx) := by
  intro what h
  rcases make_unique_vertex_cases attrib idx with he | ⟨k, hk, _⟩
  · rw [he] at h; cases h
  · rw [hk] at h; cases h

theorem throws_nothing_process_face (attrib : attrib_t) (mesh : mesh_t) (f off : Nat)
    (g : runtime_mesh) (m : List (unique_vertex × Nat)) :
    throws_nothing (process_face attrib mesh f off g m) := by
  rw [process_face_eq]
  refine throws_nothing_bind _ _ (throws_nothing_vector_at _ _) fun n => ?_
  split
  · intro what h; cases h
  refine throws_nothing_bind _ _ (throws_nothing_vector_at _ _) fun _ => ?_
  refine throws_nothing_bind _ _ (throws_nothing_make_unique_vertex _ _) fun _ => ?_
  refine throws_nothing_bind _ _ (throws_nothing_vector_at _ _) fun _ => ?_
  refine throws_nothing_bind _ _ (throws_nothing_make_unique_vertex _ _) fun _ => ?_
  refine throws_nothing_bind _ _ (throws_nothing_vector_at _ _) fun _ => ?_
  refine throws_nothing_bind _ _ (throws_nothing_make_unique_vertex _ _) fun _ => ?_
  refine throws_nothing_bind _ _ (throws_nothing_vector_at _ _) fun _ => ?_
  exact throws_nothing_ok _

theorem throws_nothing_face_loop (attrib : attrib_t) (mesh : mesh_t) (n : Nat) :
    ∀ (f off : Nat) (g : runtime_mesh) (m : List (unique_vertex × Nat)),
      throws_nothing (face_loop attrib mesh n f off g m) := by
  induction n with
  | zero => intro f off g m; exact throws_nothing_ok _
  | succ n ih =>
    intro f off g m
    rw [face_loop_succ]
    exact throws_nothing_bind _ _ (throws_nothing_process_face _ _ _ _ _ _) fun r => ih _ _ _ _

theorem throws_nothing_import_obj_shape (attrib : attrib_t) (mesh : mesh_t) (g : runtime_mesh) :
    throws_nothing (import_obj_shape attrib mesh g) := by
  have heq : import_obj_shape attrib mesh g =
      (face_loop attrib mesh mesh.num_face_vertices.length 0 0 g []).bind
        fun r => .ok r.1 := rfl
  rw [heq]
  exact throws_nothing_bind _ _ (throws_nothing_face_loop _ _ _ _ _ _ _) fun r =>
    throws_nothing_ok _

theorem throws_nothing_shapes_loop (attrib : attrib_t) (shapes : List shape_t) :
    ∀ meshes, throws_nothing (shapes_loop attrib shapes meshes) := by
  induction shapes with
  | nil => intro meshes; exact throws_nothing_ok _
  | cons shape rest ih =>
    intro meshes
    rw [shapes_loop_cons]
    exact throws_nothing_bind _ _ (throws_nothing_import_obj_shape _ _ _) fun g => ih _

/-- C21, the code on a source that could not be parsed.  `import_obj_model` reads `status`
only to decide whether the warning text is printed (lines 74-77): its result is the same
for every `status` and `err`.  On `loaded_unparsed` (false status, nothing parsed) it
raises nothing and returns the empty mapping; a warning text with a true status does not
abort the import either.  No call of `import_obj_model` ends in a thrown exception. -/
theorem C21_failed_parse_not_raised :
    (∀ loaded : LoadObj_result, throws_nothing (import_obj_model loaded)) ∧
    (∀ (loaded : LoadObj_result) (status : Bool) (err : String),
      import_obj_model { loaded with status := status, err := err } =
        import_obj_model loaded) ∧
    loaded_unparsed.status = false ∧
    import_obj_model loaded_unparsed = .ok [] ∧
    import_obj_model { loaded_two_shapes with status := true, err := "warning" } =
      .ok result_two_shapes :=
  ⟨fun loaded => throws_nothing_shapes_loop loaded.attrib loaded.shapes [],
    fun _ _ _ => rfl, rfl, rfl, rfl⟩

/-! ## C22: the compression tag of an uncompressed export -/

theorem from_le32_zero (rest : List Nat) : from_le32 (0 :: 0 :: 0 :: 0 :: rest) = 0 := rfl

/-- C22: for every mesh, the header that `export_mesh_binary` computes with
`compressed = false` has `compressionVersion = 0`; that header is the first 44 bytes of
the file, bytes 4 to 7 of the file are zero, and the header read back from the file has
`compressionVersion = 0`. -/
theorem C22_uncompressed_tag (K : Versions) (mesh : runtime_mesh) :
    (make_header K mesh false).compressionVersion = 0 ∧
    (export_mesh_binary K mesh false).take sizeof_header =
      header_bytes (make_header K mesh false) ∧
    ((export_mesh_binary K mesh false).drop 4).take 4 = [0, 0, 0, 0] ∧
    ∃ h, read_header (export_mesh_binary K mesh false) = some h ∧
      h.compressionVersion = 0 := by
  have htake : (export_mesh_binary K mesh false).take sizeof_header =
      header_bytes (make_header K mesh false) := by
    rw [export_mesh_binary_split, List.take_left' (length_header_bytes _)]
  have hlen : sizeof_header ≤ (export_mesh_binary K mesh false).length := by
    rw [export_mesh_binary_split, List.length_append, length_header_bytes]
    exact Nat.le_add_right _ _
  refine ⟨rfl, htake, ?_, ?_⟩
  · rw [export_mesh_binary_split]
    simp only [header_bytes, make_header, le32, Bool.false_eq_true, if_false,
      List.cons_append, List.nil_append, List.drop_succ_cons, List.drop_zero,
      List.take_succ_cons, List.take_zero, Nat.zero_mod, Nat.zero_div]
  · refine ⟨_, by rw [read_header, if_pos hlen], ?_⟩
    rw [htake]
    simp only [header_of_bytes, header_bytes, make_header, le32, Bool.false_eq_true, if_false,
      List.cons_append, List.nil_append, List.drop_succ_cons, List.drop_zero,
      Nat.zero_mod, Nat.zero_div, from_le32_zero]

/-! ## C24: the frame of `optimize_model` -/

/-- C24: whatever the library routines write, a call of `optimize_model` that completes
leaves `normals`, `colors`, `texcoord0`, `texcoord1`, `tangents`, `bitangents` and
`material` exactly as they were (only `faces` and `vertices` are assigned); and the call
completes on every mesh with at least one face. -/
theorem C24_optimize_model_frame {σ : Type} (lib : meshoptimizer σ) (input : runtime_mesh) :
    (input.faces ≠ [] → ∃ r, optimize_model lib input = .ok r) ∧
    ∀ r, optimize_model lib input = .ok r →
      r.1.normals = input.normals ∧ r.1.colors = input.colors ∧
      r.1.texcoord0 = input.texcoord0 ∧ r.1.texcoord1 = input.texcoord1 ∧
      r.1.tangents = input.tangents ∧ r.1.bitangents = input.bitangents ∧
      r.1.material = input.material := by
  refine ⟨optimize_model_returns lib input, ?_⟩
  intro r h
  obtain ⟨_, _, _, h1, h2, h3, h4, h5, h6, h7⟩ := optimize_model_ok lib input r h
  exact ⟨h1, h2, h3, h4, h5, h6, h7⟩

/-- Witness of C24: the unit-cube mesh (24 normals and texcoords), with the routines as the
spec describes them. -/
theorem C24_optimize_model_frame_witness :
    cube_mesh.faces ≠ [] ∧
    (∃ r, optimize_model meshoptimizer_spec cube_mesh = .ok r) ∧
    ∀ r, optimize_model meshoptimizer_spec cube_mesh = .ok r →
      r.1.normals = cube_mesh.normals ∧ r.1.colors = cube_mesh.colors ∧
      r.1.texcoord0 = cube_mesh.texcoord0 ∧ r.1.texcoord1 = cube_mesh.texcoord1 ∧
      r.1.tangents = cube_mesh.tangents ∧ r.1.bitangents = cube_mesh.bitangents ∧
      r.1.material = cube_mesh.material :=
  ⟨by decide, (C24_optimize_model_frame meshoptimizer_spec cube_mesh).1 (by decide),
    (C24_optimize_model_frame meshoptimizer_spec cube_mesh).2⟩

/-! ## C25: a mesh without faces -/

theorem optimize_model_no_faces {σ : Type} (lib : meshoptimizer σ) (input : runtime_mesh)
    (h : input.faces = []) :
    optimize_model lib input = .error (.undefined_behaviour .index_out_of_range) := by
  unfold optimize_model
  simp only [h, vector_at, List.getElem?_nil, bind, Except.bind]

/-- C25, the code on a mesh without faces.  Line 155 evaluates `input.faces[0]` before
anything else: on every mesh with zero faces, whatever the library routines do, the call
of `optimize_model` ends in that out-of-range element access, and `mesh_no_faces` is such
a mesh that satisfies the data-model invariants.  On a mesh with at least one face every
element access of `optimize_model` is within bounds and the call completes. -/
theorem C25_zero_faces_out_of_range :
    (∀ (σ : Type) (lib : meshoptimizer σ) (input : runtime_mesh), input.faces = [] →
      optimize_model lib input = .error (.undefined_behaviour .index_out_of_range)) ∧
    mesh_no_faces.valid ∧ mesh_no_faces.faces = [] ∧
    optimize_model meshoptimizer_spec mesh_no_faces =
      .error (.undefined_behaviour .index_out_of_range) ∧
    (∀ (σ : Type) (lib : meshoptimizer σ) (input : runtime_mesh), input.faces ≠ [] →
      ∃ r, optimize_model lib input = .ok r) :=
  ⟨fun _ lib input h => optimize_model_no_faces lib input h, by decide, rfl, rfl,
    fun _ lib input h => optimize_model_returns lib input h⟩

/-! ## C23: the de-duplication loses nothing -/

/-- The mesh built from the empty mesh gives every corner the key it was read with, as long
as the mesh has at most `2^32` vertices (every index is then a `uint32_t` value). -/
theorem import_obj_shape_lossless (attrib : attrib_t) (mesh : mesh_t) (g : runtime_mesh)
    (h : import_obj_shape attrib mesh {} = .ok g) (hsize : g.vertices.length ≤ UINT32_MOD)
    (c : Nat) (hc : c < 3 * mesh.num_face_vertices.length) :
    ∃ k i, corner_key attrib mesh c = .ok k ∧ corner_index g c = some i ∧
      vertex_key_at g i = (some k.position, some k.normal, some k.texcoord) := by
  obtain ⟨ks, ⟨hlen, hkeys⟩, hv, hn, ht, _, hidx⟩ := import_obj_shape_fresh _ _ _ h
  have hcl : c < ks.length := by rw [hlen]; exact hc
  have hget : ks[c]? = some ks[c] := List.getElem?_eq_getElem hcl
  have hvl : g.vertices.length = (first_seen ks).length := by rw [hv, List.length_map]
  have hlt := indexOf_first_seen_lt ks ks[c] (List.getElem_mem _)
  have hmod : (first_seen ks).indexOf ks[c] % UINT32_MOD = (first_seen ks).indexOf ks[c] :=
    Nat.mod_eq_of_lt (by omega)
  refine ⟨ks[c], (first_seen ks).indexOf ks[c], hkeys c _ hget, ?_, ?_⟩
  · rw [hidx c _ hget, hmod]
  · rw [vertex_key_at_map g _ hv hn ht _ hlt, List.getElem_indexOf]

theorem eq_of_mem_of_nodup_keys {α β : Type} (l : List (α × β)) (h : (l.map Prod.fst).Nodup)
    (a : α) (b b' : β) (hb : (a, b) ∈ l) (hb' : (a, b') ∈ l) : b = b' := by
  induction l with
  | nil => cases hb
  | cons e rest ih =>
    rw [List.map_cons, List.nodup_cons] at h
    rw [List.mem_cons] at hb hb'
    rcases hb with hb | hb <;> rcases hb' with hb' | hb'
    · rw [← hb'] at hb
      exact (Prod.mk.inj hb).2
    · subst hb
      exact absurd (List.mem_map_of_mem Prod.fst hb') h.1
    · subst hb'
      exact absurd (List.mem_map_of_mem Prod.fst hb) h.1
    · exact ih h.2 hb hb'

/-- C23 (as amended): in every mesh `import_obj_model` returns, `vertices`, `normals` and
`texcoord0` have the same length.  When the shapes of the source have pairwise different
names, the mesh stored under a shape's name has one face per face of the shape, and if it
has at most `2^32` vertices then for every corner `c` of the shape (corner `c % 3` of face
`c / 3`) the index `i` stored at that place of `faces` satisfies
`(vertices[i], normals[i], texcoord0[i])` = key of the corner.  The import does return on
every parsed source whose shapes are well formed. -/
theorem C23_dedup_lossless (loaded : LoadObj_result) :
    (loaded.readable → ∃ meshes, import_obj_model loaded = .ok meshes) ∧
    ∀ meshes, import_obj_model loaded = .ok meshes →
      (∀ e ∈ meshes, e.2.normals.length = e.2.vertices.length ∧
        e.2.texcoord0.length = e.2.vertices.length) ∧
      ((loaded.shapes.map (fun s => s.name)).Nodup →
        ∀ s ∈ loaded.shapes, ∀ g, (s.name, g) ∈ meshes →
          g.faces.length = s.mesh.num_face_vertices.length ∧
          (g.vertices.length ≤ UINT32_MOD →
            ∀ c, c < 3 * s.mesh.num_face_vertices.length →
              ∃ k i, corner_key loaded.attrib s.mesh c = .ok k ∧
                corner_index g c = some i ∧
                vertex_key_at g i = (some k.position, some k.normal, some k.texcoord))) := by
  refine ⟨import_obj_model_returns loaded, ?_⟩
  intro meshes h
  constructor
  · intro e he
    have := shapes_loop_preserves loaded.attrib
      (fun g => g.texcoord0.length = g.vertices.length ∧
        g.normals.length = g.vertices.length)
      ⟨rfl, rfl⟩
      (fun mesh g0 g h0 hg => import_obj_shape_parallel loaded.attrib mesh g0 g h0 hg)
      loaded.shapes [] meshes (fun _ he => by cases he) h e he
    exact ⟨this.2, this.1⟩
  · intro hnd s hs g hg
    obtain ⟨g', hg', hshape⟩ := import_obj_model_nodup loaded meshes hnd h s hs
    have hkeys := shapes_loop_nodup_keys loaded.attrib loaded.shapes [] meshes
      List.nodup_nil h
    have hgg : g = g' := eq_of_mem_of_nodup_keys meshes hkeys s.name g g' hg hg'
    subst hgg
    obtain ⟨ks, _, _, _, _, hfaces, _⟩ := import_obj_shape_fresh _ _ _ hshape
    exact ⟨hfaces, fun hsize c hc => import_obj_shape_lossless _ _ _ hshape hsize c hc⟩

/-- Witness of C23: corner 4 of the shape `a` of `loaded_two_shapes` (corner 1 of its second
triangle). -/
theorem C23_dedup_lossless_witness :
    loaded_two_shapes.readable ∧
    (∃ meshes, import_obj_model loaded_two_shapes = .ok meshes) ∧
    import_obj_model loaded_two_shapes = .ok result_two_shapes ∧
    (∀ e ∈ result_two_shapes, e.2.normals.length = e.2.vertices.length ∧
      e.2.texcoord0.length = e.2.vertices.length) ∧
    ∃ k i, corner_key loaded_two_shapes.attrib mesh_two_triangles 4 = .ok k ∧
      corner_index (meshes_at result_two_shapes "a") 4 = some i ∧
      vertex_key_at (meshes_at result_two_shapes "a") i =
        (some k.position, some k.normal, some k.texcoord) :=
  ⟨by decide, (C23_dedup_lossless loaded_two_shapes).1 (by decide), rfl,
    ((C23_dedup_lossless loaded_two_shapes).2 result_two_shapes rfl).1,
    (((C23_dedup_lossless loaded_two_shapes).2 result_two_shapes rfl).2 (by decide)
      ⟨"a", mesh_two_triangles⟩ (by decide) (meshes_at result_two_shapes "a")
      (by decide)).2 (by decide) 4 (by decide)⟩

/-! ### A shape with more than `2^32` distinct keys -/

theorem vector_at_int_flat_axis (n a : Nat) (ha : a < n) :
    vector_at_int (flat_axis n) (3 * Int.ofNat a + 0) = .ok a ∧
    vector_at_int (flat_axis n) (3 * Int.ofNat a + 1) = .ok 0 ∧
    vector_at_int (flat_axis n) (3 * Int.ofNat a + 2) = .ok 0 := by
  have key : ∀ j : Nat, j < 3 →
      vector_at_int (flat_axis n) (3 * Int.ofNat a + Int.ofNat j) =
        .ok (if (3 * a + j) % 3 = 0 then (3 * a + j) / 3 else 0) := by
    intro j hj
    have h0 : (0 : Int) ≤ 3 * Int.ofNat a + Int.ofNat j := by
      simp only [Int.ofNat_eq_coe]; omega
    have h1 : (3 * Int.ofNat a + Int.ofNat j).toNat = 3 * a + j := by
      simp only [Int.ofNat_eq_coe]; omega
    have h2 : 3 * a + j < 3 * n := by omega
    simp only [vector_at_int, if_pos h0, h1, vector_at, flat_axis, List.getElem?_map,
      List.getElem?_range h2, Option.map_some']
  have e0 := key 0 (by decide)
  have e1 := key 1 (by decide)
  have e2 := key 2 (by decide)
  have a0 : (3 * a + 0) % 3 = 0 := by omega
  have b0 : (3 * a + 0) / 3 = a := by omega
  have a1 : ¬ (3 * a + 1) % 3 = 0 := by omega
  have a2 : ¬ (3 * a + 2) % 3 = 0 := by omega
  rw [if_pos a0, b0] at e0
  rw [if_neg a1] at e1
  rw [if_neg a2] at e2
  exact ⟨e0, e1, e2⟩

theorem make_unique_vertex_flat_axis (nv nn a b : Nat) (ha : a < nv) (hb : b < nn) :
    make_unique_vertex ⟨flat_axis nv, flat_axis nn, []⟩ ⟨Int.ofNat a, Int.ofNat b, -1⟩ =
      .ok ⟨⟨a, 0, 0⟩, ⟨b, 0, 0⟩, ⟨0, 0⟩⟩ := by
  obtain ⟨p0, p1, p2⟩ := vector_at_int_flat_axis nv a ha
  obtain ⟨n0, n1, n2⟩ := vector_at_int_flat_axis nn b hb
  rw [make_unique_vertex_eq]
  simp only [p0, p1, p2, n0, n1, n2, Except.bind, ne_eq, not_true_eq_false, if_false]

theorem except_ok_bind {ε α β : Type} (a : α) (f : α → Except ε β) :
    (Except.ok a : Except ε α).bind f = f a := rfl

theorem loaded_wrapped_attrib (P F : Nat) :
    (loaded_wrapped P F).attrib = ⟨flat_axis P, flat_axis (3 * F / P + 1), []⟩ := rfl

theorem loaded_wrapped_shapes (P F : Nat) :
    (loaded_wrapped P F).shapes = [⟨"a", mesh_wrapped P F⟩] := rfl

theorem length_mesh_wrapped (P F : Nat) :
    (mesh_wrapped P F).num_face_vertices.length = F := by
  simp only [mesh_wrapped, List.length_replicate]

theorem corner_key_wrapped (P F c : Nat) (hP : 0 < P) (hc : c < 3 * F) :
    corner_key (loaded_wrapped P F).attrib (mesh_wrapped P F) c = .ok (key_wrapped P c) := by
  have hidx : vector_at (mesh_wrapped P F).indices c = .ok (index_wrapped P c) := by
    simp only [vector_at, mesh_wrapped, List.getElem?_map, List.getElem?_range hc,
      Option.map_some']
  have hp : c % P < P := Nat.mod_lt _ hP
  have hn : c / P < 3 * F / P + 1 :=
    Nat.lt_succ_of_le (Nat.div_le_div_right (Nat.le_of_lt hc))
  rw [corner_key, hidx, except_ok_bind, loaded_wrapped_attrib, index_wrapped, key_wrapped]
  exact make_unique_vertex_flat_axis P (3 * F / P + 1) (c % P) (c / P) hp hn

theorem loaded_wrapped_readable (P F : Nat) (hP : 0 < P) : (loaded_wrapped P F).readable := by
  intro s hs
  rw [loaded_wrapped_shapes, List.mem_singleton] at hs
  subst hs
  refine ⟨fun n hn => List.eq_of_mem_replicate hn, ?_, ?_⟩
  · simp only [mesh_wrapped, List.length_replicate, Nat.le_refl]
  · intro c hc
    rw [length_mesh_wrapped] at hc
    have h : corner_key (loaded_wrapped P F).attrib (mesh_wrapped P F) c =
        .ok (key_wrapped P c) := corner_key_wrapped P F c hP hc
    rw [h]
    rfl

theorem first_seen_of_nodup {α : Type} [DecidableEq α] (p : List α) (h : p.Nodup) :
    first_seen p = p := by
  induction p using List.reverseRecOn with
  | nil => rfl
  | append_singleton p a ih =>
    rw [List.nodup_append] at h
    obtain ⟨hp, _, hdis⟩ := h
    have ha : a ∉ first_seen p := by
      rw [mem_first_seen]
      intro hmem
      exact hdis hmem (List.mem_singleton_self a)
    rw [first_seen_concat, if_neg ha, ih hp]

theorem key_wrapped_injective (P c c' : Nat) (h : key_wrapped P c = key_wrapped P c') :
    c = c' := by
  simp only [key_wrapped, unique_vertex.mk.injEq, float3.mk.injEq, and_true, true_and] at h
  rw [← Nat.div_add_mod c P, ← Nat.div_add_mod c' P, h.1, h.2]

/-- On `loaded_wrapped P F` the importer returns a mesh in which corner `c` gets the vertex
index `c mod 2^32`, while index `i` carries the key of corner `i`. -/
theorem import_obj_model_wrapped (P F : Nat) (hP : 0 < P) :
    ∃ meshes g, import_obj_model (loaded_wrapped P F) = .ok meshes ∧ ("a", g) ∈ meshes ∧
      (∀ c, c < 3 * F → corner_index g c = some (c % UINT32_MOD)) ∧
      (∀ i, i < 3 * F → vertex_key_at g i =
        (some (key_wrapped P i).position, some (key_wrapped P i).normal,
          some (key_wrapped P i).texcoord)) := by
  obtain ⟨meshes, hm⟩ :=
    import_obj_model_returns (loaded_wrapped P F) (loaded_wrapped_readable P F hP)
  have hnd : ((loaded_wrapped P F).shapes.map (fun s => s.name)).Nodup := by
    rw [loaded_wrapped_shapes]
    exact List.nodup_singleton _
  obtain ⟨g, hg, hshape⟩ := import_obj_model_nodup (loaded_wrapped P F) meshes hnd hm
    ⟨"a", mesh_wrapped P F⟩ (by rw [loaded_wrapped_shapes]; exact List.mem_singleton_self _)
  have hshape' : import_obj_shape (loaded_wrapped P F).attrib (mesh_wrapped P F) {} = .ok g :=
    hshape
  obtain ⟨ks, ⟨hlen, hkeys⟩, hv, hn, ht, _, hidx⟩ := import_obj_shape_fresh _ _ _ hshape'
  rw [length_mesh_wrapped] at hlen
  have hks : ∀ c (hc : c < ks.length), ks[c] = key_wrapped P c := by
    intro c hc
    have h1 := hkeys c ks[c] (List.getElem?_eq_getElem hc)
    rw [corner_key_wrapped P F c hP (by omega)] at h1
    exact (Except.ok.inj h1).symm
  have hnodup : ks.Nodup := by
    rw [List.nodup_iff_injective_get]
    intro i j hij
    have hi := hks i.1 i.2
    have hj := hks j.1 j.2
    simp only [List.get_eq_getElem] at hij
    rw [hi, hj] at hij
    exact Fin.ext (key_wrapped_injective P _ _ hij)
  have hfs := first_seen_of_nodup ks hnodup
  rw [hfs] at hv hn ht hidx
  refine ⟨meshes, g, hm, hg, ?_, ?_⟩
  · intro c hc
    have hcl : c < ks.length := by omega
    have h1 := hidx c ks[c] (List.getElem?_eq_getElem hcl)
    rw [List.indexOf_getElem hnodup] at h1
    exact h1
  · intro i hi
    have hil : i < ks.length := by omega
    rw [vertex_key_at_map g ks hv hn ht i hil, hks i hil]

/-- The source `loaded_wrapped 65536 1431655766`, whose one shape has `2^32 + 2` corners
with pairwise different keys: corner `2^32` (position 0, normal 65536) gets the vertex
index 0, where the mesh holds the key of corner 0 (position 0, normal 0). -/
theorem import_obj_model_wrapped_at :
    ∃ meshes g, import_obj_model (loaded_wrapped 65536 1431655766) = .ok meshes ∧
      ("a", g) ∈ meshes ∧
      corner_key (loaded_wrapped 65536 1431655766).attrib (mesh_wrapped 65536 1431655766)
        4294967296 = .ok ⟨⟨0, 0, 0⟩, ⟨65536, 0, 0⟩, ⟨0, 0⟩⟩ ∧
      corner_index g 4294967296 = some 0 ∧
      vertex_key_at g 0 = (some ⟨0, 0, 0⟩, some ⟨0, 0, 0⟩, some ⟨0, 0⟩) := by
  obtain ⟨meshes, g, hm, hg, h1, h2⟩ :=
    import_obj_model_wrapped 65536 1431655766 (by decide)
  have hk : key_wrapped 65536 4294967296 = ⟨⟨0, 0, 0⟩, ⟨65536, 0, 0⟩, ⟨0, 0⟩⟩ := rfl
  have hk0 : key_wrapped 65536 0 = ⟨⟨0, 0, 0⟩, ⟨0, 0, 0⟩, ⟨0, 0⟩⟩ := rfl
  have hmod : 4294967296 % UINT32_MOD = 0 := by decide
  have e1 := corner_key_wrapped 65536 1431655766 4294967296 (by decide) (by decide)
  have e2 := h1 4294967296 (by decide)
  have e3 := h2 0 (by decide)
  rw [hk] at e1
  rw [hmod] at e2
  rw [hk0] at e3
  exact ⟨meshes, g, hm, hg, e1, e2, e3⟩

/-- C23 fails as stated, in two ways.  Two shapes of the same name are stored in one mesh:
for `loaded_same_name_reversed`, corner 0 of the second shape has the position
`(0, 1, 0)`, but face 0 of the mesh is the first shape's and its component 0 leads to the
position `(0, 0, 0)`.  And the new index is `uint32_t(g.vertices.size())`: on
`loaded_wrapped 65536 1431655766`, whose one shape has `2^32 + 2` corners with pairwise
different keys, corner `2^32` (normal `(65536, 0, 0)`) gets the index 0, where the normal
is `(0, 0, 0)`. -/
theorem C23_counterexample :
    (loaded_same_name_reversed.readable ∧
      import_obj_model loaded_same_name_reversed = .ok [("a", mesh_same_name_reversed)] ∧
      corner_key attrib_triangle mesh_triangle_reversed 0 =
        .ok ⟨⟨0, 1065353216, 0⟩, ⟨0, 0, 1065353216⟩, ⟨0, 0⟩⟩ ∧
      corner_index mesh_same_name_reversed 0 = some 0 ∧
      vertex_key_at mesh_same_name_reversed 0 =
        (some ⟨0, 0, 0⟩, some ⟨0, 0, 1065353216⟩, some ⟨0, 0⟩)) ∧
    ((loaded_wrapped 65536 1431655766).readable ∧
      ∃ meshes g, import_obj_model (loaded_wrapped 65536 1431655766) = .ok meshes ∧
        ("a", g) ∈ meshes ∧
        corner_key (loaded_wrapped 65536 1431655766).attrib (mesh_wrapped 65536 1431655766)
          4294967296 = .ok ⟨⟨0, 0, 0⟩, ⟨65536, 0, 0⟩, ⟨0, 0⟩⟩ ∧
        corner_index g 4294967296 = some 0 ∧
        vertex_key_at g 0 = (some ⟨0, 0, 0⟩, some ⟨0, 0, 0⟩, some ⟨0, 0⟩)) :=
  ⟨⟨by decide, rfl, rfl, rfl, rfl⟩,
    loaded_wrapped_readable 65536 1431655766 (by decide), import_obj_model_wrapped_at⟩

/-! ## C26: the shape of a Euclidean pattern -/

/-! ### Arithmetic of `int` on values in range -/

theorem int_value_ok (v : Int) (h1 : INT_MIN ≤ v) (h2 : v ≤ INT_MAX) :
    int_value v = .ok v := by
  simp only [int_value, h1, h2, and_self, if_true]

theorem int_value_ofNat (n : Nat) (h : (n : Int) ≤ INT_MAX) : int_value n = .ok (n : Int) := by
  refine int_value_ok _ ?_ h
  have : INT_MIN ≤ 0 := by decide
  omega

theorem int_div_ofNat (d ρ : Nat) (hρ : 0 < ρ) (hd : (d : Int) ≤ INT_MAX) :
    int_div d ρ = .ok ((d / ρ : Nat) : Int) := by
  have h0 : ¬ ((ρ : Int) = 0) := by omega
  have hle : ((d / ρ : Nat) : Int) ≤ INT_MAX :=
    le_trans (Int.ofNat_le.mpr (Nat.div_le_self d ρ)) hd
  rw [int_div, if_neg h0, ← Int.ofNat_tdiv]
  exact int_value_ofNat _ hle

theorem int_mod_ofNat (d ρ : Nat) (hρ : 0 < ρ) (hd : (d : Int) ≤ INT_MAX) :
    int_mod d ρ = .ok ((d % ρ : Nat) : Int) := by
  have h0 : ¬ ((ρ : Int) = 0) := by omega
  have hle : ((d / ρ : Nat) : Int) ≤ INT_MAX :=
    le_trans (Int.ofNat_le.mpr (Nat.div_le_self d ρ)) hd
  rw [int_mod, if_neg h0, ← Int.ofNat_tdiv, int_value_ofNat _ hle, ← Int.ofNat_tmod]
  rfl

theorem vector_at_int_ofNat (xs : List Int) (i : Nat) (h : i < xs.length) :
    vector_at_int xs (i : Int) = .ok (xs.getD i 0) := by
  have h0 : (0 : Int) ≤ (i : Int) := Int.ofNat_nonneg i
  simp only [vector_at_int, if_pos h0, Int.toNat_ofNat, vector_at, List.getElem?_eq_getElem h,
    List.getD_eq_getElem?_getD, Option.getD_some]

/-! ### The recursion `bjorklund` -/

theorem bounded_bind_ok {α β : Type} (a : α) (f : α → Option (Except Failure β)) :
    bounded_bind (some (.ok a)) f = f a := rfl

theorem repeat_call_append (call : List Bool → Option (Except Failure (List Bool)))
    (b : List Bool) (h : ∀ p, call p = some (.ok (p ++ b))) :
    ∀ (n : Nat) (p : List Bool),
      repeat_call call n p = some (.ok (p ++ (List.replicate n b).flatten)) := by
  intro n
  induction n with
  | zero => intro p; simp [repeat_call]
  | succ n ih =>
    intro p
    rw [repeat_call, h p, bounded_bind_ok, ih, List.replicate_succ, List.flatten_cons,
      List.append_assoc]

/-- With enough depth, valid indices and a call counter in range, `bjorklund` at level
`k - 2` appends `block counts remainders k`. -/
theorem bjorklund_block (counts remainders : List Int) :
    ∀ (depth k : Nat) (r : Int) (pattern : List Bool),
      k < depth → k ≤ counts.length + 1 → k ≤ remainders.length + 1 → 0 ≤ r →
      r + k < INT_MAX →
      bjorklund counts remainders depth ((k : Int) - 2) r pattern =
        some (.ok (pattern ++ block counts remainders k)) := by
  intro depth
  induction depth with
  | zero => intro k r pattern hk; omega
  | succ depth ih =>
    intro k r pattern hk hc hr h0 hmax
    have hmin : INT_MIN ≤ r + 1 := by
      have : INT_MIN ≤ 0 := by decide
      omega
    have hr1 : int_value (r + 1) = .ok (r + 1) := int_value_ok _ hmin (by omega)
    rw [bjorklund, hr1, bounded_bind_ok]
    match k, hk, hc, hr, hmax with
    | 0, _, _, _, _ =>
      have e1 : ¬ (((0 : Nat) : Int) - 2 > -1) := by omega
      have e2 : ¬ (((0 : Nat) : Int) - 2 = -1) := by omega
      have e3 : (((0 : Nat) : Int) - 2 = -2) := by omega
      rw [if_neg e1, if_neg e2, if_pos e3]
      rfl
    | 1, _, _, _, _ =>
      have e1 : ¬ (((1 : Nat) : Int) - 2 > -1) := by omega
      have e2 : (((1 : Nat) : Int) - 2 = -1) := by omega
      rw [if_neg e1, if_pos e2]
      rfl
    | k + 2, hk, hc, hr, hmax =>
      have hl : ((k + 2 : Nat) : Int) - 2 = (k : Int) := by omega
      have e1 : (k : Int) > -1 := by omega
      have hl1 : (k : Int) - 1 = ((k + 1 : Nat) : Int) - 2 := by omega
      rw [hl, if_pos e1, vector_at_int_ofNat counts k (by omega), bounded_bind_ok, hl1]
      have hcall : ∀ p, bjorklund counts remainders depth (((k + 1 : Nat) : Int) - 2) (r + 1) p =
          some (.ok (p ++ block counts remainders (k + 1))) := fun p =>
        ih (k + 1) (r + 1) p (by omega) (by omega) (by omega) (by omega)
          (by push_cast at hmax ⊢; omega)
      rw [repeat_call_append _ _ hcall, bounded_bind_ok,
        vector_at_int_ofNat remainders k (by omega), bounded_bind_ok]
      by_cases hrem : remainders.getD k 0 ≠ 0
      · rw [if_pos hrem, ih k (r + 1) _ (by omega) (by omega) (by omega) (by omega)
          (by push_cast at hmax ⊢; omega)]
        simp only [block, if_pos hrem, List.append_assoc]
      · rw [if_neg hrem]
        simp only [block, if_neg hrem, List.append_nil]

/-! ### The measure of a block -/

theorem additive_length : additive List.length :=
  ⟨rfl, fun a b => List.length_append a b⟩

theorem additive_count : additive (List.count true) :=
  ⟨rfl, fun a b => List.count_append true a b⟩

theorem additive_flatten_replicate (w : List Bool → Nat) (hw : additive w) (b : List Bool) :
    ∀ n, w ((List.replicate n b).flatten) = n * w b := by
  intro n
  induction n with
  | zero => simp [hw.1]
  | succ n ih => rw [List.replicate_succ, List.flatten_cons, hw.2, ih]; ring

theorem getD_append_length (xs ys : List Int) (y : Int) :
    (xs ++ y :: ys).getD xs.length 0 = y := by
  rw [List.getD_append_right _ _ _ _ (Nat.le_refl _), Nat.sub_self, List.getD_cons_zero]

/-- A block depends only on the entries of `counts` and `remainders` below its level. -/
theorem block_congr (cs rs cs' rs' : List Int) :
    ∀ k, (∀ i, i + 2 ≤ k → cs'.getD i 0 = cs.getD i 0 ∧ rs'.getD i 0 = rs.getD i 0) →
      block cs' rs' k = block cs rs k := by
  intro k
  induction k using Nat.strong_induction_on with
  | _ k ih =>
    intro h
    match k, ih, h with
    | 0, _, _ => rfl
    | 1, _, _ => rfl
    | k + 2, ih, h =>
      have h1 := ih (k + 1) (by omega) (fun i hi => h i (by omega))
      have h0 := ih k (by omega) (fun i hi => h i (by omega))
      obtain ⟨hc, hr⟩ := h k (Nat.le_refl _)
      simp only [block, h1, h0, hc, hr]

theorem block_append (cs rs xs ys : List Int) (k : Nat) (hc : k ≤ cs.length + 1)
    (hr : k ≤ rs.length + 1) : block (cs ++ xs) (rs ++ ys) k = block cs rs k :=
  block_congr cs rs _ _ k fun i hi =>
    ⟨List.getD_append _ _ _ _ (by omega), List.getD_append _ _ _ _ (by omega)⟩

/-- The measure of the block of level `l`, when `counts[l]` is `q` and `remainders[l]` is
not zero. -/
theorem additive_block_succ (w : List Bool → Nat) (hw : additive w) (cs rs : List Int)
    (l q : Nat) (hq : cs.getD l 0 = (q : Int)) (hr : rs.getD l 0 ≠ 0) :
    w (block cs rs (l + 2)) = q * w (block cs rs (l + 1)) + w (block cs rs l) := by
  simp only [block, hq, if_pos hr, hw.2, additive_flatten_replicate w hw, Int.toNat_ofNat]

/-! ### The loop of `make_euclidean_pattern` -/

theorem euclid_step_eq (s : euclid_state) :
    euclid_step s =
      (vector_at_int s.remainders s.level).bind fun r0 =>
      (int_div s.divisor r0).bind fun quotient =>
      (vector_at_int s.remainders s.level).bind fun r1 =>
      (int_mod s.divisor r1).bind fun remainder =>
      (vector_at_int (s.remainders ++ [remainder]) s.level).bind fun divisor =>
      (int_value (s.level + 1)).bind fun level =>
      .ok ⟨divisor, level, s.counts ++ [quotient], s.remainders ++ [remainder]⟩ := rfl

/-- One iteration of the loop on a state whose values are in range: no division by zero, no
overflow, no access outside a vector. -/
theorem euclid_step_ofNat (d l ρ : Nat) (cs rs : List Int) (hrs : rs.length = l + 1)
    (hρ : rs.getD l 0 = (ρ : Int)) (hpos : 0 < ρ) (hd : (d : Int) ≤ INT_MAX)
    (hl : ((l + 1 : Nat) : Int) ≤ INT_MAX) :
    euclid_step ⟨d, l, cs, rs⟩ =
      .ok ⟨ρ, ((l + 1 : Nat) : Int), cs ++ [((d / ρ : Nat) : Int)],
        rs ++ [((d % ρ : Nat) : Int)]⟩ := by
  have h1 : vector_at_int rs (l : Int) = .ok (ρ : Int) := by
    rw [vector_at_int_ofNat rs l (by omega), hρ]
  have h2 : vector_at_int (rs ++ [((d % ρ : Nat) : Int)]) (l : Int) = .ok (ρ : Int) := by
    rw [vector_at_int_ofNat _ l (by rw [List.length_append]; omega),
      List.getD_append _ _ _ _ (by omega), hρ]
  have h3 : int_value ((l : Int) + 1) = .ok ((l + 1 : Nat) : Int) := by
    have e : (l : Int) + 1 = ((l + 1 : Nat) : Int) := by push_cast; rfl
    rw [e]
    exact int_value_ofNat _ hl
  rw [euclid_step_eq]
  simp only [h1, except_ok_bind, int_div_ofNat d ρ hpos hd, int_mod_ofNat d ρ hpos hd, h2, h3]

/-- The measure of the block of level `l`, when `counts[l]` is `q` and `remainders[l]` is
zero. -/
theorem additive_block_succ_zero (w : List Bool → Nat) (hw : additive w) (cs rs : List Int)
    (l q : Nat) (hq : cs.getD l 0 = (q : Int)) (hr : rs.getD l 0 = 0) :
    w (block cs rs (l + 2)) = q * w (block cs rs (l + 1)) := by
  have hr' : ¬ rs.getD l 0 ≠ 0 := fun h => h hr
  rw [block, if_neg hr', List.append_nil, hq, Int.toNat_ofNat,
    additive_flatten_replicate w hw]

theorem euclid_loop_succ (fuel : Nat) (s : euclid_state) :
    euclid_loop (fuel + 1) s =
      bounded_bind (some (euclid_step s)) fun s =>
      bounded_bind (some (vector_at_int s.remainders s.level)) fun remainder =>
      if remainder ≤ 1 then some (.ok s) else euclid_loop fuel s := rfl

/-- The loop ends, with no undefined behaviour, on every state whose values are in range;
the final state is the same for every sufficient bound, and the block of the final level
measures `d * (block of level l - 1) + ρ * (block of level l - 2)`. -/
theorem euclid_loop_spec :
    ∀ (ρ d l : Nat) (cs rs : List Int),
      cs.length = l → rs.length = l + 1 → rs.getD l 0 = (ρ : Int) → 0 < ρ →
      (d : Int) ≤ INT_MAX → (ρ : Int) ≤ INT_MAX →
      (((l + ρ : Nat) : Int) ≤ INT_MAX - 3 ∨ ((l + d + 1 : Nat) : Int) ≤ INT_MAX - 3) →
      ∃ (d' l' : Nat) (cs' rs' : List Int),
        (∀ fuel, ρ ≤ fuel →
          euclid_loop fuel ⟨d, l, cs, rs⟩ = some (.ok ⟨d', l', cs', rs'⟩)) ∧
        cs'.length = l' ∧ rs'.length = l' + 1 ∧ l' ≤ l + ρ ∧
        (l' : Int) ≤ INT_MAX - 3 ∧
        ∀ w : List Bool → Nat, additive w →
          w (block (cs' ++ [(d' : Int)]) rs' (l' + 2)) =
            d * w (block cs rs (l + 1)) + ρ * w (block cs rs l) := by
  intro ρ
  induction ρ using Nat.strong_induction_on with
  | _ ρ ih =>
    intro d l cs rs hcs hrs hρ hpos hd hρmax hbound
    have hmax : INT_MAX = 2147483647 := rfl
    have hl1 : ((l + 1 : Nat) : Int) ≤ INT_MAX - 3 := by
      have hm : d % ρ ≤ d := Nat.mod_le d ρ
      rcases hbound with h | h <;> push_cast at h ⊢ <;> omega
    have hmlt : d % ρ < ρ := Nat.mod_lt d hpos
    have hmle : d % ρ ≤ d := Nat.mod_le d ρ
    have hstep := euclid_step_ofNat d l ρ cs rs hrs hρ hpos hd (by omega)
    have hlen1 : (rs ++ [((d % ρ : Nat) : Int)]).length = l + 1 + 1 := by
      rw [List.length_append, hrs]; rfl
    have hread : vector_at_int (rs ++ [((d % ρ : Nat) : Int)]) ((l + 1 : Nat) : Int) =
        .ok ((d % ρ : Nat) : Int) := by
      rw [vector_at_int_ofNat _ (l + 1) (by omega), ← hrs, getD_append_length]
    have hq : (cs ++ [((d / ρ : Nat) : Int)]).getD l 0 = ((d / ρ : Nat) : Int) := by
      rw [← hcs, getD_append_length]
    have hr : (rs ++ [((d % ρ : Nat) : Int)]).getD l 0 ≠ 0 := by
      rw [List.getD_append _ _ _ _ (by omega), hρ]
      omega
    have hloop : ∀ fuel, euclid_loop (fuel + 1) ⟨d, l, cs, rs⟩ =
        if ((d % ρ : Nat) : Int) ≤ 1 then
          some (.ok ⟨ρ, ((l + 1 : Nat) : Int), cs ++ [((d / ρ : Nat) : Int)],
            rs ++ [((d % ρ : Nat) : Int)]⟩)
        else euclid_loop fuel ⟨ρ, ((l + 1 : Nat) : Int), cs ++ [((d / ρ : Nat) : Int)],
            rs ++ [((d % ρ : Nat) : Int)]⟩ := by
      intro fuel
      rw [euclid_loop_succ, hstep, bounded_bind_ok]
      simp only [hread, bounded_bind_ok]
    have hdiv : ρ * (d / ρ) + d % ρ = d := Nat.div_add_mod d ρ
    by_cases hm : d % ρ ≤ 1
    · have hm' : ((d % ρ : Nat) : Int) ≤ 1 := by omega
      refine ⟨ρ, l + 1, cs ++ [((d / ρ : Nat) : Int)], rs ++ [((d % ρ : Nat) : Int)], ?_,
        by rw [List.length_append, hcs]; rfl, hlen1, by omega, hl1, ?_⟩
      · intro fuel hfuel
        obtain ⟨f, rfl⟩ : ∃ f, fuel = f + 1 := ⟨fuel - 1, by omega⟩
        rw [hloop, if_pos hm']
      · intro w hw
        have hA : block (cs ++ [((d / ρ : Nat) : Int)] ++ [(ρ : Int)])
            (rs ++ [((d % ρ : Nat) : Int)]) (l + 1) = block cs rs (l + 1) := by
          rw [List.append_assoc]
          exact block_append cs rs _ _ (l + 1) (by omega) (by omega)
        have hB : block (cs ++ [((d / ρ : Nat) : Int)] ++ [(ρ : Int)])
            (rs ++ [((d % ρ : Nat) : Int)]) l = block cs rs l := by
          rw [List.append_assoc]
          exact block_append cs rs _ _ l (by omega) (by omega)
        have hq' : (cs ++ [((d / ρ : Nat) : Int)] ++ [(ρ : Int)]).getD l 0 =
            ((d / ρ : Nat) : Int) := by
          rw [List.getD_append _ _ _ _ (by rw [List.length_append, hcs]; simp), hq]
        have hρ' : (cs ++ [((d / ρ : Nat) : Int)] ++ [(ρ : Int)]).getD (l + 1) 0 = (ρ : Int) := by
          have e : l + 1 = (cs ++ [((d / ρ : Nat) : Int)]).length := by
            rw [List.length_append, hcs]; rfl
          rw [e, getD_append_length]
        have hm2 : (rs ++ [((d % ρ : Nat) : Int)]).getD (l + 1) 0 = ((d % ρ : Nat) : Int) := by
          rw [← hrs, getD_append_length]
        have h2 := additive_block_succ w hw _ _ l (d / ρ) hq' hr
        rw [hA, hB] at h2
        have h3 : w (block (cs ++ [((d / ρ : Nat) : Int)] ++ [(ρ : Int)])
            (rs ++ [((d % ρ : Nat) : Int)]) (l + 1 + 2)) =
            ρ * w (block (cs ++ [((d / ρ : Nat) : Int)] ++ [(ρ : Int)])
              (rs ++ [((d % ρ : Nat) : Int)]) (l + 2)) + d % ρ * w (block cs rs (l + 1)) := by
          by_cases hz : d % ρ = 0
          · have hz' : (rs ++ [((d % ρ : Nat) : Int)]).getD (l + 1) 0 = 0 := by
              rw [hm2, hz]; rfl
            rw [additive_block_succ_zero w hw _ _ (l + 1) ρ hρ' hz']
            have hzero : d % ρ * w (block cs rs (l + 1)) = 0 := by rw [hz, Nat.zero_mul]
            rw [hzero]
            exact (Nat.add_zero _).symm
          · have hone : d % ρ = 1 := by omega
            have hz' : (rs ++ [((d % ρ : Nat) : Int)]).getD (l + 1) 0 ≠ 0 := by
              rw [hm2, hone]; simp
            rw [additive_block_succ w hw _ _ (l + 1) ρ hρ' hz', hA, hone, Nat.one_mul]
        rw [h3, h2]
        calc ρ * (d / ρ * w (block cs rs (l + 1)) + w (block cs rs l)) +
              d % ρ * w (block cs rs (l + 1))
            = (ρ * (d / ρ) + d % ρ) * w (block cs rs (l + 1)) + ρ * w (block cs rs l) := by
              ring
          _ = d * w (block cs rs (l + 1)) + ρ * w (block cs rs l) := by rw [hdiv]
    · have hm' : ¬ ((d % ρ : Nat) : Int) ≤ 1 := by omega
      obtain ⟨d', l', cs', rs', hrun, hcs', hrs', hle, hlmax, hw'⟩ :=
        ih (d % ρ) hmlt ρ (l + 1) (cs ++ [((d / ρ : Nat) : Int)])
          (rs ++ [((d % ρ : Nat) : Int)]) (by rw [List.length_append, hcs]; rfl) hlen1
          (by rw [← hrs, getD_append_length]) (by omega) hρmax (by omega)
          (Or.inl (by
            rcases hbound with h | h <;> push_cast at h ⊢ <;> omega))
      refine ⟨d', l', cs', rs', ?_, hcs', hrs', by omega, hlmax, ?_⟩
      · intro fuel hfuel
        obtain ⟨f, rfl⟩ : ∃ f, fuel = f + 1 := ⟨fuel - 1, by omega⟩
        rw [hloop, if_neg hm']
        exact hrun f (by omega)
      · intro w hw
        have hA : block (cs ++ [((d / ρ : Nat) : Int)]) (rs ++ [((d % ρ : Nat) : Int)])
            (l + 1) = block cs rs (l + 1) :=
          block_append cs rs _ _ (l + 1) (by omega) (by omega)
        have hB : block (cs ++ [((d / ρ : Nat) : Int)]) (rs ++ [((d % ρ : Nat) : Int)]) l =
            block cs rs l :=
          block_append cs rs _ _ l (by omega) (by omega)
        have h2 := additive_block_succ w hw _ _ l (d / ρ) hq hr
        rw [hA, hB] at h2
        rw [hw' w hw, h2, hA]
        calc ρ * (d / ρ * w (block cs rs (l + 1)) + w (block cs rs l)) +
              d % ρ * w (block cs rs (l + 1))
            = (ρ * (d / ρ) + d % ρ) * w (block cs rs (l + 1)) + ρ * w (block cs rs l) := by
              ring
          _ = d * w (block cs rs (l + 1)) + ρ * w (block cs rs l) := by rw [hdiv]

/-! ### The whole function -/

/-- The run of `make_euclidean_pattern` on `0 < pulses <= steps`, in natural numbers: the
loop and the recursion end without undefined behaviour, and the pattern is the block of the
final level. -/
theorem make_euclidean_pattern_ofNat (S P : Nat) (hP : 0 < P) (hPS : P ≤ S)
    (hS : (S : Int) ≤ INT_MAX) :
    ∃ pattern : List Bool,
      (∀ fuel : Nat, P + 3 ≤ fuel →
        make_euclidean_pattern fuel (S : Int) (P : Int) = some (.ok pattern)) ∧
      pattern.length = S ∧ pattern.count true = P := by
  have hmax : INT_MAX = 2147483647 := rfl
  have hguard : ¬ ((P : Int) > (S : Int) ∨ (P : Int) = 0 ∨ (S : Int) = 0) := by omega
  have hsub : (S : Int) - (P : Int) = ((S - P : Nat) : Int) := by omega
  have hdiv : int_value ((S : Int) - (P : Int)) = .ok ((S - P : Nat) : Int) := by
    rw [hsub]
    exact int_value_ofNat _ (by omega)
  obtain ⟨d', l', cs', rs', hrun, hcs', hrs', hle, hlmax, hw⟩ :=
    euclid_loop_spec P (S - P) 0 [] [(P : Int)] rfl rfl rfl hP (by omega) (by omega)
      (by
        by_cases h : ((0 + P : Nat) : Int) ≤ INT_MAX - 3
        · exact Or.inl h
        · refine Or.inr ?_
          push_cast at h ⊢
          omega)
  refine ⟨block (cs' ++ [(d' : Int)]) rs' (l' + 2), ?_, ?_, ?_⟩
  · intro fuel hfuel
    have hrun' := hrun fuel (by omega)
    rw [Nat.cast_zero] at hrun'
    have hlevel : (l' : Int) = ((l' + 2 : Nat) : Int) - 2 := by omega
    rw [make_euclidean_pattern, if_neg hguard, hdiv, bounded_bind_ok, hrun', bounded_bind_ok]
    simp only []
    rw [hlevel, bjorklund_block _ _ fuel (l' + 2) 0 [] (by omega)
      (by rw [List.length_append, hcs']; simp) (by omega) (Int.le_refl 0)
      (by push_cast; omega), List.nil_append]
  · have h := hw List.length additive_length
    rw [h]
    simp only [block, List.length_singleton, Nat.mul_one]
    omega
  · have h := hw (List.count true) additive_count
    rw [h]
    simp [block]

/-- C26: for all `int` values with `0 < pulses <= steps`, `make_euclidean_pattern` ends
without dividing by zero (and without any other undefined behaviour) as soon as the bound
on its loop and recursion is at least `pulses + 3`, and returns a pattern of exactly
`steps` entries of which exactly `pulses` are true; when `pulses > steps`, `pulses = 0` or
`steps = 0` it returns the empty pattern. -/
theorem C26_euclidean_pattern_shape (steps pulses : Int) :
    (0 < pulses → pulses ≤ steps → steps ≤ INT_MAX →
      ∃ pattern : List Bool,
        (∀ fuel : Nat, pulses.toNat + 3 ≤ fuel →
          make_euclidean_pattern fuel steps pulses = some (.ok pattern)) ∧
        (pattern.length : Int) = steps ∧ ((pattern.count true : Nat) : Int) = pulses) ∧
    ((pulses > steps ∨ pulses = 0 ∨ steps = 0) →
      ∀ fuel, make_euclidean_pattern fuel steps pulses = some (.ok [])) := by
  constructor
  · intro h0 hle hmax
    have hp : ((pulses.toNat : Nat) : Int) = pulses := Int.toNat_of_nonneg (by omega)
    have hs : ((steps.toNat : Nat) : Int) = steps := Int.toNat_of_nonneg (by omega)
    obtain ⟨pattern, hrun, hlen, hcount⟩ :=
      make_euclidean_pattern_ofNat steps.toNat pulses.toNat (by omega) (by omega)
        (by rw [hs]; exact hmax)
    rw [hs, hp] at hrun
    exact ⟨pattern, hrun, by rw [hlen, hs], by rw [hcount, hp]⟩
  · intro h fuel
    rw [make_euclidean_pattern, if_pos h]

/-- Witness of C26: 3 pulses over 8 steps, and 8 pulses over 3 steps. -/
theorem C26_euclidean_pattern_shape_witness :
    (0 : Int) < 3 ∧ (3 : Int) ≤ 8 ∧ (8 : Int) ≤ INT_MAX ∧
    make_euclidean_pattern 6 8 3 =
      some (.ok [false, true, false, false, true, false, false, true]) ∧
    (∃ pattern : List Bool,
      (∀ fuel : Nat, (3 : Int).toNat + 3 ≤ fuel →
        make_euclidean_pattern fuel 8 3 = some (.ok pattern)) ∧
      (pattern.length : Int) = 8 ∧ ((pattern.count true : Nat) : Int) = 3) ∧
    ∀ fuel, make_euclidean_pattern fuel 3 8 = some (.ok []) :=
  ⟨by decide, by decide, by decide, rfl,
    (C26_euclidean_pattern_shape 8 3).1 (by decide) (by decide) (by decide),
    (C26_euclidean_pattern_shape 3 8).2 (Or.inl (by decide))⟩

end MeshPipeline
